import Mathlib

/-!
Verification development for the procedural level-generation core of the
Tam/rogue dungeon crawler (Rust).  The Rust sources under src/ are embedded
shallowly: tile grids become a structure holding a width, a height and a
total tile function indexed by the row-major index y*width+x (the source
invariant from map.rs); i32/usize arithmetic becomes Int/Nat arithmetic
(all executed paths stay in the nonnegative range, where Rust truncating
division and Lean euclidean division agree); the rltk random number
generator, whose contract is that roll_dice(1,n) is uniform on 1..=n and
range(a,b) is uniform on a..b, becomes an explicit stream of draws; f32
quantities that the code only ever fills with small decimal literals
(path weights 1.0 and 1.45, the cap 200.0) become exact rationals, with
the f32::MAX sentinel modelled as Option.none.

External collaborators from the rltk crate (DijkstraMap, line2d) and the
two repository files that are absent from this snapshot of src/
(src/rect.rs and src/map_builder/waveform_collapse/common.rs) are
modelled from the specification; every such definition carries a doc
comment saying so.  Everything else is translated from the source files.
-/

namespace Rogue

/-- TileType from src/map.rs (Void, Placeholder, Wall, Floor, DownStairs). -/
inductive TileType where
  | Void
  | Placeholder
  | Wall
  | Floor
  | DownStairs
deriving DecidableEq, Repr

open TileType

/-- Map from src/map.rs, reduced to the generation-relevant fields: width,
height and the tiles.  The tiles vector of length width*height is embedded
as a total function on row-major Int indices (indices outside
0..width*height are never read by the embedded code paths).  The
revealed/visible/blocked/bloodstains/tile_content fields are omitted:
blocked is recomputed from tiles by populate_blocked immediately before
every use, so it is embedded as the derived predicate blockedAt below, and
the others never influence tile contents. -/
structure Map where
  width : Int
  height : Int
  tiles : Int → TileType

/-- Map::xy_idx from src/map.rs: (y * width) + x. -/
def Map.xy_idx (m : Map) (x y : Int) : Int :=
  y * m.width + x

/-- One store into the tiles vector (map.tiles[idx] = t). -/
def Map.setTile (m : Map) (i : Int) (t : TileType) : Map :=
  { m with tiles := fun j => if j = i then t else m.tiles j }

/-- Map::new from src/map.rs: a width*height grid filled with
fill_tile.unwrap_or(TileType::Void). -/
def Map.new (width height : Int) (fill_tile : Option TileType) : Map :=
  { width := width, height := height, tiles := fun _ => fill_tile.getD TileType.Void }

/-- Map::populate_blocked from src/map.rs stores
(tile == Wall || tile == Void) into blocked[i]; since blocked is
recomputed from tiles before every read, it is embedded as this derived
predicate. -/
def Map.blockedAt (m : Map) (i : Int) : Bool :=
  m.tiles i == TileType.Wall || m.tiles i == TileType.Void

/-- Map::is_walkable from src/map.rs (prev: is_exit_valid): false outside
1 <= x <= width-1, 1 <= y <= height-1, otherwise the negation of blocked. -/
def Map.is_walkable (m : Map) (x y : Int) : Bool :=
  if x < 1 || x > m.width - 1 || y < 1 || y > m.height - 1 then false
  else !(m.blockedAt (m.xy_idx x y))

/-- Position from the crate root (a pair of i32 coordinates). -/
structure Position where
  x : Int
  y : Int
deriving DecidableEq, Repr

/-- The half-open Int interval a..b as a list, mirroring Rust for-loops. -/
def intRange (a b : Int) : List Int :=
  (List.range (b - a).toNat).map (fun (k : Nat) => a + (k : Int))

/-- The rltk RandomNumberGenerator, embedded as a stream of natural draws
together with a cursor.  The source treats the generator as an opaque
sequentially-consumed stream (spec section 5), so any function of the
consumed position is a faithful model of one run. -/
structure Rng where
  seq : Nat → Nat
  pos : Nat

/-- Draw the next raw value from the stream. -/
def Rng.next (r : Rng) : Nat × Rng :=
  (r.seq r.pos, { r with pos := r.pos + 1 })

/-- rltk roll_dice(1, n): a value in 1..=n, consuming one draw.  The max
guard keeps the embedding total; every call site passes n >= 1. -/
def rollDice (r : Rng) (n : Int) : Int × Rng :=
  let (v, r2) := r.next
  (1 + (Int.ofNat v) % (max n 1), r2)

/-- rltk range(lo, hi): a value in lo..hi (half-open), consuming one draw. -/
def rngRange (r : Rng) (lo hi : Int) : Int × Rng :=
  let (v, r2) := r.next
  (lo + (Int.ofNat v) % (max (hi - lo) 1), r2)

/-- An rng stream whose successive draws are the entries of l (0 after
the end). -/
def rngOfList (l : List Nat) : Rng :=
  { seq := fun k => l.getD k 0, pos := 0 }

/-! ## Waveform collapse: chunks and constraints
src/map_builder/waveform_collapse/constraints.rs, plus the MapChunk type
from waveform_collapse/common.rs, which is absent from this snapshot. -/

/-- Modelled from the spec: src/map_builder/waveform_collapse/common.rs is
absent from src/ (only its users are present).  Spec section 3, MapChunk:
pattern is a TileKind sequence of length chunkSize^2; exits holds 4
boolean arrays (one per side, length chunkSize) marking Floor-bordering
cells; hasExits; compatible_with holds 4 lists of chunk-pattern indices
legally adjacent on each side.  Side order 0..3 is north, south, west,
east as used by constraints.rs and solver.rs. -/
structure MapChunk where
  pattern : List TileType
  exits : List (List Bool)
  has_exits : Bool
  compatible_with : List (List Nat)
deriving DecidableEq, Repr

instance : Inhabited MapChunk :=
  ⟨{ pattern := [], exits := [], has_exits := false, compatible_with := [] }⟩

/-- Modelled from the spec: tile_idx_in_chunk from the absent
waveform_collapse/common.rs; by the row-major indexing invariant of spec
section 3 applied to a chunkSize-wide pattern, it is (y * chunk_size) + x,
matching the row-major order in which build_patterns pushes tiles. -/
def tile_idx_in_chunk (chunk_size x y : Int) : Int :=
  y * chunk_size + x

/-- Read of pattern[i] for an Int index (in range at every embedded call). -/
def patGet (p : List TileType) (i : Int) : TileType :=
  p.getD i.toNat TileType.Wall

/-- build_patterns from constraints.rs: cut the map into non-overlapping
chunk_size x chunk_size patterns in row-major chunk order, each pattern
read row-major; with include_flipping, also push the horizontal, vertical
and both-axis mirrored variants; with dedupe, collapse to the set of
distinct patterns (the source drains into a HashSet, so the resulting
order is unspecified -- spec section 4.5; the embedding keeps first
occurrences). -/
def build_patterns (m : Map) (chunk_size : Int) (include_flipping dedupe : Bool) :
    List (List TileType) :=
  let chunks_x := m.width / chunk_size
  let chunks_y := m.height / chunk_size
  let patterns :=
    (intRange 0 chunks_y).flatMap (fun cy =>
      (intRange 0 chunks_x).flatMap (fun cx =>
        let start_x := cx * chunk_size
        let end_x := (cx + 1) * chunk_size
        let start_y := cy * chunk_size
        let end_y := (cy + 1) * chunk_size
        let normal :=
          (intRange start_y end_y).flatMap (fun y =>
            (intRange start_x end_x).map (fun x => m.tiles (m.xy_idx x y)))
        if !include_flipping then [normal]
        else
          let horizontal :=
            (intRange start_y end_y).flatMap (fun y =>
              (intRange start_x end_x).map (fun x =>
                m.tiles (m.xy_idx (end_x - (x + 1)) y)))
          let vertical :=
            (intRange start_y end_y).flatMap (fun y =>
              (intRange start_x end_x).map (fun x =>
                m.tiles (m.xy_idx x (end_y - (y + 1)))))
          let both :=
            (intRange start_y end_y).flatMap (fun y =>
              (intRange start_x end_x).map (fun x =>
                m.tiles (m.xy_idx (end_x - (x + 1)) (end_y - (y + 1)))))
          [normal, horizontal, vertical, both]))
  if dedupe then patterns.eraseDups else patterns

/-- The four exit bitmaps of a pattern, sides ordered north, south, west,
east, computed exactly as the x-loop of patterns_to_constraints: slot s of
a side is true when the border tile there is Floor. -/
def chunkExits (chunk_size : Int) (p : List TileType) : List (List Bool) :=
  [ (List.range chunk_size.toNat).map (fun x =>
      patGet p (tile_idx_in_chunk chunk_size (Int.ofNat x) 0) == TileType.Floor),
    (List.range chunk_size.toNat).map (fun x =>
      patGet p (tile_idx_in_chunk chunk_size (Int.ofNat x) (chunk_size - 1)) == TileType.Floor),
    (List.range chunk_size.toNat).map (fun x =>
      patGet p (tile_idx_in_chunk chunk_size 0 (Int.ofNat x)) == TileType.Floor),
    (List.range chunk_size.toNat).map (fun x =>
      patGet p (tile_idx_in_chunk chunk_size (chunk_size - 1) (Int.ofNat x)) == TileType.Floor) ]

/-- n_exits of patterns_to_constraints: the total number of true slots
over the four exit bitmaps. -/
def countExits (e : List (List Bool)) : Nat :=
  (e.map (fun side => side.countP (fun b => b))).sum

/-- The direction -> opposite map of patterns_to_constraints
(N to S, S to N, W to E, E to W). -/
def oppositeOf (direction : Nat) : Nat :=
  match direction with
  | 0 => 1
  | 1 => 0
  | 2 => 3
  | _ => 2

/-- The inner slot loop of patterns_to_constraints for one candidate j,
with its exact push semantics: walking the paired slots (can_enter from
the exit list of c on the direction side, opp_open from the opposite side
of the candidate), it_fits latches once a slot is open on both sides and
from then on pushes j at EVERY remaining slot; while has_any is still
false (no open slot of c seen yet) j is pushed whenever the candidate's
opposite side has zero closed slots (wildcardOk, a loop constant the
source recomputes each slot). -/
def compatSlots (j : Nat) (wildcardOk : Bool) :
    List (Bool × Bool) → Bool → Bool → List Nat
  | [], _, _ => []
  | (canEnter, oppOpen) :: rest, itFits, hasAny =>
    let hasAny2 := hasAny || canEnter
    let itFits2 := itFits || (canEnter && oppOpen)
    ((if itFits2 then [j] else []) ++ (if !hasAny2 && wildcardOk then [j] else [])) ++
      compatSlots j wildcardOk rest itFits2 hasAny2

/-- The compatibility list of chunk c in one direction, walking the
candidate list in index order exactly as the j-loop of
patterns_to_constraints: a candidate pair where either side has has_exits
false is pushed unconditionally (the source pushes it into all four
direction lists), otherwise the slot loop runs on this direction's exit
list against the candidate's opposite side. -/
def compatDirection (ch : List MapChunk) (c : MapChunk) (direction : Nat) : List Nat :=
  (List.range ch.length).flatMap (fun j =>
    let potential := ch.getD j default
    if !c.has_exits || !potential.has_exits then [j]
    else
      let exitList := c.exits.getD direction []
      let oppExits := potential.exits.getD (oppositeOf direction) []
      compatSlots j (oppExits.countP (fun a => !a) == 0) (exitList.zip oppExits) false false)

/-- patterns_to_constraints from constraints.rs: first build each chunk
with its exit bitmaps and has_exits flag (false exactly when n_exits is
zero) and empty compatibility lists, then fill the four compatibility
lists of every chunk against the pristine clone of that first pass. -/
def patterns_to_constraints (patterns : List (List TileType)) (chunk_size : Int) :
    List MapChunk :=
  let base := patterns.map (fun p =>
    let e := chunkExits chunk_size p
    { pattern := p, exits := e, has_exits := countExits e != 0,
      compatible_with := [[], [], [], []] : MapChunk })
  base.map (fun c =>
    { c with compatible_with :=
        [compatDirection base c 0, compatDirection base c 1,
         compatDirection base c 2, compatDirection base c 3] })

/-- render_pattern_to_map from constraints.rs: blit the pattern row-major
at (start_x, start_y), then overwrite every open exit slot on each border
with Placeholder.  (In the build path of the repository this function is
only reachable from the visualiser-only tile gallery; the solver blits
patterns directly.)  The visible_tiles store is omitted (not a tile). -/
def render_pattern_to_map (m : Map) (chunk : MapChunk) (chunk_size start_x start_y : Int) :
    Map :=
  let blitted :=
    (intRange 0 chunk_size).foldl (fun acc y =>
      (intRange 0 chunk_size).foldl (fun acc2 x =>
        acc2.setTile (acc2.xy_idx (start_x + x) (start_y + y))
          (patGet chunk.pattern (y * chunk_size + x))) acc) m
  let north :=
    ((chunk.exits.getD 0 []).enum.foldl (fun acc p =>
      if p.2 then acc.setTile (acc.xy_idx (start_x + Int.ofNat p.1) start_y) TileType.Placeholder
      else acc) blitted)
  let south :=
    ((chunk.exits.getD 1 []).enum.foldl (fun acc p =>
      if p.2 then
        acc.setTile (acc.xy_idx (start_x + Int.ofNat p.1) (start_y + chunk_size - 1))
          TileType.Placeholder
      else acc) north)
  let west :=
    ((chunk.exits.getD 2 []).enum.foldl (fun acc p =>
      if p.2 then acc.setTile (acc.xy_idx start_x (start_y + Int.ofNat p.1)) TileType.Placeholder
      else acc) south)
  ((chunk.exits.getD 3 []).enum.foldl (fun acc p =>
    if p.2 then
      acc.setTile (acc.xy_idx (start_x + chunk_size - 1) (start_y + Int.ofNat p.1))
        TileType.Placeholder
    else acc) west)

/-! ## Waveform collapse: the solver
src/map_builder/waveform_collapse/solver.rs. -/

/-- Solver from solver.rs: the constraint table, the chunk size, the
chunk-slot grid (None = empty, Some = filled with a pattern index), its
dimensions, the outstanding worklist of (slot index, neighbour count)
pairs, and the success flag. -/
structure Solver where
  constraints : List MapChunk
  chunk_size : Int
  chunks : List (Option Nat)
  chunks_x : Nat
  chunks_y : Nat
  remaining : List (Nat × Int)
  possible : Bool

/-- Solver::new from solver.rs: chunks_x*chunks_y empty slots, the whole
slot range outstanding with neighbour count 0, possible = true. -/
def Solver.new (constraints : List MapChunk) (chunk_size : Int) (m : Map) : Solver :=
  let chunks_x := (m.width / chunk_size).toNat
  let chunks_y := (m.height / chunk_size).toNat
  { constraints := constraints, chunk_size := chunk_size,
    chunks := List.replicate (chunks_x * chunks_y) none,
    chunks_x := chunks_x, chunks_y := chunks_y,
    remaining := (List.range (chunks_x * chunks_y)).map (fun i => (i, 0)),
    possible := true }

/-- Solver::chunk_idx from solver.rs. -/
def Solver.chunk_idx (s : Solver) (x y : Nat) : Nat :=
  y * s.chunks_x + x

/-- Solver::count_neighbours from solver.rs: how many of the (up to four)
cardinal slot neighbours of (chunk_x, chunk_y) are filled. -/
def Solver.count_neighbours (s : Solver) (chunk_x chunk_y : Nat) : Int :=
  (if chunk_x > 0 && (s.chunks.getD (s.chunk_idx (chunk_x - 1) chunk_y) none).isSome
   then 1 else 0) +
  (if chunk_x < s.chunks_x - 1 && (s.chunks.getD (s.chunk_idx (chunk_x + 1) chunk_y) none).isSome
   then 1 else 0) +
  (if chunk_y > 0 && (s.chunks.getD (s.chunk_idx chunk_x (chunk_y - 1)) none).isSome
   then 1 else 0) +
  (if chunk_y < s.chunks_y - 1 && (s.chunks.getD (s.chunk_idx chunk_x (chunk_y + 1)) none).isSome
   then 1 else 0)

/-- The per-direction compatibility lists gathered from the filled
neighbours of slot (chunk_x, chunk_y), in the source order left, right,
up, down; each filled neighbour contributes its compatible_with list for
the side facing this slot (3 = east of the left neighbour, 2 = west of
the right one, 1 = south of the upper one, 0 = north of the lower one).
The source increments its neighbours counter exactly once per pushed
list, so that counter equals the length of this list. -/
def Solver.gatherOptions (s : Solver) (chunk_x chunk_y : Nat) : List (List Nat) :=
  (if chunk_x > 0 then
    match s.chunks.getD (s.chunk_idx (chunk_x - 1) chunk_y) none with
    | some nt => [(s.constraints.getD nt default).compatible_with.getD 3 []]
    | none => []
   else []) ++
  (if chunk_x < s.chunks_x - 1 then
    match s.chunks.getD (s.chunk_idx (chunk_x + 1) chunk_y) none with
    | some nt => [(s.constraints.getD nt default).compatible_with.getD 2 []]
    | none => []
   else []) ++
  (if chunk_y > 0 then
    match s.chunks.getD (s.chunk_idx chunk_x (chunk_y - 1)) none with
    | some nt => [(s.constraints.getD nt default).compatible_with.getD 1 []]
    | none => []
   else []) ++
  (if chunk_y < s.chunks_y - 1 then
    match s.chunks.getD (s.chunk_idx chunk_x (chunk_y + 1)) none with
    | some nt => [(s.constraints.getD nt default).compatible_with.getD 0 []]
    | none => []
   else [])

/-- The intersection of the gathered per-direction lists, as computed by
the source: collect every index occurring in some gathered list into a
HashSet, then keep those contained in every gathered list.  The source
iterates the HashSet in unspecified order; the embedding enumerates the
candidate pattern indices in increasing order, which yields the same set
of survivors (each gathered element is below constraints.len), and only
the emptiness and the length of this list feed the rest of the
iteration. -/
def possibleOptions (numConstraints : Nat) (options : List (List Nat)) : List Nat :=
  (List.range numConstraints).filter (fun k => options.all (fun o => o.contains k))

/-- The blit loop at the end of Solver::iteration: copy the pattern
row-major into the map rectangle whose top-left tile is (left, top); the
running counter i of the source equals y*chunk_size + x. -/
def blitChunk (m : Map) (pattern : List TileType) (chunk_size left top : Int) : Map :=
  (intRange 0 chunk_size).foldl (fun acc y =>
    (intRange 0 chunk_size).foldl (fun acc2 x =>
      acc2.setTile (acc2.xy_idx (left + x) (top + y)) (patGet pattern (y * chunk_size + x)))
      acc) m

/-- The shared tail of both stamping branches of Solver::iteration:
record the chosen pattern index in the slot and blit its tiles into the
map rectangle of the slot, reporting not-done. -/
def Solver.fill (s : Solver) (remaining2 : List (Nat × Int)) (chunk_index new_chunk_idx : Nat)
    (m : Map) (rng : Rng) : Solver × Map × Rng × Bool :=
  ({ s with remaining := remaining2,
            chunks := s.chunks.set chunk_index (some new_chunk_idx) },
   blitChunk m (s.constraints.getD new_chunk_idx default).pattern s.chunk_size
     (Int.ofNat (chunk_index % s.chunks_x) * s.chunk_size)
     (Int.ofNat (chunk_index / s.chunks_x) * s.chunk_size),
   rng, false)

/-- Solver::iteration from solver.rs, one to one: report done on an empty
worklist; recount every outstanding slot's filled neighbours; stable-sort
the worklist by descending count (Rust sort_by is a stable sort, and a
stable sort by a fixed total preorder is unique, so the embedding uses
insertion sort, the canonical stable sort); pick index 0 if any count is
positive,
else a uniformly random worklist index; remove the pick; gather the
facing compatibility lists of its filled neighbours; with no filled
neighbour stamp a uniformly random pattern; otherwise intersect the
gathered lists, and on an empty intersection set possible = false and
report done, else set new_chunk_idx to 0 when the intersection is a
singleton and to roll_dice(1, len)-1 otherwise -- the source uses that
POSITION itself as the pattern index to record and blit (it never indexes
possible_options with it). -/
def Solver.iteration (s : Solver) (m : Map) (rng : Rng) : Solver × Map × Rng × Bool :=
  if s.remaining.isEmpty then (s, m, rng, true)
  else
    let remainCopy := s.remaining.map (fun r =>
      (r.1, s.count_neighbours (r.1 % s.chunks_x) (r.1 / s.chunks_x)))
    let neighboursExist := remainCopy.any (fun r => r.2 > 0)
    let sorted := remainCopy.insertionSort (fun a b => b.2 ≤ a.2)
    let (remainingIndex, rng1) :=
      if !neighboursExist then
        let (v, r2) := rollDice rng (Int.ofNat sorted.length)
        ((v - 1).toNat, r2)
      else (0, rng)
    let chunk_index := (sorted.getD remainingIndex (0, 0)).1
    let remaining2 := sorted.eraseIdx remainingIndex
    let options := s.gatherOptions (chunk_index % s.chunks_x) (chunk_index / s.chunks_x)
    if options.length = 0 then
      let (v, rng2) := rollDice rng1 (Int.ofNat s.constraints.length)
      Solver.fill s remaining2 chunk_index (v - 1).toNat m rng2
    else
      let po := possibleOptions s.constraints.length options
      if po.isEmpty then
        ({ s with remaining := remaining2, possible := false }, m, rng1, true)
      else if po.length = 1 then
        Solver.fill s remaining2 chunk_index 0 m rng1
      else
        let (v, rng2) := rollDice rng1 (Int.ofNat po.length)
        Solver.fill s remaining2 chunk_index (v - 1).toNat m rng2

/-- The driver loop of WaveformCollapseBuilder::build: call iteration
until it reports done, with explicit fuel; none means the fuel ran out
first. -/
def solveFuel : Nat → Solver → Map → Rng → Option (Solver × Map × Rng)
  | 0, _, _, _ => none
  | fuel + 1, s, m, rng =>
    match Solver.iteration s m rng with
    | (s2, m2, rng2, true) => some (s2, m2, rng2)
    | (s2, m2, rng2, false) => solveFuel fuel s2 m2 rng2

/-- The solver-safety check of spec section 8, stated on one adjacent slot
pair: if both slots are filled, each placed pattern must be listed as
compatible with the other in the facing direction (dij is the side of the
first facing the second, dji the reverse). -/
def Solver.pairOk (s : Solver) (i j dij dji : Nat) : Bool :=
  match s.chunks.getD i none, s.chunks.getD j none with
  | some a, some b =>
      ((s.constraints.getD a default).compatible_with.getD dij []).contains b &&
      ((s.constraints.getD b default).compatible_with.getD dji []).contains a
  | _, _ => true

/-- The solver-safety check of spec section 8 over the whole chunk grid:
every internal horizontal boundary (east/west) and vertical boundary
(south/north) between filled slots carries mutually compatible
patterns. -/
def Solver.boundariesCompatible (s : Solver) : Bool :=
  (List.range s.chunks_y).all (fun y =>
    (List.range s.chunks_x).all (fun x =>
      (!(x + 1 < s.chunks_x) ||
        s.pairOk (s.chunk_idx x y) (s.chunk_idx (x + 1) y) 3 2) &&
      (!(y + 1 < s.chunks_y) ||
        s.pairOk (s.chunk_idx x y) (s.chunk_idx x (y + 1)) 1 0)))

/-! ## Concrete waveform-collapse fixture
Three 2x2 patterns over a 4x2 map (a 2x1 chunk grid).  cexP0 has Floor
only on its east column, cexP1 only at its south-east corner, cexPA is
all Floor; the constraint table is computed by patterns_to_constraints
itself.  The rng stream 0, 2 makes the first iteration pick slot 0 and
stamp pattern 2 (the all-Floor chunk). -/

/-- Fixture pattern 0: Floor on the east column only. -/
def cexP0 : List TileType := [Wall, Floor, Wall, Floor]

/-- Fixture pattern 1: Floor at the south-east corner only. -/
def cexP1 : List TileType := [Wall, Wall, Wall, Floor]

/-- Fixture pattern 2: all Floor. -/
def cexPA : List TileType := [Floor, Floor, Floor, Floor]

/-- The constraint table of the fixture. -/
def cexConstraints : List MapChunk := patterns_to_constraints [cexP0, cexP1, cexPA] 2

/-- The 4x2 all-Wall target map of the fixture. -/
def cexMap : Map := Map.new 4 2 (some Wall)

/-- The fixture rng: first draw 0 (slot pick), second draw 2 (pattern
pick), every later draw 0 (never consumed). -/
def cexRng : Rng := rngOfList [0, 2]

/-- The fixture solver state after the first iteration call. -/
def cexStep1 : Solver × Map × Rng × Bool :=
  Solver.iteration (Solver.new cexConstraints 2 cexMap) cexMap cexRng

/-- The fixture solver state after the second iteration call. -/
def cexStep2 : Solver × Map × Rng × Bool :=
  Solver.iteration cexStep1.1 cexStep1.2.1 cexStep1.2.2.1

/-- The fixture run driven to completion (three iteration calls). -/
def cexFinal : Solver :=
  match solveFuel 3 (Solver.new cexConstraints 2 cexMap) cexMap cexRng with
  | some (s, _, _) => s
  | none => Solver.new cexConstraints 2 cexMap

/-! ## The connectivity engine
Map::get_available_exits from src/map.rs, the rltk DijkstraMap collaborator
(modelled from the spec), and
remove_unreachable_areas_returning_most_distant from
src/map_builder/common.rs. -/

/-- Map::get_available_exits from src/map.rs: up to four cardinal
neighbours at cost 1.0 and four diagonal neighbours at cost 1.45, in the
source push order.  Every f32 cost in this engine is a small decimal
literal (1.0 and 1.45 here, the cap 200.0 at the call site), all exact
multiples of 0.05, so costs are embedded as exact integers in twentieths:
1.0 is 20, 1.45 is 29 and 200.0 is 4000; the positive scaling preserves
every comparison and sum the code performs. -/
def Map.get_available_exits (m : Map) (idx : Int) : List (Int × Int) :=
  let x := idx % m.width
  let y := idx / m.width
  let w := m.width
  (if m.is_walkable (x - 1) y then [(idx - 1, (20 : Int))] else []) ++
  (if m.is_walkable (x + 1) y then [(idx + 1, (20 : Int))] else []) ++
  (if m.is_walkable x (y - 1) then [(idx - w, (20 : Int))] else []) ++
  (if m.is_walkable x (y + 1) then [(idx + w, (20 : Int))] else []) ++
  (if m.is_walkable (x - 1) (y - 1) then [((idx - w) - 1, (29 : Int))] else []) ++
  (if m.is_walkable (x + 1) (y - 1) then [((idx - w) + 1, (29 : Int))] else []) ++
  (if m.is_walkable (x - 1) (y + 1) then [((idx + w) - 1, (29 : Int))] else []) ++
  (if m.is_walkable (x + 1) (y + 1) then [((idx + w) + 1, (29 : Int))] else [])

/-- Modelled from the spec: one relaxation round of the rltk DijkstraMap
collaborator (an external crate; spec section 4.2: single-source
shortest-path distances over the 8-directional exits graph, capped at a
maximum accumulated cost, unreached tiles carrying the infinite sentinel,
embedded as none).  The round rewrites the distance row (one Option entry
per tile, index order): entry i is lowered by every offer dist j + cost
along an available exit of j landing on i, admitted only while the
accumulated cost stays within the cap. -/
def dijkstraRelax (m : Map) (maxDepth : Int) (d : List (Option Int)) : List (Option Int) :=
  (List.range (m.width * m.height).toNat).map (fun i =>
    (List.range (m.width * m.height).toNat).foldl (fun acc j =>
      match d.getD j none with
      | none => acc
      | some dj =>
        (m.get_available_exits (Int.ofNat j)).foldl (fun acc2 e =>
          if e.1 = Int.ofNat i ∧ dj + e.2 ≤ maxDepth then
            match acc2 with
            | none => some (dj + e.2)
            | some cur => some (min cur (dj + e.2))
          else acc2) acc) (d.getD i none))

/-- Modelled from the spec: the distance map of rltk::DijkstraMap::new
with a single start of distance 0, computed as width*height rounds of
capped relaxation; with the nonnegative edge costs of
get_available_exits this reaches every tile whose shortest-path cost is
within the cap, and leaves the sentinel (none) elsewhere. -/
def dijkstraDist (m : Map) (start : Int) (maxDepth : Int) : Int → Option Int :=
  fun i =>
    if 0 ≤ i then
      (Nat.iterate (dijkstraRelax m maxDepth) (m.width * m.height).toNat
        ((List.range (m.width * m.height).toNat).map
          (fun j => if Int.ofNat j = start then some 0 else none))).getD i.toNat none
    else none

/-- The tile sweep of remove_unreachable_areas_returning_most_distant:
walk all tile indices in order carrying the tiles under construction and
the running (exit index, exit distance) pair; skip non-Floor tiles, turn
sentinel-distance Floor tiles to Wall, and strictly improve the running
maximum on finite-distance Floor tiles.  The source mutates in place
while iterating, but each index is visited once, so reading the original
tiles is equivalent. -/
def pruneSweep (m : Map) (dist : Int → Option Int) :
    List Nat → (Int → TileType) → (Int × Int) → (Int → TileType) × (Int × Int)
  | [], t, best => (t, best)
  | i :: rest, t, best =>
    if m.tiles (Int.ofNat i) ≠ TileType.Floor then pruneSweep m dist rest t best
    else
      match dist (Int.ofNat i) with
      | none =>
        pruneSweep m dist rest
          (fun j => if j = Int.ofNat i then TileType.Wall else t j) best
      | some dd =>
        if best.2 < dd then pruneSweep m dist rest t (Int.ofNat i, dd)
        else pruneSweep m dist rest t best

/-- The prune-and-find-exit sweep against a given distance map: sweep all
tiles (exit seeded with index 0 at distance 0.0) and return the pruned
map together with the exit index.  Parameterizing over the distance map
lets the builder embeddings treat the rltk DijkstraMap as an oracle. -/
def removeUnreachableWith (m : Map) (dist : Int → Option Int) : Map × Int :=
  let r := pruneSweep m dist (List.range (m.width * m.height).toNat) m.tiles (0, 0)
  ({ m with tiles := r.1 }, r.2.1)

/-- remove_unreachable_areas_returning_most_distant from
src/map_builder/common.rs: populate blocked, build the Dijkstra map from
the start with cap 200.0 (4000 twentieths), and run the sweep. -/
def remove_unreachable_areas_returning_most_distant (m : Map) (start_idx : Int) :
    Map × Int :=
  removeUnreachableWith m (dijkstraDist m start_idx 4000)

/-! ## The cellular automata builder
src/map_builder/cellular_automata.rs. -/

/-- MAP_WIDTH and MAP_HEIGHT from src/map.rs. -/
def MAP_WIDTH : Int := 80

/-- MAP_HEIGHT from src/map.rs. -/
def MAP_HEIGHT : Int := 43

/-- The wall-neighbour count of one smoothing step, with the exact index
offsets of the source (idx +- 1, idx +- width, idx -+ (width - 1),
idx -+ (width + 1)). -/
def caWallCount (m : Map) (idx : Int) : Nat :=
  let w := m.width
  (if m.tiles (idx - 1) = TileType.Wall then 1 else 0) +
  (if m.tiles (idx + 1) = TileType.Wall then 1 else 0) +
  (if m.tiles (idx - w) = TileType.Wall then 1 else 0) +
  (if m.tiles (idx + w) = TileType.Wall then 1 else 0) +
  (if m.tiles (idx - (w - 1)) = TileType.Wall then 1 else 0) +
  (if m.tiles (idx - (w + 1)) = TileType.Wall then 1 else 0) +
  (if m.tiles (idx + (w - 1)) = TileType.Wall then 1 else 0) +
  (if m.tiles (idx + (w + 1)) = TileType.Wall then 1 else 0)

/-- The interior coordinates visited by the smoothing loops, in source
order (y in 1..height-1 outer, x in 1..width-1 inner). -/
def caInteriorCells (m : Map) : List (Int × Int) :=
  (intRange 1 (m.height - 1)).flatMap (fun y =>
    (intRange 1 (m.width - 1)).map (fun x => (x, y)))

/-- One smoothing pass of CellularAutomataBuilder::build: new_tiles
starts as a clone of the previous generation, and every interior index
is rewritten from the PREVIOUS generation by the majority rule (Wall
when the wall-neighbour count exceeds 4 or is 0, Floor otherwise). -/
def caPass (m : Map) : Map :=
  { m with tiles :=
      (caInteriorCells m).foldl (fun acc p =>
        fun j => if j = m.xy_idx p.1 p.2 then
          (if caWallCount m (m.xy_idx p.1 p.2) > 4 ∨ caWallCount m (m.xy_idx p.1 p.2) = 0
           then TileType.Wall else TileType.Floor)
        else acc j) m.tiles }

/-- The 15-pass smoothing loop of CellularAutomataBuilder::build. -/
def caSmooth (m : Map) : Map :=
  (List.range 15).foldl (fun acc _ => caPass acc) m

/-- The initial random fill of CellularAutomataBuilder::build: every
interior tile rolls 1d100 and becomes Floor when the roll exceeds 55,
Wall otherwise. -/
def caFill (m : Map) (rng : Rng) : Map × Rng :=
  (intRange 1 (m.height - 1)).foldl (fun p y =>
    (intRange 1 (m.width - 1)).foldl (fun p2 x =>
      let (roll, rng2) := rollDice p2.2 100
      (p2.1.setTile (p2.1.xy_idx x y) (if roll > 55 then TileType.Floor else TileType.Wall),
       rng2)) p) (m, rng)

/-- The start-seeking loop of CellularAutomataBuilder::build (also used
by WaveformCollapseBuilder::build): walk left from x until a Floor tile
of row y is found.  Fuel bounds the walk; the source panics past the map
edge, embedded as none. -/
def walkLeft (m : Map) (y : Int) : Int → Nat → Option Int
  | _, 0 => none
  | x, Nat.succ fuel =>
    if m.tiles (m.xy_idx x y) = TileType.Floor then some x
    else walkLeft m y (x - 1) fuel

/-- The smoothing rule as worded by Scenario 2 of the spec (4-neighbour
majority), for comparison with the coded pass: identical to caPass
except that only the four cardinal neighbours are counted. -/
def caPassFourNeighbourSpec (m : Map) : Map :=
  { m with tiles :=
      (caInteriorCells m).foldl (fun acc p =>
        fun j => if j = m.xy_idx p.1 p.2 then
          (let w := m.width
           let idx := m.xy_idx p.1 p.2
           let n := (if m.tiles (idx - 1) = TileType.Wall then 1 else 0) +
             (if m.tiles (idx + 1) = TileType.Wall then 1 else 0) +
             (if m.tiles (idx - w) = TileType.Wall then 1 else 0) +
             (if m.tiles (idx + w) = TileType.Wall then 1 else 0)
           if n > 4 ∨ n = 0 then TileType.Wall else TileType.Floor)
        else acc j) m.tiles }

/-- The wall-neighbour count written with explicit coordinates: the
number of Wall tiles among the 8 surrounding coordinates of (x, y). -/
def geomWallCount (m : Map) (x y : Int) : Nat :=
  (if m.tiles (m.xy_idx (x - 1) y) = TileType.Wall then 1 else 0) +
  (if m.tiles (m.xy_idx (x + 1) y) = TileType.Wall then 1 else 0) +
  (if m.tiles (m.xy_idx x (y - 1)) = TileType.Wall then 1 else 0) +
  (if m.tiles (m.xy_idx x (y + 1)) = TileType.Wall then 1 else 0) +
  (if m.tiles (m.xy_idx (x + 1) (y - 1)) = TileType.Wall then 1 else 0) +
  (if m.tiles (m.xy_idx (x - 1) (y - 1)) = TileType.Wall then 1 else 0) +
  (if m.tiles (m.xy_idx (x - 1) (y + 1)) = TileType.Wall then 1 else 0) +
  (if m.tiles (m.xy_idx (x + 1) (y + 1)) = TileType.Wall then 1 else 0)

/-- The shared closing move of every pruning builder: run the sweep
against the distance oracle (in the program rltk::DijkstraMap with cap
200.0) and stamp DownStairs on the returned exit index. -/
def pruneAndStamp (m : Map) (dist : Int → Option Int) : Map :=
  let pr := removeUnreachableWith m dist
  pr.1.setTile pr.2 TileType.DownStairs

/-- The shared closing steps of the center-walking builders (cellular
automata and waveform collapse): walk left from the center to the start,
prune against the distance oracle, stamp the stairs. -/
def caFinish (m2 : Map) (dij : Map → Int → Int → Option Int) (walkFuel : Nat) :
    Option (Map × Position) :=
  match walkLeft m2 (m2.height / 2) (m2.width / 2) walkFuel with
  | none => none
  | some sx =>
    some (pruneAndStamp m2 (dij m2 (m2.xy_idx sx (m2.height / 2))),
      { x := sx, y := m2.height / 2 })

/-- CellularAutomataBuilder::build, tile pipeline: fill the 80x43
all-Wall map randomly, smooth 15 times, walk left from the center to the
start, prune unreachable floors against the Dijkstra collaborator
(passed as an oracle), stamp the stairs on the returned exit.  The
spawn-region noise pass touches no tiles and is omitted. -/
def cellular_automata_build (rng : Rng) (dij : Map → Int → Int → Option Int)
    (walkFuel : Nat) : Option (Map × Position) :=
  caFinish (caSmooth (caFill (Map.new MAP_WIDTH MAP_HEIGHT (some TileType.Wall)) rng).1)
    dij walkFuel

/-! ## Voronoi builder
src/map_builder/voronoi.rs -/

/-- The distance metric choices of VoronoiBuilder (DistanceAlgorithm in
voronoi.rs). -/
inductive DistanceAlgorithm where
  | Pythagoras
  | Manhattan
  | Chebyshev
deriving DecidableEq

/-- Modelled from the spec: the rltk DistanceAlg variants the build
matches on are external crate code.  Spec section 4.3: Pythagoras (the
build uses the squared form, which has the same minimisers), Manhattan,
Chebyshev.  On integer points all three produce exactly representable
values, embedded as Int. -/
def voronoiDist (alg : DistanceAlgorithm) (x y px py : Int) : Int :=
  match alg with
  | .Pythagoras => (x - px) * (x - px) + (y - py) * (y - py)
  | .Manhattan => |x - px| + |y - py|
  | .Chebyshev => max |x - px| |y - py|

/-- The seed-scatter loop of VoronoiBuilder::build: roll vx in
1..=(width-1) and vy in 1..=(height*2 - 1), form the candidate
(xy_idx vx vy, (vx, vy)), and push it unless the list already contains
it, until n seeds are collected.  Fuel bounds the retries (the source
loops until success). -/
def voronoiSeedLoop (m : Map) (n : Nat) :
    Nat → List (Int × Int × Int) → Rng → Option (List (Int × Int × Int) × Rng)
  | 0, acc, rng => if n ≤ acc.length then some (acc, rng) else none
  | Nat.succ fuel, acc, rng =>
    if n ≤ acc.length then some (acc, rng)
    else
      let r1 := rollDice rng (m.width - 1)
      let r2 := rollDice r1.2 (m.height * 2 - 1)
      let cand : Int × Int × Int := (m.xy_idx r1.1 r2.1, r1.1, r2.1)
      voronoiSeedLoop m n fuel (if acc.contains cand then acc else acc ++ [cand]) r2.2

/-- The membership pass of VoronoiBuilder::build for one tile index: the
probed coordinates are (i % width, i / HEIGHT) -- the y division uses
the map height, exactly as the source line `let y = i as i32 /
self.map.height` does -- every seed's distance to that point is
tabulated as (seed, dist), the table is sorted ascending by distance
(the source uses the stable slice sort_by; insertionSort is the stable
sort), and the first entry's seed index is the membership. -/
def voronoiMembership (alg : DistanceAlgorithm) (seeds : List (Int × Int × Int))
    (m : Map) (i : Int) : Int :=
  let x := i % m.width
  let y := i / m.height
  let dists := seeds.enum.map
    (fun p => ((p.1 : Int), voronoiDist alg x y p.2.2.1 p.2.2.2))
  ((dists.insertionSort (fun a b => a.2 ≤ b.2)).headD (0, 0)).1

/-- The neighbours counter of the carve loop: how many of the 4 cardinal
neighbours of (x, y) lie in a DIFFERENT membership region than the tile
itself. -/
def voronoiDiffCount (m : Map) (memb : Int → Int) (x y : Int) : Nat :=
  let seed := memb (m.xy_idx x y)
  (if memb (m.xy_idx (x - 1) y) ≠ seed then 1 else 0) +
  (if memb (m.xy_idx (x + 1) y) ≠ seed then 1 else 0) +
  (if memb (m.xy_idx x (y - 1)) ≠ seed then 1 else 0) +
  (if memb (m.xy_idx x (y + 1)) ≠ seed then 1 else 0)

/-- The carve loop of VoronoiBuilder::build: every interior tile with
fewer than 2 different-membership cardinal neighbours is carved to
Floor; all other tiles are untouched.  The voronoi_membership array is
passed as the memb function. -/
def voronoiCarve (m : Map) (memb : Int → Int) : Map :=
  { m with tiles :=
      (caInteriorCells m).foldl (fun acc p =>
        if voronoiDiffCount m memb p.1 p.2 < 2 then
          (fun j => if j = m.xy_idx p.1 p.2 then TileType.Floor else acc j)
        else acc) m.tiles }

/-- VoronoiBuilder::build, tile pipeline: start at the map center,
scatter 64 seeds, compute every tile's membership, carve, prune against
the Dijkstra collaborator (oracle), stamp the stairs on the returned
exit.  The spawn-region noise pass touches no tiles and is omitted. -/
def voronoi_build (alg : DistanceAlgorithm) (rng : Rng)
    (dij : Map → Int → Int → Option Int) (seedFuel : Nat) :
    Option (Map × Position) :=
  let m0 := Map.new MAP_WIDTH MAP_HEIGHT (some TileType.Wall)
  let sx := m0.width / 2
  let sy := m0.height / 2
  let start_idx := m0.xy_idx sx sy
  match voronoiSeedLoop m0 64 seedFuel [] rng with
  | none => none
  | some (seeds, _) =>
    let memb := voronoiMembership alg seeds m0
    let m1 := voronoiCarve m0 memb
    some (pruneAndStamp m1 (dij m1 start_idx), { x := sx, y := sy })

/-! ## SimpleMap builder
src/map_builder/simple_map.rs, with the room and corridor helpers of
src/map_builder/common.rs -/

/-- Modelled from the spec: src/rect.rs is absent from src/ (only its
users remain).  Spec sections 3 and 4.1: an axis-aligned Rect with
x1 < x2, y1 < y2, a center() midpoint and an intersects(other) overlap
test; Rect::new(x,y,w,h) spans x..x+w and y..y+h. -/
structure Rect where
  x1 : Int
  y1 : Int
  x2 : Int
  y2 : Int
deriving DecidableEq, Repr

/-- Modelled from the spec: Rect::new(x, y, w, h). -/
def Rect.new (x y w h : Int) : Rect :=
  { x1 := x, y1 := y, x2 := x + w, y2 := y + h }

/-- Modelled from the spec: Rect::center, the integer midpoint pair. -/
def Rect.center (r : Rect) : Int × Int :=
  ((r.x1 + r.x2) / 2, (r.y1 + r.y2) / 2)

/-- Modelled from the spec: Rect::intersect, closed coordinate-range
overlap. -/
def Rect.intersect (r o : Rect) : Bool :=
  r.x1 ≤ o.x2 && r.x2 ≥ o.x1 && r.y1 ≤ o.y2 && r.y2 ≥ o.y1

/-- apply_room_to_map from common.rs: writes the closed box
room.y1..room.y2+1 x room.x1..room.x2+1, Wall on its border and Floor
inside. -/
def apply_room_to_map (m : Map) (room : Rect) : Map :=
  let top := room.y1
  let btm := room.y2 + 1
  let lft := room.x1
  let rgt := room.x2 + 1
  (intRange top (btm + 1)).foldl (fun acc y =>
    (intRange lft (rgt + 1)).foldl (fun acc2 x =>
      acc2.setTile (acc2.xy_idx x y)
        (if x = lft ∨ x = rgt ∨ y = top ∨ y = btm then TileType.Wall
         else TileType.Floor)) acc) m

/-- The loop body of draw_corridor from common.rs: step one tile toward
(x2, y2) -- x first, as the source's else-if chain does -- carve Floor
there, and wall up every non-Floor tile of the surrounding 3x3 ring.
The fuel is the exact Manhattan step count, which the while loop
consumes one per iteration. -/
def drawCorridorGo (x2 y2 : Int) : Map → Int → Int → Nat → Map
  | m, _, _, 0 => m
  | m, x, y, Nat.succ fuel =>
    if x = x2 ∧ y = y2 then m
    else
      let p : Int × Int :=
        if x < x2 then (x + 1, y)
        else if x > x2 then (x - 1, y)
        else if y < y2 then (x, y + 1)
        else (x, y - 1)
      let m1 := m.setTile (m.xy_idx p.1 p.2) TileType.Floor
      let m2 := (intRange (p.2 - 1) (p.2 + 2)).foldl (fun acc yy =>
        (intRange (p.1 - 1) (p.1 + 2)).foldl (fun acc2 xx =>
          if p.1 = xx ∧ p.2 = yy then acc2
          else if acc2.tiles (acc2.xy_idx xx yy) ≠ TileType.Floor
          then acc2.setTile (acc2.xy_idx xx yy) TileType.Wall
          else acc2) acc) m1
      drawCorridorGo x2 y2 m2 p.1 p.2 fuel

/-- draw_corridor from common.rs. -/
def draw_corridor (m : Map) (x1 y1 x2 y2 : Int) : Map :=
  drawCorridorGo x2 y2 m x1 y1 ((x2 - x1).natAbs + (y2 - y1).natAbs)

/-- apply_horizontal_tunnel from common.rs. -/
def apply_horizontal_tunnel (m : Map) (x1 x2 y : Int) : Map :=
  draw_corridor m (min x1 x2) y (max x1 x2) y

/-- apply_vertical_tunnel from common.rs. -/
def apply_vertical_tunnel (m : Map) (y1 y2 x : Int) : Map :=
  draw_corridor m x (min y1 y2) x (max y1 y2)

/-- The generateRooms loop of SimpleMapBuilder::rooms_and_corridors:
each of the (remaining) MAX_ROOMS attempts rolls a 6..9 size pair and a
position, and keeps the room only if it intersects no kept room. -/
def smGenRooms : Nat → Map × List Rect × Rng → Map × List Rect × Rng
  | 0, st => st
  | Nat.succ k, (m, rooms, rng) =>
    let (w, rng1) := rngRange rng 6 10
    let (h, rng2) := rngRange rng1 6 10
    let (xr, rng3) := rollDice rng2 (MAP_WIDTH - w - 1)
    let (yr, rng4) := rollDice rng3 (MAP_HEIGHT - h - 1)
    let new_room := Rect.new (xr - 1) (yr - 1) w h
    if rooms.any (fun r => new_room.intersect r) then
      smGenRooms k (m, rooms, rng4)
    else
      smGenRooms k (apply_room_to_map m new_room, rooms ++ [new_room], rng4)

/-- The tunnel loop of rooms_and_corridors: an L-shaped corridor between
each successive pair of room centers, with a coin deciding which leg
comes first. -/
def smTunnels (rooms : List Rect) (st : Map × Rng) : Map × Rng :=
  (rooms.zip (rooms.drop 1)).foldl (fun st2 pr =>
    let (px, py) := pr.1.center
    let (nx, ny) := pr.2.center
    let (coin, rng1) := rngRange st2.2 0 2
    if coin = 1 then
      (apply_vertical_tunnel (apply_horizontal_tunnel st2.1 px nx py) py ny nx, rng1)
    else
      (apply_horizontal_tunnel (apply_vertical_tunnel st2.1 py ny px) px nx ny, rng1)) st

/-- SimpleMapBuilder::rooms_and_corridors: generate up to 30
non-overlapping rooms on the Void-filled 80x43 map, tunnel successive
centers, stamp DownStairs on the LAST room's center and start at the
FIRST room's center.  (The source indexes rooms[len-1] and rooms[0],
panicking when no room was kept; the embedding defaults to a degenerate
rect, a case no run reaches since the first attempt never intersects.) -/
def simple_map_build (rng : Rng) : Map × Position :=
  let m0 := Map.new MAP_WIDTH MAP_HEIGHT none
  let st := smGenRooms 30 (m0, [], rng)
  let (m2, _) := smTunnels st.2.1 (st.1, st.2.2)
  let stairs_pos := (st.2.1.getLastD (Rect.new 0 0 0 0)).center
  let m3 := m2.setTile (m2.xy_idx stairs_pos.1 stairs_pos.2) TileType.DownStairs
  let start_pos := (st.2.1.headD (Rect.new 0 0 0 0)).center
  (m3, { x := start_pos.1, y := start_pos.2 })

/-- The tile assignment as WORDED by claim C6, for comparison with the
coded membership: tile i sits at grid position (i % width, i / WIDTH)
and must be assigned a seed of minimal distance to that position.
Checks whether asg is such a nearest seed. -/
def specNearestOk (alg : DistanceAlgorithm) (seeds : List (Int × Int × Int))
    (m : Map) (i asg : Int) : Bool :=
  let x := i % m.width
  let y := i / m.width
  seeds.enum.any (fun p =>
    ((p.1 : Int) == asg) &&
    seeds.all (fun s =>
      decide (voronoiDist alg x y p.2.2.1 p.2.2.2 ≤ voronoiDist alg x y s.2.1 s.2.2)))

/-- The count of SAME-membership cardinal neighbours, for the carve rule
as WORDED by claim C6. -/
def specSameCount (m : Map) (memb : Int → Int) (x y : Int) : Nat :=
  let seed := memb (m.xy_idx x y)
  (if memb (m.xy_idx (x - 1) y) = seed then 1 else 0) +
  (if memb (m.xy_idx (x + 1) y) = seed then 1 else 0) +
  (if memb (m.xy_idx x (y - 1)) = seed then 1 else 0) +
  (if memb (m.xy_idx x (y + 1)) = seed then 1 else 0)

/-- The carved value of an interior tile as WORDED by claim C6: Floor
exactly when the tile borders fewer than 2 same-region cardinal
neighbours, otherwise the tile is left as it was. -/
def specCarvedTile (m : Map) (memb : Int → Int) (x y : Int) : TileType :=
  if specSameCount m memb x y < 2 then TileType.Floor else m.tiles (m.xy_idx x y)

/-- The compatibility rule as WORDED by the spec (section 4.5) and claim
C4, for comparison with the lists the source computes: A accepts B in
direction D when (a) both have exits on the relevant sides and some open
slot of A on side D lines up with an open slot of B on the opposite
side, or (b) either pattern has zero exits on the relevant side (a side
with no open cells is a wildcard). -/
def specCompatible (a b : MapChunk) (d : Nat) : Bool :=
  let aSide := a.exits.getD d []
  let bSide := b.exits.getD (oppositeOf d) []
  (aSide.any id && bSide.any id && (aSide.zip bSide).any (fun p => p.1 && p.2)) ||
  (!aSide.any id || !bSide.any id)

/-- Whether the slot loop of patterns_to_constraints pushes the candidate
at least once, as a recursion mirroring compatSlots. -/
def slotCond (wildcardOk : Bool) : List (Bool × Bool) → Bool → Bool → Bool
  | [], _, _ => false
  | (canEnter, oppOpen) :: rest, itFits, hasAny =>
    let hasAny2 := hasAny || canEnter
    let itFits2 := itFits || (canEnter && oppOpen)
    itFits2 || (!hasAny2 && wildcardOk) || slotCond wildcardOk rest itFits2 hasAny2

/-- The number of filled slots of a solver state. -/
def Solver.filledCount (s : Solver) : Nat :=
  s.chunks.countP (fun c => c.isSome)

/-- Fixture for the connectivity engine: a 4x3 map, all Wall except
Floor at indices 5 = (1,1) and 6 = (2,1); index 5 is the start. -/
def pruneFixtureMap : Map :=
  ((Map.new 4 3 (some TileType.Wall)).setTile 5 TileType.Floor).setTile 6 TileType.Floor

/-- Fixture for the exit weights: a 3x3 all-Floor map, probed at the
center index 4. -/
def diagFixtureMap : Map :=
  Map.new 3 3 (some TileType.Floor)

/-- Fixture for the smoothing-rule comparison: a 3x3 all-Floor map with
a single Wall in the north-west corner. -/
def caCexMap : Map :=
  (Map.new 3 3 (some TileType.Floor)).setTile 0 TileType.Wall

/-- Fixture rng stream for the voronoi seed scatter: 64 draw pairs
producing the seeds (1,5), (1,9), (79,1) .. (79,61), (70,85) in order,
all distinct, so the scatter loop never retries. -/
def cexVorRng : Rng :=
  rngOfList ([0, 4, 0, 8] ++ (List.range 61).flatMap (fun j => [78, j]) ++ [69, 84])

/-- The 64 seeds the fixture stream scatters, as (vidx, vx, vy)
candidates on the 80x43 map. -/
def cexVorSeeds : List (Int × Int × Int) :=
  [(401, 1, 5), (721, 1, 9)] ++
  (List.range 61).map (fun j => (((j : Int) + 1) * 80 + 79, 79, (j : Int) + 1)) ++
  [(6870, 70, 85)]

/-- The initial all-Wall 80x43 voronoi map. -/
def cexVorMap : Map := Map.new MAP_WIDTH MAP_HEIGHT (some TileType.Wall)

/-! ## Drunkard walk builder
src/map_builder/drunkard.rs -/

/-- DrunkSpawnMode from drunkard.rs. -/
inductive DrunkSpawnMode where
  | StartingPoint
  | Random
deriving DecidableEq

/-- DrunkardSettings from drunkard.rs.  The source stores floor_percent
as an f32 and computes desired_floor_tiles = (floor_percent * total) as
usize inside build; on the fixed 80x43 grid that conversion is exact
(0.5 * 3440 = 1720 for open_area and open_halls, 0.4 * 3440 = 1376 for
winding_passages), so the embedding stores the resulting tile target
directly. -/
structure DrunkardSettings where
  spawn_mode : DrunkSpawnMode
  lifetime : Int
  desired_floor_tiles : Nat

/-- DrunkardWalkBuilder::open_area. -/
def openAreaSettings : DrunkardSettings :=
  { spawn_mode := DrunkSpawnMode.StartingPoint, lifetime := 400, desired_floor_tiles := 1720 }

/-- DrunkardWalkBuilder::open_halls. -/
def openHallsSettings : DrunkardSettings :=
  { spawn_mode := DrunkSpawnMode.Random, lifetime := 400, desired_floor_tiles := 1720 }

/-- DrunkardWalkBuilder::winding_passages. -/
def windingPassagesSettings : DrunkardSettings :=
  { spawn_mode := DrunkSpawnMode.StartingPoint, lifetime := 100, desired_floor_tiles := 1376 }

/-- The floor_tile_count recount: how many tile entries are Floor. -/
def floorCount (m : Map) : Nat :=
  (intRange 0 (m.width * m.height)).countP (fun i => m.tiles i == TileType.Floor)

/-- The four-way stagger of the drunkard and DLA walkers (identical match
blocks in drunkard.rs and dla.rs): direction 1 steps left when x > 2,
2 right when x < width-2, 3 up when y > 2, anything else down when
y < height-2. -/
def stagger (m : Map) (x y d : Int) : Int × Int :=
  if d = 1 then (if x > 2 then x - 1 else x, y)
  else if d = 2 then (if x < m.width - 2 then x + 1 else x, y)
  else if d = 3 then (x, if y > 2 then y - 1 else y)
  else (x, if y < m.height - 2 then y + 1 else y)

/-- The inner digger loop of DrunkardWalkBuilder::build (non-visualiser
path): for lifetime steps, carve Floor on Wall tiles and stagger.  (With
the mapgen_visualiser feature the carve writes Placeholder instead and a
sweep after the digger rewrites every Placeholder to Floor; the game
build carves Floor directly.) -/
def drunkWalk : Map → Int → Int → Rng → Nat → Map × Rng
  | m, _, _, rng, 0 => (m, rng)
  | m, x, y, rng, Nat.succ life =>
    let idx := m.xy_idx x y
    let m1 := if m.tiles idx = TileType.Wall then m.setTile idx TileType.Floor else m
    let r := rollDice rng 4
    let p := stagger m1 x y r.1
    drunkWalk m1 p.1 p.2 r.2 life

/-- The outer digger loop of DrunkardWalkBuilder::build: while the floor
count is short of the target, spawn a digger (at the start, or from the
second digger of Random mode at a rolled interior point) and walk it.
Fuel bounds the digger count; the source loops until the target is
met. -/
def drunkOuter (st : DrunkardSettings) (sx sy : Int) :
    Map → Rng → Nat → Nat → Option (Map × Rng)
  | m, rng, _, 0 =>
    if st.desired_floor_tiles ≤ floorCount m then some (m, rng) else none
  | m, rng, diggerCount, Nat.succ fuel =>
    if st.desired_floor_tiles ≤ floorCount m then some (m, rng)
    else
      let sp : (Int × Int) × Rng :=
        match st.spawn_mode with
        | DrunkSpawnMode.StartingPoint => ((sx, sy), rng)
        | DrunkSpawnMode.Random =>
          if diggerCount = 0 then ((sx, sy), rng)
          else
            let r1 := rollDice rng (m.width - 3)
            let r2 := rollDice r1.2 (m.height - 3)
            ((r1.1 + 1, r2.1 + 1), r2.2)
      let w := drunkWalk m sp.1.1 sp.1.2 sp.2 st.lifetime.toNat
      drunkOuter st sx sy w.1 w.2 (diggerCount + 1) fuel

/-- DrunkardWalkBuilder::build, tile pipeline: start at the center,
carve it to Floor, run the diggers, prune against the Dijkstra
collaborator (oracle), stamp the stairs.  The spawn-region noise pass
touches no tiles and is omitted.  The fat_passages and fearful_symmetry
constructors named by mod.rs are absent from this snapshot's
drunkard.rs, so the pipeline is proved for EVERY DrunkardSettings
value. -/
def drunkard_build (st : DrunkardSettings) (rng : Rng)
    (dij : Map → Int → Int → Option Int) (fuel : Nat) : Option (Map × Position) :=
  let m0 := Map.new MAP_WIDTH MAP_HEIGHT (some TileType.Wall)
  let sx := m0.width / 2
  let sy := m0.height / 2
  let start_idx := m0.xy_idx sx sy
  let m1 := m0.setTile start_idx TileType.Floor
  match drunkOuter st sx sy m1 rng 0 fuel with
  | none => none
  | some (m2, _) =>
    some (pruneAndStamp m2 (dij m2 start_idx), { x := sx, y := sy })

/-! ## DLA builder
src/map_builder/dla.rs -/

/-- DLAAlgorithm from dla.rs. -/
inductive DLAAlgorithm where
  | WalkInwards
  | WalkOutwards
  | CentralAttractor
deriving DecidableEq

/-- DLASymmetry from dla.rs. -/
inductive DLASymmetry where
  | None
  | Horizontal
  | Vertical
  | Both
deriving DecidableEq

/-- DLABuilder::apply_paint: brush size 1 writes one Floor tile; a
larger brush writes the half-brush box around (x, y), clipped to the
interior. -/
def apply_paint (m : Map) (brush_size x y : Int) : Map :=
  if brush_size = 1 then m.setTile (m.xy_idx x y) TileType.Floor
  else
    let half := brush_size / 2
    (intRange (y - half) (y + half)).foldl (fun acc yy =>
      (intRange (x - half) (x + half)).foldl (fun acc2 xx =>
        if xx > 1 ∧ xx < m.width - 1 ∧ yy > 1 ∧ yy < m.height - 1 then
          acc2.setTile (acc2.xy_idx xx yy) TileType.Floor
        else acc2) acc) m

/-- DLABuilder::paint: apply_paint mirrored according to the symmetry
setting (horizontal about width/2, vertical about height/2, or both). -/
def paint (m : Map) (sym : DLASymmetry) (brush_size x y : Int) : Map :=
  match sym with
  | DLASymmetry.None => apply_paint m brush_size x y
  | DLASymmetry.Horizontal =>
    let cx := m.width / 2
    if x = cx then apply_paint m brush_size x y
    else
      let dx := |cx - x|
      apply_paint (apply_paint m brush_size (cx + dx) y) brush_size (cx - dx) y
  | DLASymmetry.Vertical =>
    let cy := m.height / 2
    if y = cy then apply_paint m brush_size x y
    else
      let dy := |cy - y|
      apply_paint (apply_paint m brush_size x (cy + dy)) brush_size x (cy - dy)
  | DLASymmetry.Both =>
    let cx := m.width / 2
    let cy := m.height / 2
    if x = cx ∧ y = cy then apply_paint m brush_size x y
    else
      let dx := |cx - x|
      let m1 := apply_paint (apply_paint m brush_size (cx + dx) y) brush_size (cx - dx) y
      let dy := |cy - y|
      apply_paint (apply_paint m1 brush_size x (cy + dy)) brush_size x (cy - dy)

/-- paint at a position pair (the source's paint(prev_x, prev_y) call
sites). -/
def paintPoint (m : Map) (sym : DLASymmetry) (brush : Int) (p : Int × Int) : Map :=
  paint m sym brush p.1 p.2

/-- The WalkInwards digger of DLABuilder::build: stagger from a random
interior point until leaving Wall, remembering the previous position,
which gets painted.  Fuel bounds the walk; none models the source
walking forever. -/
def dlaWalkInwards (m : Map) : Int → Int → Int → Int → Rng → Nat → Option (Int × Int × Rng)
  | x, y, px, py, rng, 0 =>
    if m.tiles (m.xy_idx x y) ≠ TileType.Wall then some (px, py, rng) else none
  | x, y, px, py, rng, Nat.succ f =>
    if m.tiles (m.xy_idx x y) ≠ TileType.Wall then some (px, py, rng)
    else
      let r := rollDice rng 4
      let p := stagger m x y r.1
      dlaWalkInwards m p.1 p.2 x y r.2 f

/-- The WalkOutwards digger of DLABuilder::build: stagger from the
start until leaving Floor; the final position gets painted. -/
def dlaWalkOutwards (m : Map) : Int → Int → Rng → Nat → Option (Int × Int × Rng)
  | x, y, rng, 0 =>
    if m.tiles (m.xy_idx x y) ≠ TileType.Floor then some (x, y, rng) else none
  | x, y, rng, Nat.succ f =>
    if m.tiles (m.xy_idx x y) ≠ TileType.Floor then some (x, y, rng)
    else
      let r := rollDice rng 4
      let p := stagger m x y r.1
      dlaWalkOutwards m p.1 p.2 r.2 f

/-- The CentralAttractor digger of DLABuilder::build: follow the
rltk::line2d path (an oracle parameter) toward the start while still on
Wall and the path is nonempty, remembering the previous position, which
gets painted. -/
def dlaAttractor (m : Map) : List (Int × Int) → Int → Int → Int → Int → Int × Int
  | path, x, y, px, py =>
    if m.tiles (m.xy_idx x y) ≠ TileType.Wall then (px, py)
    else
      match path with
      | [] => (px, py)
      | q :: rest => dlaAttractor m rest q.1 q.2 x y

/-- The outer particle loop of DLABuilder::build: while the floor count
is short of the target, run one digger of the chosen algorithm and paint
its result.  Fuel bounds the particle count. -/
def dlaOuter (alg : DLAAlgorithm) (sym : DLASymmetry) (brush : Int) (desired : Nat)
    (sx sy : Int) (line : Int → Int → Int → Int → List (Int × Int)) (walkFuel : Nat) :
    Map → Rng → Nat → Option (Map × Rng)
  | m, rng, 0 => if desired ≤ floorCount m then some (m, rng) else none
  | m, rng, Nat.succ fuel =>
    if desired ≤ floorCount m then some (m, rng)
    else
      match alg with
      | DLAAlgorithm.WalkInwards =>
        match dlaWalkInwards m ((rollDice rng (m.width - 3)).1 + 1)
            ((rollDice (rollDice rng (m.width - 3)).2 (m.height - 3)).1 + 1)
            ((rollDice rng (m.width - 3)).1 + 1)
            ((rollDice (rollDice rng (m.width - 3)).2 (m.height - 3)).1 + 1)
            ((rollDice (rollDice rng (m.width - 3)).2 (m.height - 3)).2) walkFuel with
        | none => none
        | some (px, py, rng2) =>
          dlaOuter alg sym brush desired sx sy line walkFuel (paint m sym brush px py) rng2 fuel
      | DLAAlgorithm.WalkOutwards =>
        match dlaWalkOutwards m sx sy rng walkFuel with
        | none => none
        | some (x, y, rng2) =>
          dlaOuter alg sym brush desired sx sy line walkFuel (paint m sym brush x y) rng2 fuel
      | DLAAlgorithm.CentralAttractor =>
        dlaOuter alg sym brush desired sx sy line walkFuel
          (paintPoint m sym brush
            (dlaAttractor m (line ((rollDice rng (m.width - 3)).1 + 1)
                ((rollDice (rollDice rng (m.width - 3)).2 (m.height - 3)).1 + 1) sx sy)
              ((rollDice rng (m.width - 3)).1 + 1)
              ((rollDice (rollDice rng (m.width - 3)).2 (m.height - 3)).1 + 1)
              ((rollDice rng (m.width - 3)).1 + 1)
              ((rollDice (rollDice rng (m.width - 3)).2 (m.height - 3)).1 + 1)))
          ((rollDice (rollDice rng (m.width - 3)).2 (m.height - 3)).2) fuel

/-- DLABuilder::build, tile pipeline: carve the five-tile starting seed
at the center of the all-Wall map, run the particle loop (floor_percent
is 0.25 for every variant, and 0.25 * 3440 converts exactly to 860),
prune against the Dijkstra collaborator (oracle), stamp the stairs.
The spawn-region noise pass touches no tiles and is omitted. -/
def dla_build (alg : DLAAlgorithm) (sym : DLASymmetry) (brush : Int) (rng : Rng)
    (dij : Map → Int → Int → Option Int)
    (line : Int → Int → Int → Int → List (Int × Int))
    (fuel walkFuel : Nat) : Option (Map × Position) :=
  let m0 := Map.new MAP_WIDTH MAP_HEIGHT (some TileType.Wall)
  let sx := m0.width / 2
  let sy := m0.height / 2
  let start_idx := m0.xy_idx sx sy
  let m1 := ((((m0.setTile start_idx TileType.Floor).setTile
    (start_idx - 1) TileType.Floor).setTile
    (start_idx + 1) TileType.Floor).setTile
    (start_idx - m0.width) TileType.Floor).setTile
    (start_idx + m0.width) TileType.Floor
  match dlaOuter alg sym brush 860 sx sy line walkFuel m1 rng fuel with
  | none => none
  | some (m2, _) =>
    some (pruneAndStamp m2 (dij m2 start_idx), { x := sx, y := sy })

/-! ## Maze builder
src/map_builder/maze.rs -/

/-- A cell of the maze grid (maze.rs Cell), reduced to the fields
copy_to_map reads: its row/column and the four wall flags in the order
TOP, RIGHT, BOTTOM, LEFT.  The recursive-backtracker (Grid::
generate_maze) mutates only the cell graph and never the tile map; its
single tile effect is the final copy_to_map of whatever cell list it
produced, so the embedding takes that cell list as a parameter and the
theorems quantify over it, covering every run of the backtracker. -/
structure MazeCell where
  row : Int
  column : Int
  walls : List Bool
deriving DecidableEq

/-- Grid::copy_to_map from maze.rs: reset every tile to Wall, then for
each cell open its center tile (at ((column+1)*2, (row+1)*2)) and the
tile toward each absent wall. -/
def maze_copy_to_map (m : Map) (cells : List MazeCell) : Map :=
  let base := { m with tiles := fun _ => TileType.Wall }
  cells.foldl (fun acc cell =>
    let x := cell.column + 1
    let y := cell.row + 1
    let idx := acc.xy_idx (x * 2) (y * 2)
    let a1 := acc.setTile idx TileType.Floor
    let a2 := if !(cell.walls.getD 0 true) then a1.setTile (idx - a1.width) TileType.Floor
      else a1
    let a3 := if !(cell.walls.getD 1 true) then a2.setTile (idx + 1) TileType.Floor else a2
    let a4 := if !(cell.walls.getD 2 true) then a3.setTile (idx + a3.width) TileType.Floor
      else a3
    if !(cell.walls.getD 3 true) then a4.setTile (idx - 1) TileType.Floor else a4) base

/-- MazeBuilder::build, tile pipeline: copy the generated cell graph to
the map, start at (2, 2), prune against the Dijkstra collaborator
(oracle), stamp the stairs.  The spawn-region noise pass touches no
tiles and is omitted. -/
def maze_build (cells : List MazeCell) (dij : Map → Int → Int → Option Int) :
    Map × Position :=
  let m0 := Map.new MAP_WIDTH MAP_HEIGHT none
  let m1 := maze_copy_to_map m0 cells
  let start_idx := m1.xy_idx 2 2
  (pruneAndStamp m1 (dij m1 start_idx), { x := 2, y := 2 })

/-! ## BSP builders
src/map_builder/bsp_interior.rs and src/map_builder/bsp_dungeon.rs -/

/-- The corridor loop shared verbatim by both BSP builders: for each
successive room pair, roll a point in each room and draw_corridor
between them (both files duplicate common.rs draw_corridor word for
word, so the embedding reuses it). -/
def bspCorridors (rooms : List Rect) (st : Map × Rng) : Map × Rng :=
  (rooms.zip (rooms.drop 1)).foldl (fun st2 pr =>
    let room := pr.1
    let next := pr.2
    let r1 := rollDice st2.2 |room.x1 - room.x2|
    let r2 := rollDice r1.2 |room.y1 - room.y2|
    let r3 := rollDice r2.2 |next.x1 - next.x2|
    let r4 := rollDice r3.2 |next.y1 - next.y2|
    (draw_corridor st2.1 (room.x1 + r1.1 - 1) (room.y1 + r2.1 - 1)
      (next.x1 + r3.1 - 1) (next.y1 + r4.1 - 1), r4.2)) st

/-- BspInteriorBuilder::build, tile pipeline.  The rects produced by the
recursive splitter add_subrects depend only on the rng, never on the
map; the embedding takes that list as a parameter and the theorems
quantify over it, covering every splitter outcome.  Each rect is dug as
a Floor box over y1..y2 x x1..x2 guarded by 0 < idx < width*height - 1,
successive rooms are joined by corridors, and the stairs land on the
last room's center (this builder never prunes). -/
def bsp_interior_build (rects : List Rect) (rng : Rng) : Map × Position :=
  let m0 := Map.new MAP_WIDTH MAP_HEIGHT (some TileType.Wall)
  let m1 := rects.foldl (fun acc room =>
    (intRange room.y1 room.y2).foldl (fun acc2 y =>
      (intRange room.x1 room.x2).foldl (fun acc3 x =>
        let idx := acc3.xy_idx x y
        if 0 < idx ∧ idx < acc3.width * acc3.height - 1 then
          acc3.setTile idx TileType.Floor
        else acc3) acc2) acc) m0
  let st := bspCorridors rects (m1, rng)
  let start := (rects.headD (Rect.new 0 0 0 0)).center
  let stairs := (rects.getLastD (Rect.new 0 0 0 0)).center
  (st.1.setTile (st.1.xy_idx stairs.1 stairs.2) TileType.DownStairs,
   { x := start.1, y := start.2 })

/-- BspDungeonBuilder::add_subrects: quarter the rect (halves clamped to
at least 1) and push the four quadrant rects. -/
def bspAddSubrects (rect : Rect) : List Rect :=
  let width := |rect.x1 - rect.x2|
  let height := |rect.y1 - rect.y2|
  let half_width := max (width / 2) 1
  let half_height := max (height / 2) 1
  [Rect.new rect.x1 rect.y1 half_width half_height,
   Rect.new rect.x1 (rect.y1 + half_height) half_width half_height,
   Rect.new (rect.x1 + half_width) rect.y1 half_width half_height,
   Rect.new (rect.x1 + half_width) (rect.y1 + half_height) half_width half_height]

/-- BspDungeonBuilder::get_random_rect. -/
def get_random_rect (rects : List Rect) (rng : Rng) : Rect × Rng :=
  if rects.length = 1 then (rects.getD 0 (Rect.new 0 0 0 0), rng)
  else
    let r := rollDice rng (Int.ofNat rects.length)
    (rects.getD (r.1 - 1).toNat (Rect.new 0 0 0 0), r.2)

/-- BspDungeonBuilder::get_random_sub_rect: shrink the rect to a rolled
3..10-ish box jittered by two d6 rolls. -/
def get_random_sub_rect (rect : Rect) (rng : Rng) : Rect × Rng :=
  let width := |rect.x1 - rect.x2|
  let height := |rect.y1 - rect.y2|
  let rw := rollDice rng (min width 10)
  let rh := rollDice rw.2 (min height 10)
  let w := max 3 (rw.1 - 1) + 1
  let h := max 3 (rh.1 - 1) + 1
  let rx := rollDice rh.2 6
  let ry := rollDice rx.2 6
  let x1 := rect.x1 + rx.1 - 1
  let y1 := rect.y1 + ry.1 - 1
  ({ x1 := x1, y1 := y1, x2 := x1 + w, y2 := y1 + h }, ry.2)

/-- Map::is_void_or_wall from map.rs. -/
def Map.is_void_or_wall (m : Map) (x y : Int) : Bool :=
  m.tiles (m.xy_idx x y) == TileType.Wall || m.tiles (m.xy_idx x y) == TileType.Void

/-- BspDungeonBuilder::is_possible: expand the candidate by the source's
margins and require every covered coordinate to be in bounds and
void-or-wall (the can_build flag latches false). -/
def is_possible (m : Map) (rect : Rect) : Bool :=
  (intRange (rect.y1 - 2) (rect.y2 + 2)).foldl (fun cb y =>
    (intRange (rect.x1 - 2) (rect.x2 + 3)).foldl (fun cb2 x =>
      let cb3 := cb2 && !(x > m.width - 2) && !(y > m.height - 2) && !(x < 1) && !(y < 1)
      if cb3 then m.is_void_or_wall x y else cb3) cb) true

/-- The 240-attempt room loop of BspDungeonBuilder::build: pick a random
rect, shrink it to a candidate, and if the candidate's expanded box is
free, dig it, record it, and quarter the picked rect. -/
def bspDungeonLoop : Nat → Map × List Rect × List Rect × Rng → Map × List Rect × List Rect × Rng
  | 0, st => st
  | Nat.succ k, (m, rooms, rects, rng) =>
    let gr := get_random_rect rects rng
    let gc := get_random_sub_rect gr.1 gr.2
    if is_possible m gc.1 then
      bspDungeonLoop k
        (apply_room_to_map m gc.1, rooms ++ [gc.1], rects ++ bspAddSubrects gr.1, gc.2)
    else
      bspDungeonLoop k (m, rooms, rects, gc.2)

/-- BspDungeonBuilder::build, tile pipeline: seed the rect list with the
big 2,2 rect and its quarters, run the 240-attempt room loop, sort the
rooms by x1 (the source's stable sort_by, embedded as insertion sort),
join successive rooms by corridors, and stamp the stairs on the last
room's center (this builder never prunes). -/
def bsp_dungeon_build (rng : Rng) : Map × Position :=
  let m0 := Map.new MAP_WIDTH MAP_HEIGHT none
  let first := Rect.new 2 2 (m0.width - 5) (m0.height - 5)
  let st := bspDungeonLoop 240 (m0, [], [first] ++ bspAddSubrects first, rng)
  let rooms := st.2.1.insertionSort (fun a b => a.x1 ≤ b.x1)
  let st2 := bspCorridors rooms (st.1, st.2.2.2)
  let start := (rooms.headD (Rect.new 0 0 0 0)).center
  let stairs := (rooms.getLastD (Rect.new 0 0 0 0)).center
  (st2.1.setTile (st2.1.xy_idx stairs.1 stairs.2) TileType.DownStairs,
   { x := start.1, y := start.2 })

/-! ## The full waveform-collapse build and the random dispatch
src/map_builder/waveform_collapse/mod.rs and src/map_builder/mod.rs -/

/-- The retry loop of WaveformCollapseBuilder::build: run a fresh solver
over the current map until it reports done (every solver run finishes
within worklist+1 iterations) and stop once a run ends possible;
otherwise retry on the partially blitted map, as the source does.  Fuel
bounds the retries. -/
def wfcRetry (constraints : List MapChunk) : Map → Rng → Nat → Option (Map × Rng)
  | _, _, 0 => none
  | m, rng, Nat.succ fuel =>
    match solveFuel ((Solver.new constraints 8 m).chunks_x *
        (Solver.new constraints 8 m).chunks_y + 1) (Solver.new constraints 8 m) m rng with
    | none => none
    | some (s2, m2, rng2) =>
      if s2.possible then some (m2, rng2) else wfcRetry constraints m2 rng2 fuel

/-- WaveformCollapseBuilder::build, tile pipeline: rewrite every
DownStairs of the derived source map to Floor, extract the 8x8 patterns
(with flips, deduped) and their constraints, solve onto the all-Wall
80x43 map retrying until possible, walk left from the center to a Floor
start, prune against the Dijkstra collaborator (oracle), stamp the
stairs.  The spawn-region noise pass touches no tiles and is omitted. -/
def waveform_collapse_build (src : Map) (rng : Rng)
    (dij : Map → Int → Int → Option Int) (retryFuel walkFuel : Nat) :
    Option (Map × Position) :=
  let source := { src with tiles := fun i =>
    (if src.tiles i = TileType.DownStairs then TileType.Floor else src.tiles i) }
  let patterns := build_patterns source 8 true true
  let constraints := patterns_to_constraints patterns 8
  let m0 := Map.new MAP_WIDTH MAP_HEIGHT (some TileType.Wall)
  match wfcRetry constraints m0 rng retryFuel with
  | none => none
  | some (m2, rng2) =>
    let _ := rng2
    caFinish m2 dij walkFuel

/-- The strategy table of the pick_random macro in map_builder/mod.rs,
indexed 0..16 in source order.  The fat_passages and fearful_symmetry
drunkard constructors named in the dispatch are absent from this
snapshot's drunkard.rs, so those two arms take arbitrary
DrunkardSettings parameters. -/
def strategy_build (idx : Nat) (buildRng : Rng)
    (dij : Map → Int → Int → Option Int)
    (line : Int → Int → Int → Int → List (Int × Int))
    (cells : List MazeCell) (rects : List Rect)
    (fatSettings fearfulSettings : DrunkardSettings)
    (fuel walkFuel : Nat) : Option (Map × Position) :=
  match idx with
  | 0 => some (simple_map_build buildRng)
  | 1 => some (bsp_interior_build rects buildRng)
  | 2 => cellular_automata_build buildRng dij walkFuel
  | 3 => some (bsp_dungeon_build buildRng)
  | 4 => drunkard_build openAreaSettings buildRng dij fuel
  | 5 => drunkard_build openHallsSettings buildRng dij fuel
  | 6 => drunkard_build windingPassagesSettings buildRng dij fuel
  | 7 => drunkard_build fatSettings buildRng dij fuel
  | 8 => drunkard_build fearfulSettings buildRng dij fuel
  | 9 => some (maze_build cells dij)
  | 10 => dla_build DLAAlgorithm.WalkInwards DLASymmetry.None 1 buildRng dij line fuel walkFuel
  | 11 => dla_build DLAAlgorithm.WalkOutwards DLASymmetry.None 2 buildRng dij line fuel walkFuel
  | 12 => dla_build DLAAlgorithm.CentralAttractor DLASymmetry.None 2 buildRng dij line
      fuel walkFuel
  | 13 => dla_build DLAAlgorithm.CentralAttractor DLASymmetry.Horizontal 2 buildRng dij line
      fuel walkFuel
  | 14 => voronoi_build DistanceAlgorithm.Pythagoras buildRng dij fuel
  | 15 => voronoi_build DistanceAlgorithm.Manhattan buildRng dij fuel
  | _ => voronoi_build DistanceAlgorithm.Chebyshev buildRng dij fuel

/-- random_builder from map_builder/mod.rs: roll one of the 17 strategy
constructors (the pick_random macro's match over roll_dice(1,17) - 1),
build it, then with a 1-in-3 roll derive a waveform-collapse map from
the result.  Every stage's randomness, oracle, fuel and quantified
algorithm state is a parameter, so theorems about this function cover
every reachable strategy and every run. -/
def random_builder (dispatchRng buildRng wfcRng : Rng)
    (dij : Map → Int → Int → Option Int)
    (line : Int → Int → Int → Int → List (Int × Int))
    (cells : List MazeCell) (rects : List Rect)
    (fatSettings fearfulSettings : DrunkardSettings)
    (fuel walkFuel retryFuel : Nat) : Option (Map × Position) :=
  match strategy_build (((rollDice dispatchRng 17).1 - 1).toNat) buildRng dij line cells
      rects fatSettings fearfulSettings fuel walkFuel with
  | none => none
  | some (m, pos) =>
    if (rollDice (rollDice dispatchRng 17).2 3).1 = 1 then
      waveform_collapse_build m wfcRng dij retryFuel walkFuel
    else some (m, pos)

/-- The finished-map predicate of claim C9: no tile of the map is the
transient Placeholder marker. -/
def noPlaceholder (m : Map) : Prop :=
  ∀ i : Int, m.tiles i ≠ TileType.Placeholder

/-- Fixture call of the random dispatch for the C9 witness: the
dispatch stream picks strategy 1 (SimpleMap) and declines the
waveform-collapse wrap, the build stream is the all-zero stream, and
the oracles are trivial. -/
def c9Run : Option (Map × Position) :=
  random_builder (rngOfList [0, 1]) (rngOfList []) (rngOfList [])
    (fun _ _ _ => none) (fun _ _ _ _ => []) [] []
    openAreaSettings openAreaSettings 1 1 1

/-- The property every scattered seed candidate satisfies: coordinate
bounds from the two dice and the index equation. -/
def seedOk (m : Map) (s : Int × Int × Int) : Prop :=
  1 ≤ s.2.1 ∧ s.2.1 ≤ m.width - 1 ∧ 1 ≤ s.2.2 ∧ s.2.2 ≤ m.height * 2 - 1 ∧
    s.1 = m.xy_idx s.2.1 s.2.2

/-! ## Theorems -/

/-- C1.  In Solver::iteration, when the selected slot has filled
neighbours the source stamps constraints[p] where p is only a POSITION in
the intersection list (0 for a singleton, roll-1 otherwise), never
possible_options[p]: on the fixture, the second iteration call picks slot
1, whose single gathered compatibility list makes the candidate
intersection exactly the pattern set containing only 2, yet it records
and blits pattern 0, which is not an element of that intersection --
refuting the claim that the stamped pattern index is always an element of
the intersection. -/
theorem C1_stamped_pattern_escapes_intersection :
    cexStep1.1.remaining = [(1, 0)] ∧
    cexStep1.1.gatherOptions 1 0 = [[2, 2]] ∧
    possibleOptions cexConstraints.length (cexStep1.1.gatherOptions 1 0) = [2] ∧
    cexStep2.2.2.2 = false ∧
    cexStep2.1.chunks.getD 1 none = some 0 ∧
    ¬ (0 ∈ possibleOptions cexConstraints.length (cexStep1.1.gatherOptions 1 0)) := by
  decide

/-- C2.  A full solver run on the fixture ends with possible = true while
the single internal chunk boundary holds pattern 2 (east exit bitmap all
true) against pattern 0 (west exit bitmap all false): the placed patterns
are not listed as compatible with each other in the facing directions,
refuting the claimed safety invariant of runs that end possible =
true. -/
theorem C2_possible_run_with_disagreeing_boundary :
    (solveFuel 3 (Solver.new cexConstraints 2 cexMap) cexMap cexRng).isSome = true ∧
    cexFinal.possible = true ∧
    cexFinal.remaining = [] ∧
    cexFinal.chunks = [some 2, some 0] ∧
    cexFinal.boundariesCompatible = false ∧
    (cexConstraints.getD 2 default).exits.getD 3 [] = [true, true] ∧
    (cexConstraints.getD 0 default).exits.getD 2 [] = [false, false] := by
  decide

/-- Every element the slot loop pushes is the candidate j, and it pushes
at least once exactly when slotCond holds. -/
theorem mem_compatSlots (j a : Nat) (wOk : Bool) (l : List (Bool × Bool)) (f h : Bool) :
    a ∈ compatSlots j wOk l f h ↔ a = j ∧ slotCond wOk l f h = true := by
  induction l generalizing f h with
  | nil => simp [compatSlots, slotCond]
  | cons p rest ih =>
    obtain ⟨c, o⟩ := p
    cases c <;> cases o <;> cases f <;> cases h <;> cases wOk <;>
      simp [compatSlots, slotCond, ih] <;> tauto

/-- Closed form of slotCond started from a cold state: the loop pushes
iff some paired slot is open on both sides, or the wildcard test holds
and the very first slot of the direction side is closed (the list being
nonempty). -/
theorem slotCond_closed_form (wOk : Bool) (l : List (Bool × Bool)) :
    slotCond wOk l false false =
      (l.any (fun p => p.1 && p.2) ||
        (wOk && !l.isEmpty && !(l.headD (false, false)).1)) := by
  have general : ∀ (l : List (Bool × Bool)) (f h : Bool),
      slotCond wOk l f h =
        ((!l.isEmpty && f) || l.any (fun p => p.1 && p.2) ||
          (!h && wOk && !l.isEmpty && !(l.headD (false, false)).1)) := by
    intro l
    induction l with
    | nil => intro f h; simp [slotCond]
    | cons p rest ih =>
      intro f h
      obtain ⟨c, o⟩ := p
      cases c <;> cases o <;> cases f <;> cases h <;> cases wOk <;>
        simp [slotCond, ih]
  simp [general]

/-- headD is getD at position 0. -/
theorem headD_eq_getD {α : Type} (l : List α) (d : α) : l.headD d = l.getD 0 d := by
  cases l <;> simp

/-- Membership in one direction list of patterns_to_constraints: the
candidate index must be in range, and either the whole-pattern wildcard
applies (one of the two has has_exits false) or the slot loop pushes. -/
theorem mem_compatDirection (ch : List MapChunk) (c : MapChunk) (d j : Nat) :
    j ∈ compatDirection ch c d ↔
      j < ch.length ∧
        ((!c.has_exits || !(ch.getD j default).has_exits) = true ∨
         ((c.has_exits && (ch.getD j default).has_exits) = true ∧
          slotCond
            (((ch.getD j default).exits.getD (oppositeOf d) []).countP (fun a => !a) == 0)
            ((c.exits.getD d []).zip ((ch.getD j default).exits.getD (oppositeOf d) []))
            false false = true)) := by
  unfold compatDirection
  simp only [List.mem_flatMap, List.mem_range]
  constructor
  · rintro ⟨j2, hj2, hmem⟩
    split at hmem
    · next hcond =>
      simp only [List.mem_singleton] at hmem
      subst hmem
      exact ⟨hj2, Or.inl hcond⟩
    · next hcond =>
      rw [mem_compatSlots] at hmem
      obtain ⟨rfl, hc⟩ := hmem
      refine ⟨hj2, Or.inr ⟨?_, hc⟩⟩
      simpa using hcond
  · rintro ⟨hj, hcase | ⟨hboth, hc⟩⟩
    · exact ⟨j, hj, by rw [if_pos hcase]; simp⟩
    · refine ⟨j, hj, ?_⟩
      rw [if_neg (by simp_all)]
      exact (mem_compatSlots j j _ _ false false).mpr ⟨rfl, hc⟩

/-- Zip-any over Bool lists as an indexed existence statement. -/
theorem zipAny_iff (a b : List Bool) (hlen : a.length = b.length) :
    ((a.zip b).any (fun p => p.1 && p.2) = true ↔
      ∃ s < a.length, a.getD s false = true ∧ b.getD s false = true) := by
  rw [List.any_eq_true]
  constructor
  · rintro ⟨x, hx, hpq⟩
    obtain ⟨i, hi, rfl⟩ := List.mem_iff_getElem.mp hx
    rw [List.getElem_zip] at hpq
    simp only [Bool.and_eq_true] at hpq
    have hia : i < a.length := lt_of_lt_of_le hi (by simp [List.length_zip])
    refine ⟨i, hia, ?_, ?_⟩
    · rw [List.getD_eq_getElem a false hia]; exact hpq.1
    · rw [List.getD_eq_getElem b false (hlen ▸ hia)]; exact hpq.2
  · rintro ⟨s, hs, ha, hb⟩
    have hsz : s < (a.zip b).length := by simp [List.length_zip]; omega
    refine ⟨(a.zip b)[s], List.getElem_mem hsz, ?_⟩
    rw [List.getElem_zip]
    rw [List.getD_eq_getElem a false hs] at ha
    rw [List.getD_eq_getElem b false (hlen ▸ hs)] at hb
    simp [ha, hb]

/-- The zero-closed-slot test of the slot loop as an indexed universal
statement. -/
theorem countClosed_iff (b : List Bool) :
    ((b.countP (fun x => !x) == 0) = true ↔ ∀ s < b.length, b.getD s false = true) := by
  rw [beq_iff_eq, List.countP_eq_zero]
  constructor
  · intro hall s hs
    rw [List.getD_eq_getElem b false hs]
    have := hall (b[s]) (List.getElem_mem hs)
    simpa using this
  · intro hall x hx
    obtain ⟨i, hi, rfl⟩ := List.mem_iff_getElem.mp hx
    have := hall i hi
    rw [List.getD_eq_getElem b false hi] at this
    simp [this]

/-- First component of the default-headed zip head. -/
theorem zip_headD_fst (a b : List Bool) (h : b ≠ []) :
    ((a.zip b).headD (false, false)).1 = a.getD 0 false := by
  cases a <;> cases b <;> simp_all

/-- The cold-started slot loop pushes iff some slot is open on both
sides, or the direction side starts closed and the opposite side is
fully open. -/
theorem slotCond_zip_iff (aSide bSide : List Bool) (hlen : aSide.length = bSide.length) :
    (slotCond (bSide.countP (fun x => !x) == 0) (aSide.zip bSide) false false = true ↔
      ((∃ s < aSide.length, aSide.getD s false = true ∧ bSide.getD s false = true) ∨
       (0 < aSide.length ∧ aSide.getD 0 false = false ∧
        ∀ s < bSide.length, bSide.getD s false = true))) := by
  have hzlen : (aSide.zip bSide).length = aSide.length := by
    simp [List.length_zip, hlen]
  have hbne : 0 < aSide.length → bSide ≠ [] := by
    intro h0 hb
    rw [hb, List.length_nil] at hlen
    omega
  rw [slotCond_closed_form]
  simp only [Bool.or_eq_true, Bool.and_eq_true]
  rw [zipAny_iff _ _ hlen]
  constructor
  · rintro (h | ⟨⟨hw, hne⟩, hhead⟩)
    · exact Or.inl h
    · right
      have hlen0 : 0 < aSide.length := by
        by_contra hcon
        have hae : aSide = [] := List.length_eq_zero.mp (by omega)
        rw [hae] at hne
        simp at hne
      rw [zip_headD_fst _ _ (hbne hlen0)] at hhead
      simp only [Bool.not_eq_true'] at hhead
      exact ⟨hlen0, hhead, (countClosed_iff bSide).mp hw⟩
  · rintro (h | ⟨hlen0, hhead, hall⟩)
    · exact Or.inl h
    · right
      refine ⟨⟨(countClosed_iff bSide).mpr hall, ?_⟩, ?_⟩
      · have hzne : aSide.zip bSide ≠ [] := by
          intro hz
          rw [hz, List.length_nil] at hzlen
          omega
        simp [hzne]
      · rw [zip_headD_fst _ _ (hbne hlen0)]
        simpa [List.getD] using hhead

/-- Each side list built by chunkExits has length chunk_size. -/
theorem chunkExits_side_length (Cz : Int) (p : List TileType) (d : Nat) (hd : d < 4) :
    ((chunkExits Cz p).getD d []).length = Cz.toNat := by
  interval_cases d <;> simp [chunkExits]

/-- oppositeOf stays below 4. -/
theorem oppositeOf_lt (d : Nat) : oppositeOf d < 4 := by
  unfold oppositeOf
  split <;> omega

/-- C4 counterexample.  The claimed rule (b) -- a side with no open
cells is a wildcard -- fails on the code: in the fixture constraint
table, pattern 1 has zero exits on its north side (but has exits
elsewhere, so has_exits is true), hence the spec rule accepts pattern 0
northwards, yet the computed north compatibility list of pattern 1 does
not contain 0; the code instead only pushes a candidate on such a side
when the candidate's facing side is completely open. -/
theorem C4_spec_wildcard_not_in_code_lists :
    specCompatible (cexConstraints.getD 1 default) (cexConstraints.getD 0 default) 0 = true ∧
    (cexConstraints.getD 1 default).exits.getD 0 [] = [false, false] ∧
    (cexConstraints.getD 1 default).has_exits = true ∧
    (cexConstraints.getD 0 default).has_exits = true ∧
    ¬ (0 ∈ (cexConstraints.getD 1 default).compatible_with.getD 0 []) := by
  decide

/-- C4 amended.  What patterns_to_constraints actually computes: pattern
j is listed in direction d of pattern i iff j is in range and either (a)
one of the two patterns has no exits on ANY side (has_exits false, a
whole-pattern wildcard), or (b) both have exits somewhere and some open
border slot of i on side d lines up with an open slot of j on the
opposite side, or (c) both have exits somewhere, slot 0 of side d of i is
closed, and EVERY slot of the opposite side of j is open.  (The
per-side-zero-exit wildcard worded by the spec is not what the code
implements.) -/
theorem C4_code_compatibility_rule (patterns : List (List TileType)) (Cz : Int)
    (i j d : Nat) (hd : d < 4)
    (hi : i < (patterns_to_constraints patterns Cz).length)
    (hj : j < (patterns_to_constraints patterns Cz).length) :
    (j ∈ (patterns_to_constraints patterns Cz)[i].compatible_with.getD d [] ↔
      ((patterns_to_constraints patterns Cz)[i].has_exits = false ∨
       (patterns_to_constraints patterns Cz)[j].has_exits = false) ∨
      ((patterns_to_constraints patterns Cz)[i].has_exits = true ∧
       (patterns_to_constraints patterns Cz)[j].has_exits = true ∧
       ((∃ s < Cz.toNat,
           (((patterns_to_constraints patterns Cz)[i].exits.getD d []).getD s false = true ∧
            ((patterns_to_constraints patterns Cz)[j].exits.getD (oppositeOf d) []).getD s false
              = true)) ∨
        (0 < Cz.toNat ∧
         ((patterns_to_constraints patterns Cz)[i].exits.getD d []).getD 0 false = false ∧
         ∀ s < Cz.toNat,
           ((patterns_to_constraints patterns Cz)[j].exits.getD (oppositeOf d) []).getD s false
             = true)))) := by
  set base := patterns.map (fun p =>
    let e := chunkExits Cz p
    ({ pattern := p, exits := e, has_exits := countExits e != 0,
       compatible_with := [[], [], [], []] } : MapChunk)) with hbase
  have hout : patterns_to_constraints patterns Cz = base.map (fun c =>
      { c with compatible_with :=
          [compatDirection base c 0, compatDirection base c 1,
           compatDirection base c 2, compatDirection base c 3] }) := rfl
  have hleni : i < base.length := by
    rw [hout, List.length_map] at hi
    exact hi
  have hlenj : j < base.length := by
    rw [hout, List.length_map] at hj
    exact hj
  have hgi : (patterns_to_constraints patterns Cz)[i] =
      { base[i] with compatible_with :=
          [compatDirection base base[i] 0, compatDirection base base[i] 1,
           compatDirection base base[i] 2, compatDirection base base[i] 3] } := by
    simp_rw [hout]
    rw [List.getElem_map]
  have hgj : (patterns_to_constraints patterns Cz)[j] =
      { base[j] with compatible_with :=
          [compatDirection base base[j] 0, compatDirection base base[j] 1,
           compatDirection base base[j] 2, compatDirection base base[j] 3] } := by
    simp_rw [hout]
    rw [List.getElem_map]
  have hcw : (patterns_to_constraints patterns Cz)[i].compatible_with.getD d [] =
      compatDirection base base[i] d := by
    rw [hgi]
    interval_cases d <;> rfl
  have hgetDj : base.getD j default = base[j] := List.getD_eq_getElem base default hlenj
  have hpi : i < patterns.length := by
    have h2 := hleni
    rwa [hbase, List.length_map] at h2
  have hpj : j < patterns.length := by
    have h2 := hlenj
    rwa [hbase, List.length_map] at h2
  have hexi : base[i].exits = chunkExits Cz patterns[i] := by
    simp [hbase, List.getElem_map]
  have hexj : base[j].exits = chunkExits Cz patterns[j] := by
    simp [hbase, List.getElem_map]
  have hlenA : (base[i].exits.getD d []).length = Cz.toNat := by
    rw [hexi]
    exact chunkExits_side_length Cz _ d hd
  have hlenB : (base[j].exits.getD (oppositeOf d) []).length = Cz.toNat := by
    rw [hexj]
    exact chunkExits_side_length Cz _ (oppositeOf d) (oppositeOf_lt d)
  rw [hcw, mem_compatDirection, hgetDj]
  rw [hgi, hgj]
  simp only [Bool.or_eq_true, Bool.and_eq_true, Bool.not_eq_true']
  rw [slotCond_zip_iff _ _ (by rw [hlenA, hlenB])]
  rw [hlenA, hlenB]
  constructor
  · rintro ⟨hjlen, hcases⟩
    rcases hcases with (h | h) | ⟨⟨h1, h2⟩, hc⟩
    · exact Or.inl (Or.inl h)
    · exact Or.inl (Or.inr h)
    · exact Or.inr ⟨h1, h2, hc⟩
  · rintro ((h | h) | ⟨h1, h2, hc⟩)
    · exact ⟨hlenj, Or.inl (Or.inl h)⟩
    · exact ⟨hlenj, Or.inl (Or.inr h)⟩
    · exact ⟨hlenj, Or.inr ⟨⟨h1, h2⟩, hc⟩⟩

/-- C4 witness: the amended rule evaluated on the fixture at i = 2,
j = 2, direction east, where clause (b) applies. -/
theorem C4_code_compatibility_rule_witness :
    (2 < 4 ∧ 2 < (patterns_to_constraints [cexP0, cexP1, cexPA] 2).length) ∧
    (2 ∈ (patterns_to_constraints [cexP0, cexP1, cexPA] 2)[2].compatible_with.getD 3 [] ↔
      (((patterns_to_constraints [cexP0, cexP1, cexPA] 2)[2].has_exits = false ∨
        (patterns_to_constraints [cexP0, cexP1, cexPA] 2)[2].has_exits = false) ∨
       ((patterns_to_constraints [cexP0, cexP1, cexPA] 2)[2].has_exits = true ∧
        (patterns_to_constraints [cexP0, cexP1, cexPA] 2)[2].has_exits = true ∧
        ((∃ s < (2 : Int).toNat,
            ((patterns_to_constraints [cexP0, cexP1, cexPA] 2)[2].exits.getD 3 []).getD s false
              = true ∧
            ((patterns_to_constraints [cexP0, cexP1, cexPA] 2)[2].exits.getD
                (oppositeOf 3) []).getD s false = true) ∨
         (0 < (2 : Int).toNat ∧
          ((patterns_to_constraints [cexP0, cexP1, cexPA] 2)[2].exits.getD 3 []).getD 0 false
            = false ∧
          ∀ s < (2 : Int).toNat,
            ((patterns_to_constraints [cexP0, cexP1, cexPA] 2)[2].exits.getD
                (oppositeOf 3) []).getD s false = true))))) :=
  ⟨⟨by decide, by decide⟩,
    C4_code_compatibility_rule [cexP0, cexP1, cexPA] 2 2 2 3 (by decide) (by decide) (by decide)⟩

/-- rollDice stays within 1..=n for positive n. -/
theorem rollDice_bound (r : Rng) (n : Int) (hn : 0 < n) :
    1 ≤ (rollDice r n).1 ∧ (rollDice r n).1 ≤ n := by
  have h : (rollDice r n).1 = 1 + Int.ofNat (r.seq r.pos) % max n 1 := rfl
  rw [max_eq_left (by omega : (1 : Int) ≤ n)] at h
  have h0 : (0 : Int) ≤ Int.ofNat (r.seq r.pos) % n := Int.emod_nonneg _ (by omega)
  have h1 : Int.ofNat (r.seq r.pos) % n < n := Int.emod_lt_of_pos _ hn
  rw [h]
  omega

/-- Setting a none entry to some increments the isSome count by one. -/
theorem countP_isSome_set (l : List (Option Nat)) (i : Nat) (x : Nat)
    (hi : i < l.length) (hnone : l.getD i none = none) :
    (l.set i (some x)).countP (fun c => c.isSome) =
      l.countP (fun c => c.isSome) + 1 := by
  induction l generalizing i with
  | nil => simp at hi
  | cons a t ih =>
    cases i with
    | zero =>
      simp only [List.getD_cons_zero] at hnone
      subst hnone
      simp [List.countP_cons]
    | succ n =>
      simp only [List.getD_cons_succ] at hnone
      simp only [List.length_cons, Nat.succ_lt_succ_iff] at hi
      simp [List.set_cons_succ, List.countP_cons, ih n hi hnone]
      omega

/-- Every call to Solver::iteration lands in exactly one of three shapes:
the empty-worklist early return, the contradiction return (one slot
removed, possible set to false, nothing stamped), or a fill (one slot of
the worklist removed and stamped). -/
theorem iteration_cases (s : Solver) (m : Map) (rng : Rng) :
    (s.remaining = [] ∧ Solver.iteration s m rng = (s, m, rng, true)) ∨
    (∃ remaining2 rng1,
       remaining2.length + 1 = s.remaining.length ∧
       Solver.iteration s m rng =
         ({ s with remaining := remaining2, possible := false }, m, rng1, true)) ∨
    (∃ remaining2 ci k rng2,
       remaining2.length + 1 = s.remaining.length ∧
       ci ∈ s.remaining.map Prod.fst ∧
       Solver.iteration s m rng = Solver.fill s remaining2 ci k m rng2) := by
  by_cases hemp : s.remaining.isEmpty = true
  · left
    refine ⟨List.isEmpty_iff.mp hemp, ?_⟩
    unfold Solver.iteration
    rw [if_pos hemp]
  · have hne : s.remaining ≠ [] := by simpa [List.isEmpty_iff] using hemp
    have hpos : 0 < s.remaining.length := List.length_pos.mpr hne
    have hfalse : s.remaining.isEmpty = false := by
      simpa using hemp
    simp only [Solver.iteration, hfalse, Bool.false_eq_true, if_false]
    set rc := s.remaining.map (fun r =>
      (r.1, s.count_neighbours (r.1 % s.chunks_x) (r.1 / s.chunks_x))) with hrc
    set ne1 := rc.any (fun r => decide (r.2 > 0)) with hne1def
    set sorted := rc.insertionSort (fun a b => b.2 ≤ a.2) with hsorted
    have hsl : sorted.length = s.remaining.length := by
      rw [hsorted, List.length_insertionSort, hrc, List.length_map]
    have hmapfst : sorted.map Prod.fst ⊆ s.remaining.map Prod.fst := by
      intro a ha
      rw [List.mem_map] at ha
      obtain ⟨p, hp, rfl⟩ := ha
      have hp2 : p ∈ rc := (List.perm_insertionSort _ rc).mem_iff.mp (hsorted ▸ hp)
      rw [hrc, List.mem_map] at hp2
      obtain ⟨q, hq, rfl⟩ := hp2
      exact List.mem_map.mpr ⟨q, hq, rfl⟩
    have main : ∀ (ri : Nat) (rng1 : Rng), ri < sorted.length →
        (∃ remaining2 rng2,
           remaining2.length + 1 = s.remaining.length ∧
           (if (s.gatherOptions ((sorted.getD ri (0, 0)).1 % s.chunks_x)
                 ((sorted.getD ri (0, 0)).1 / s.chunks_x)).length = 0 then
              Solver.fill s (sorted.eraseIdx ri) (sorted.getD ri (0, 0)).1
                ((rollDice rng1 (Int.ofNat s.constraints.length)).1 - 1).toNat m
                (rollDice rng1 (Int.ofNat s.constraints.length)).2
            else if (possibleOptions s.constraints.length
                  (s.gatherOptions ((sorted.getD ri (0, 0)).1 % s.chunks_x)
                    ((sorted.getD ri (0, 0)).1 / s.chunks_x))).isEmpty = true then
              ({ s with remaining := sorted.eraseIdx ri, possible := false }, m, rng1, true)
            else if (possibleOptions s.constraints.length
                  (s.gatherOptions ((sorted.getD ri (0, 0)).1 % s.chunks_x)
                    ((sorted.getD ri (0, 0)).1 / s.chunks_x))).length = 1 then
              Solver.fill s (sorted.eraseIdx ri) (sorted.getD ri (0, 0)).1 0 m rng1
            else
              Solver.fill s (sorted.eraseIdx ri) (sorted.getD ri (0, 0)).1
                ((rollDice rng1 (Int.ofNat (possibleOptions s.constraints.length
                    (s.gatherOptions ((sorted.getD ri (0, 0)).1 % s.chunks_x)
                      ((sorted.getD ri (0, 0)).1 / s.chunks_x))).length)).1 - 1).toNat m
                (rollDice rng1 (Int.ofNat (possibleOptions s.constraints.length
                    (s.gatherOptions ((sorted.getD ri (0, 0)).1 % s.chunks_x)
                      ((sorted.getD ri (0, 0)).1 / s.chunks_x))).length)).2) =
             ({ s with remaining := remaining2, possible := false }, m, rng2, true)) ∨
        (∃ remaining2 ci k rng2,
           remaining2.length + 1 = s.remaining.length ∧
           ci ∈ s.remaining.map Prod.fst ∧
           (if (s.gatherOptions ((sorted.getD ri (0, 0)).1 % s.chunks_x)
                 ((sorted.getD ri (0, 0)).1 / s.chunks_x)).length = 0 then
              Solver.fill s (sorted.eraseIdx ri) (sorted.getD ri (0, 0)).1
                ((rollDice rng1 (Int.ofNat s.constraints.length)).1 - 1).toNat m
                (rollDice rng1 (Int.ofNat s.constraints.length)).2
            else if (possibleOptions s.constraints.length
                  (s.gatherOptions ((sorted.getD ri (0, 0)).1 % s.chunks_x)
                    ((sorted.getD ri (0, 0)).1 / s.chunks_x))).isEmpty = true then
              ({ s with remaining := sorted.eraseIdx ri, possible := false }, m, rng1, true)
            else if (possibleOptions s.constraints.length
                  (s.gatherOptions ((sorted.getD ri (0, 0)).1 % s.chunks_x)
                    ((sorted.getD ri (0, 0)).1 / s.chunks_x))).length = 1 then
              Solver.fill s (sorted.eraseIdx ri) (sorted.getD ri (0, 0)).1 0 m rng1
            else
              Solver.fill s (sorted.eraseIdx ri) (sorted.getD ri (0, 0)).1
                ((rollDice rng1 (Int.ofNat (possibleOptions s.constraints.length
                    (s.gatherOptions ((sorted.getD ri (0, 0)).1 % s.chunks_x)
                      ((sorted.getD ri (0, 0)).1 / s.chunks_x))).length)).1 - 1).toNat m
                (rollDice rng1 (Int.ofNat (possibleOptions s.constraints.length
                    (s.gatherOptions ((sorted.getD ri (0, 0)).1 % s.chunks_x)
                      ((sorted.getD ri (0, 0)).1 / s.chunks_x))).length)).2) =
             Solver.fill s remaining2 ci k m rng2) := by
      intro ri rng1 hri
      have hlen2 : (sorted.eraseIdx ri).length + 1 = s.remaining.length := by
        rw [List.length_eraseIdx_of_lt hri]
        omega
      have hcimem : (sorted.getD ri (0, 0)).1 ∈ s.remaining.map Prod.fst := by
        apply hmapfst
        rw [List.getD_eq_getElem sorted (0, 0) hri]
        exact List.mem_map.mpr ⟨sorted[ri], List.getElem_mem hri, rfl⟩
      by_cases hopt : (s.gatherOptions ((sorted.getD ri (0, 0)).1 % s.chunks_x)
          ((sorted.getD ri (0, 0)).1 / s.chunks_x)).length = 0
      · rw [if_pos hopt]
        right
        exact ⟨_, _, _, _, hlen2, hcimem, rfl⟩
      · rw [if_neg hopt]
        by_cases hpo : (possibleOptions s.constraints.length
            (s.gatherOptions ((sorted.getD ri (0, 0)).1 % s.chunks_x)
              ((sorted.getD ri (0, 0)).1 / s.chunks_x))).isEmpty = true
        · rw [if_pos hpo]
          left
          exact ⟨_, _, hlen2, rfl⟩
        · rw [if_neg hpo]
          by_cases hlen1 : (possibleOptions s.constraints.length
              (s.gatherOptions ((sorted.getD ri (0, 0)).1 % s.chunks_x)
                ((sorted.getD ri (0, 0)).1 / s.chunks_x))).length = 1
          · rw [if_pos hlen1]
            right
            exact ⟨_, _, _, _, hlen2, hcimem, rfl⟩
          · rw [if_neg hlen1]
            right
            exact ⟨_, _, _, _, hlen2, hcimem, rfl⟩
    by_cases hneb : (!ne1) = true
    · rw [if_pos hneb]
      have hslpos : 0 < sorted.length := by omega
      have hnpos : (0 : Int) < Int.ofNat sorted.length := by
        rw [Int.ofNat_eq_natCast]
        exact_mod_cast hslpos
      have hbound := rollDice_bound rng (Int.ofNat sorted.length) hnpos
      have hcast : Int.ofNat sorted.length = (sorted.length : Int) := rfl
      have hri : ((rollDice rng (Int.ofNat sorted.length)).1 - 1).toNat < sorted.length := by
        omega
      rcases main _ _ hri with h | h
      · right; left; exact h
      · right; right; exact h
    · rw [if_neg hneb]
      have hri : 0 < sorted.length := by omega
      rcases main 0 rng hri with h | h
      · right; left; exact h
      · right; right; exact h

/-- Driving the solver with fuel one more than the worklist length always
reaches a done report: every not-done iteration shrinks the worklist by
one. -/
theorem solveFuel_isSome (n : Nat) : ∀ (s : Solver) (m : Map) (rng : Rng),
    s.remaining.length ≤ n → (solveFuel (n + 1) s m rng).isSome = true := by
  induction n with
  | zero =>
    intro s m rng hlen
    rcases iteration_cases s m rng with ⟨h1, h2⟩ | ⟨r2, rng1, hl, heq⟩ |
      ⟨r2, ci, k, rng2, hl, hm, heq⟩
    · simp [solveFuel, h2]
    · omega
    · omega
  | succ n ih =>
    intro s m rng hlen
    rcases iteration_cases s m rng with ⟨h1, h2⟩ | ⟨r2, rng1, hl, heq⟩ |
      ⟨r2, ci, k, rng2, hl, hm, heq⟩
    · simp [solveFuel, h2]
    · simp [solveFuel, heq]
    · have hstep : solveFuel (n + 1 + 1) s m rng =
          solveFuel (n + 1) (Solver.fill s r2 ci k m rng2).1
            (Solver.fill s r2 ci k m rng2).2.1 (Solver.fill s r2 ci k m rng2).2.2.1 := by
        simp [solveFuel, heq, Solver.fill]
      rw [hstep]
      apply ih
      simp only [Solver.fill]
      omega

/-- C10.  Every Solver::iteration call either reports done -- and then
the worklist was already empty or the contradiction branch set possible
to false -- or it removes exactly one slot from the outstanding worklist
and fills it (the slot was empty before, is recorded afterwards, and the
filled-slot count grows by one); consequently any run driven by repeated
iteration calls reaches the done report within worklist-length many
filling calls, and a fresh solver starts with a worklist of exactly
chunks_x * chunks_y slots. -/
theorem C10_iteration_progress_and_termination :
    (∀ (s : Solver) (m : Map) (rng : Rng),
      ((Solver.iteration s m rng).2.2.2 = true →
        s.remaining = [] ∨ (Solver.iteration s m rng).1.possible = false) ∧
      ((∀ p ∈ s.remaining, p.1 < s.chunks.length ∧ s.chunks.getD p.1 none = none) →
        (Solver.iteration s m rng).2.2.2 = false →
        ((Solver.iteration s m rng).1.remaining.length + 1 = s.remaining.length ∧
         (∃ ci pat, ci ∈ s.remaining.map Prod.fst ∧ s.chunks.getD ci none = none ∧
            (Solver.iteration s m rng).1.chunks = s.chunks.set ci (some pat)) ∧
         (Solver.iteration s m rng).1.filledCount = s.filledCount + 1)) ∧
      (solveFuel (s.remaining.length + 1) s m rng).isSome = true) ∧
    (∀ (cs : List MapChunk) (C : Int) (m : Map),
      (Solver.new cs C m).remaining.length = (m.width / C).toNat * (m.height / C).toNat) := by
  constructor
  · intro s m rng
    refine ⟨?_, ?_, solveFuel_isSome s.remaining.length s m rng le_rfl⟩
    · intro hdone
      rcases iteration_cases s m rng with ⟨h1, h2⟩ | ⟨r2, rng1, hl, heq⟩ |
        ⟨r2, ci, k, rng2, hl, hm, heq⟩
      · exact Or.inl h1
      · right
        rw [heq]
      · rw [heq] at hdone
        simp [Solver.fill] at hdone
    · intro hinv hdone
      rcases iteration_cases s m rng with ⟨h1, h2⟩ | ⟨r2, rng1, hl, heq⟩ |
        ⟨r2, ci, k, rng2, hl, hm, heq⟩
      · rw [h2] at hdone
        simp at hdone
      · rw [heq] at hdone
        simp at hdone
      · obtain ⟨p, hp, hpc⟩ := List.mem_map.mp hm
        obtain ⟨hlt, hnone⟩ := hinv p hp
        rw [hpc] at hlt hnone
        refine ⟨?_, ⟨ci, k, hm, hnone, ?_⟩, ?_⟩
        · rw [heq]
          simpa [Solver.fill] using hl
        · rw [heq]
          simp [Solver.fill]
        · rw [heq]
          simp only [Solver.fill, Solver.filledCount]
          exact countP_isSome_set s.chunks ci k hlt hnone
  · intro cs C m
    simp [Solver.new]

/-- C10 witness: the progress part applied to the first iteration of the
fixture run, whose worklist invariant and not-done result evaluate by
decide. -/
theorem C10_iteration_progress_witness :
    (Solver.iteration (Solver.new cexConstraints 2 cexMap) cexMap cexRng).1.remaining.length + 1 =
      (Solver.new cexConstraints 2 cexMap).remaining.length ∧
    (∃ ci pat, ci ∈ (Solver.new cexConstraints 2 cexMap).remaining.map Prod.fst ∧
      (Solver.new cexConstraints 2 cexMap).chunks.getD ci none = none ∧
      (Solver.iteration (Solver.new cexConstraints 2 cexMap) cexMap cexRng).1.chunks =
        (Solver.new cexConstraints 2 cexMap).chunks.set ci (some pat)) ∧
    (Solver.iteration (Solver.new cexConstraints 2 cexMap) cexMap cexRng).1.filledCount =
      (Solver.new cexConstraints 2 cexMap).filledCount + 1 :=
  (C10_iteration_progress_and_termination.1
    (Solver.new cexConstraints 2 cexMap) cexMap cexRng).2.1 (by decide) (by decide)

/-- Indices that are not sentinel-distance Floor tiles keep their tile
through the sweep. -/
theorem pruneSweep_tiles_other (m : Map) (dist : Int → Option Int) :
    ∀ (L : List Nat) (t : Int → TileType) (best : Int × Int) (i : Int),
      ¬(m.tiles i = TileType.Floor ∧ dist i = none) →
      (pruneSweep m dist L t best).1 i = t i := by
  intro L
  induction L with
  | nil => intro t best i h; rfl
  | cons a rest ih =>
    intro t best i h
    simp only [pruneSweep]
    split
    · exact ih t best i h
    · next hfl =>
      rw [not_not] at hfl
      split
      · next hdist =>
        rw [ih _ best i h]
        have hne : i ≠ Int.ofNat a := by
          intro heq
          rw [heq] at h
          exact h ⟨hfl, hdist⟩
        show (if i = Int.ofNat a then TileType.Wall else t i) = t i
        rw [if_neg hne]
      · split
        · exact ih _ _ i h
        · exact ih _ _ i h

/-- The sweep only ever writes Wall: every output tile is the input tile
or Wall. -/
theorem pruneSweep_tiles_value (m : Map) (dist : Int → Option Int) :
    ∀ (L : List Nat) (t : Int → TileType) (best : Int × Int) (i : Int),
      (pruneSweep m dist L t best).1 i = t i ∨
      (pruneSweep m dist L t best).1 i = TileType.Wall := by
  intro L
  induction L with
  | nil => intro t best i; exact Or.inl rfl
  | cons a rest ih =>
    intro t best i
    simp only [pruneSweep]
    split
    · exact ih t best i
    · split
      · rcases ih (fun j => if j = Int.ofNat a then TileType.Wall else t j) best i with h | h
        · rw [h]
          by_cases hj : i = Int.ofNat a
          · right
            show (if i = Int.ofNat a then TileType.Wall else t i) = TileType.Wall
            rw [if_pos hj]
          · left
            show (if i = Int.ofNat a then TileType.Wall else t i) = t i
            rw [if_neg hj]
        · exact Or.inr h
      · split
        · exact ih t _ i
        · exact ih t best i

/-- Sentinel-distance Floor indices in the sweep list come out Wall. -/
theorem pruneSweep_tiles_wall (m : Map) (dist : Int → Option Int) :
    ∀ (L : List Nat) (t : Int → TileType) (best : Int × Int) (i : Nat),
      i ∈ L → m.tiles (Int.ofNat i) = TileType.Floor → dist (Int.ofNat i) = none →
      (pruneSweep m dist L t best).1 (Int.ofNat i) = TileType.Wall := by
  intro L
  induction L with
  | nil => intro t best i hmem; simp at hmem
  | cons a rest ih =>
    intro t best i hmem hfl hdist
    rcases List.mem_cons.mp hmem with rfl | hmem2
    · simp only [pruneSweep]
      rw [if_neg (not_not_intro hfl), hdist]
      rcases pruneSweep_tiles_value m dist rest
          (fun j => if j = Int.ofNat i then TileType.Wall else t j) best (Int.ofNat i) with
        h | h
      · rw [h]
        show (if Int.ofNat i = Int.ofNat i then TileType.Wall else t (Int.ofNat i)) =
          TileType.Wall
        rw [if_pos rfl]
      · exact h
    · simp only [pruneSweep]
      split
      · exact ih t best i hmem2 hfl hdist
      · split
        · exact ih _ best i hmem2 hfl hdist
        · split
          · exact ih t _ i hmem2 hfl hdist
          · exact ih t best i hmem2 hfl hdist

/-- The running exit pair never decreases, ends at the seed or at a
finite-distance Floor tile, and dominates every finite Floor distance in
the sweep list. -/
theorem pruneSweep_best (m : Map) (dist : Int → Option Int) :
    ∀ (L : List Nat) (t : Int → TileType) (best : Int × Int),
      best.2 ≤ (pruneSweep m dist L t best).2.2 ∧
      ((pruneSweep m dist L t best).2 = best ∨
        (m.tiles (pruneSweep m dist L t best).2.1 = TileType.Floor ∧
         dist (pruneSweep m dist L t best).2.1 =
           some (pruneSweep m dist L t best).2.2)) ∧
      (∀ j ∈ L, m.tiles (Int.ofNat j) = TileType.Floor →
        ∀ dj, dist (Int.ofNat j) = some dj → dj ≤ (pruneSweep m dist L t best).2.2) := by
  intro L
  induction L with
  | nil =>
    intro t best
    refine ⟨le_rfl, Or.inl rfl, ?_⟩
    intro j hj
    simp at hj
  | cons a rest ih =>
    intro t best
    by_cases hfl : m.tiles (Int.ofNat a) = TileType.Floor
    · cases hdist : dist (Int.ofNat a) with
      | none =>
        have hstep : pruneSweep m dist (a :: rest) t best =
            pruneSweep m dist rest
              (fun j => if j = Int.ofNat a then TileType.Wall else t j) best := by
          simp only [pruneSweep]
          rw [if_neg (not_not_intro hfl), hdist]
        rw [hstep]
        obtain ⟨h1, h2, h3⟩ := ih _ best
        refine ⟨h1, h2, ?_⟩
        intro j hj hjfl dj hdj
        rcases List.mem_cons.mp hj with rfl | hj2
        · rw [hdj] at hdist; cases hdist
        · exact h3 j hj2 hjfl dj hdj
      | some dd =>
        by_cases himp : best.2 < dd
        · have hstep : pruneSweep m dist (a :: rest) t best =
              pruneSweep m dist rest t (Int.ofNat a, dd) := by
            simp only [pruneSweep]
            rw [if_neg (not_not_intro hfl), hdist]
            show (if best.2 < dd then pruneSweep m dist rest t (Int.ofNat a, dd)
              else pruneSweep m dist rest t best) = pruneSweep m dist rest t (Int.ofNat a, dd)
            rw [if_pos himp]
          rw [hstep]
          obtain ⟨h1, h2, h3⟩ := ih t (Int.ofNat a, dd)
          refine ⟨?_, ?_, ?_⟩
          · calc best.2 ≤ dd := le_of_lt himp
              _ ≤ _ := h1
          · rcases h2 with h2 | h2
            · right
              rw [h2]
              exact ⟨hfl, hdist⟩
            · exact Or.inr h2
          · intro j hj hjfl dj hdj
            rcases List.mem_cons.mp hj with rfl | hj2
            · rw [hdj] at hdist
              cases hdist
              exact h1
            · exact h3 j hj2 hjfl dj hdj
        · have hstep : pruneSweep m dist (a :: rest) t best =
              pruneSweep m dist rest t best := by
            simp only [pruneSweep]
            rw [if_neg (not_not_intro hfl), hdist]
            show (if best.2 < dd then pruneSweep m dist rest t (Int.ofNat a, dd)
              else pruneSweep m dist rest t best) = pruneSweep m dist rest t best
            rw [if_neg himp]
          rw [hstep]
          obtain ⟨h1, h2, h3⟩ := ih t best
          refine ⟨h1, h2, ?_⟩
          intro j hj hjfl dj hdj
          rcases List.mem_cons.mp hj with rfl | hj2
          · rw [hdj] at hdist
            cases hdist
            omega
          · exact h3 j hj2 hjfl dj hdj
    · have hstep : pruneSweep m dist (a :: rest) t best =
          pruneSweep m dist rest t best := by
        simp only [pruneSweep]
        rw [if_pos hfl]
      rw [hstep]
      obtain ⟨h1, h2, h3⟩ := ih t best
      refine ⟨h1, h2, ?_⟩
      intro j hj hjfl dj hdj
      rcases List.mem_cons.mp hj with rfl | hj2
      · exact absurd hjfl hfl
      · exact h3 j hj2 hjfl dj hdj

/-- C5.  remove_unreachable_areas_returning_most_distant turns exactly
the sentinel-distance Floor tiles to Wall, leaves every other tile
unchanged, and -- whenever some Floor tile has a finite positive
distance, as the section 4.2 precondition guarantees -- returns a
finite-distance Floor index whose distance dominates every finite Floor
distance.  Distances are the spec-modelled capped shortest-path map at
200.0 (4000 twentieths); ties go to the lowest index, which the claim
does not contradict (the returned tile carries the largest distance). -/
theorem C5_prune_and_most_distant (m : Map) (start_idx : Int) :
    (∀ i : Nat, i < (m.width * m.height).toNat →
      ((m.tiles (Int.ofNat i) = TileType.Floor ∧
          dijkstraDist m start_idx 4000 (Int.ofNat i) = none) →
        (remove_unreachable_areas_returning_most_distant m start_idx).1.tiles
          (Int.ofNat i) = TileType.Wall) ∧
      (¬(m.tiles (Int.ofNat i) = TileType.Floor ∧
          dijkstraDist m start_idx 4000 (Int.ofNat i) = none) →
        (remove_unreachable_areas_returning_most_distant m start_idx).1.tiles
          (Int.ofNat i) = m.tiles (Int.ofNat i))) ∧
    ((∃ j : Nat, j < (m.width * m.height).toNat ∧
        m.tiles (Int.ofNat j) = TileType.Floor ∧
        ∃ dj, dijkstraDist m start_idx 4000 (Int.ofNat j) = some dj ∧ 0 < dj) →
      m.tiles (remove_unreachable_areas_returning_most_distant m start_idx).2 =
        TileType.Floor ∧
      ∃ dr, dijkstraDist m start_idx 4000
          (remove_unreachable_areas_returning_most_distant m start_idx).2 = some dr ∧
        0 < dr ∧
        ∀ j : Nat, j < (m.width * m.height).toNat →
          m.tiles (Int.ofNat j) = TileType.Floor →
          ∀ dj, dijkstraDist m start_idx 4000 (Int.ofNat j) = some dj → dj ≤ dr) := by
  constructor
  · intro i hi
    constructor
    · intro ⟨hfl, hdist⟩
      exact pruneSweep_tiles_wall m _ _ m.tiles (0, 0) i (List.mem_range.mpr hi) hfl hdist
    · intro h
      exact pruneSweep_tiles_other m _ _ m.tiles (0, 0) (Int.ofNat i) h
  · intro ⟨j, hj, hjfl, dj, hdj, hdjpos⟩
    obtain ⟨h1, h2, h3⟩ := pruneSweep_best m (dijkstraDist m start_idx 4000)
      (List.range (m.width * m.height).toNat) m.tiles (0, 0)
    have hge : dj ≤ (pruneSweep m (dijkstraDist m start_idx 4000)
        (List.range (m.width * m.height).toNat) m.tiles (0, 0)).2.2 :=
      h3 j (List.mem_range.mpr hj) hjfl dj hdj
    have hpos : 0 < (pruneSweep m (dijkstraDist m start_idx 4000)
        (List.range (m.width * m.height).toNat) m.tiles (0, 0)).2.2 := by omega
    rcases h2 with h2 | ⟨h2a, h2b⟩
    · rw [h2] at hpos
      simp at hpos
    · refine ⟨h2a, _, h2b, hpos, ?_⟩
      intro j2 hj2 hj2fl dj2 hdj2
      exact h3 j2 (List.mem_range.mpr hj2) hj2fl dj2 hdj2

/-- C5 witness: the fixture map has Floor at 5 (the start) and 6; tile 6
has finite positive distance, so the sweep returns it as the exit. -/
theorem C5_prune_and_most_distant_witness :
    pruneFixtureMap.tiles (remove_unreachable_areas_returning_most_distant pruneFixtureMap 5).2 = TileType.Floor ∧
    ∃ dr, dijkstraDist pruneFixtureMap 5 4000
        (remove_unreachable_areas_returning_most_distant pruneFixtureMap 5).2 = some dr ∧
      0 < dr ∧
      ∀ j : Nat, j < (pruneFixtureMap.width * pruneFixtureMap.height).toNat →
        pruneFixtureMap.tiles (Int.ofNat j) = TileType.Floor →
        ∀ dj, dijkstraDist pruneFixtureMap 5 4000 (Int.ofNat j) = some dj → dj ≤ dr :=
  (C5_prune_and_most_distant pruneFixtureMap 5).2 (by decide)

/-- Every exit entry is one of the eight explicit (target, cost) pairs. -/
theorem get_available_exits_shape (m : Map) (idx : Int) :
    ∀ p ∈ m.get_available_exits idx,
      (p ∈ [(idx - 1, (20 : Int)), (idx + 1, 20), (idx - m.width, 20), (idx + m.width, 20),
            ((idx - m.width) - 1, 29), ((idx - m.width) + 1, 29),
            ((idx + m.width) - 1, 29), ((idx + m.width) + 1, 29)]) ∧
      (p.2 = 20 ∨ p.2 = 29) := by
  have hifmem : ∀ (c : Prop) (inst : Decidable c) (a p : Int × Int),
      p ∈ (if c then [a] else []) → p = a := by
    intro c inst a p h
    split at h
    · simpa using h
    · simp at h
  intro p hp
  simp only [Map.get_available_exits, List.mem_append] at hp
  rcases hp with (((((((h | h) | h) | h) | h) | h) | h) | h) <;>
    rw [hifmem _ _ _ _ h] <;> simp

/-- Exit costs are nonnegative. -/
theorem get_available_exits_nonneg (m : Map) (idx : Int) :
    ∀ p ∈ m.get_available_exits idx, 0 ≤ p.2 := by
  intro p hp
  rcases (get_available_exits_shape m idx p hp).2 with h | h <;> omega

/-- The inner relaxation fold keeps every recorded value inside
[0, maxDepth]. -/
theorem relaxInner_bounds (md : Int) (E : List (Int × Int)) (dj : Int) (i : Nat) :
    ∀ acc2 : Option Int, (∀ e ∈ E, 0 ≤ e.2) → 0 ≤ dj →
      (∀ x, acc2 = some x → 0 ≤ x ∧ x ≤ md) →
      ∀ x, (E.foldl (fun acc2 e =>
          if e.1 = Int.ofNat i ∧ dj + e.2 ≤ md then
            match acc2 with
            | none => some (dj + e.2)
            | some cur => some (min cur (dj + e.2))
          else acc2) acc2) = some x → 0 ≤ x ∧ x ≤ md := by
  induction E with
  | nil =>
    intro acc2 _ _ hacc x hx
    exact hacc x hx
  | cons e rest ih =>
    intro acc2 hE hdj hacc x hx
    rw [List.foldl_cons] at hx
    refine ih _ (fun q hq => hE q (List.mem_cons_of_mem e hq)) hdj ?_ x hx
    intro y hy
    split at hy
    · next hcond =>
      have he2 : 0 ≤ e.2 := hE e (List.mem_cons_self e rest)
      cases hacc2 : acc2 with
      | none =>
        rw [hacc2] at hy
        simp only [Option.some_inj] at hy
        omega
      | some cur =>
        rw [hacc2] at hy
        simp only [Option.some_inj] at hy
        have hcur := hacc cur hacc2
        have hmin : min cur (dj + e.2) ≤ cur := min_le_left _ _
        have hmin2 : 0 ≤ min cur (dj + e.2) := le_min (by omega) (by omega)
        omega
    · exact hacc y hy

/-- The outer relaxation fold keeps every recorded value inside
[0, maxDepth] when every known distance is. -/
theorem relaxOuter_bounds (m : Map) (md : Int) (d : List (Option Int)) (i : Nat)
    (hd : ∀ o ∈ d, ∀ x, o = some x → 0 ≤ x ∧ x ≤ md) :
    ∀ (L : List Nat) (acc : Option Int), (∀ x, acc = some x → 0 ≤ x ∧ x ≤ md) →
      ∀ x, (L.foldl (fun acc j =>
          match d.getD j none with
          | none => acc
          | some dj =>
            (m.get_available_exits (Int.ofNat j)).foldl (fun acc2 e =>
              if e.1 = Int.ofNat i ∧ dj + e.2 ≤ md then
                match acc2 with
                | none => some (dj + e.2)
                | some cur => some (min cur (dj + e.2))
              else acc2) acc) acc) = some x → 0 ≤ x ∧ x ≤ md := by
  have hgetD : ∀ j, ∀ x, d.getD j none = some x → 0 ≤ x ∧ x ≤ md := by
    intro j x hx
    by_cases hj : j < d.length
    · rw [List.getD_eq_getElem d none hj] at hx
      exact hd d[j] (List.getElem_mem hj) x hx
    · rw [List.getD_eq_default d none (by omega)] at hx
      cases hx
  intro L
  induction L with
  | nil => intro acc hacc x hx; exact hacc x hx
  | cons a rest ih =>
    intro acc hacc x hx
    rw [List.foldl_cons] at hx
    refine ih _ ?_ x hx
    cases hda : d.getD a none with
    | none => simpa [hda] using hacc
    | some dj =>
      simp only [hda]
      have hdj := hgetD a dj hda
      exact relaxInner_bounds md _ dj i _ (get_available_exits_nonneg m _) (by omega) hacc

/-- The spec-modelled Dijkstra map never records a distance outside
[0, maxDepth]. -/
theorem dijkstraDist_bounds (m : Map) (start : Int) (md : Int) (hmd : 0 ≤ md) :
    ∀ (i x : Int), dijkstraDist m start md i = some x → 0 ≤ x ∧ x ≤ md := by
  have hrounds : ∀ (n : Nat) (d : List (Option Int)),
      (∀ o ∈ d, ∀ x, o = some x → 0 ≤ x ∧ x ≤ md) →
      (∀ o ∈ Nat.iterate (dijkstraRelax m md) n d, ∀ x, o = some x → 0 ≤ x ∧ x ≤ md) := by
    intro n
    induction n with
    | zero => intro d hd; exact hd
    | succ k ih =>
      intro d hd
      rw [Function.iterate_succ_apply]
      apply ih
      intro o ho x hx
      simp only [dijkstraRelax, List.mem_map] at ho
      obtain ⟨i, hi, rfl⟩ := ho
      refine relaxOuter_bounds m md d i hd _ _ ?_ x hx
      intro y hy
      by_cases hj : i < d.length
      · rw [List.getD_eq_getElem d none hj] at hy
        exact hd d[i] (List.getElem_mem hj) y hy
      · rw [List.getD_eq_default d none (by omega)] at hy
        cases hy
  intro i x hx
  unfold dijkstraDist at hx
  split at hx
  · set final := Nat.iterate (dijkstraRelax m md) (m.width * m.height).toNat
      ((List.range (m.width * m.height).toNat).map
        (fun j => if Int.ofNat j = start then some 0 else none)) with hfinal
    have hinit : ∀ o ∈ (List.range (m.width * m.height).toNat).map
        (fun j => if Int.ofNat j = start then some 0 else none),
        ∀ x, o = some x → 0 ≤ x ∧ x ≤ md := by
      intro o ho y hy
      rw [List.mem_map] at ho
      obtain ⟨j, hj, rfl⟩ := ho
      split at hy
      · simp only [Option.some_inj] at hy
        omega
      · cases hy
    have hfin := hrounds (m.width * m.height).toNat _ hinit
    by_cases hi : i.toNat < final.length
    · rw [List.getD_eq_getElem final none hi] at hx
      exact hfin final[i.toNat] (List.getElem_mem hi) x hx
    · rw [List.getD_eq_default final none (by omega)] at hx
      cases hx
  · cases hx

/-- C7 counterexample.  The diagonal step weight in
Map::get_available_exits is the f32 literal 1.45 (29 twentieths in the
exact embedding), not the square root of two: on the all-Floor 3x3
fixture probed at the center, the exits are the east and south
neighbours at weight 1.0 (20) and the south-east diagonal at weight 1.45
(29), and 29/20 differs from the square root of 2. -/
theorem C7_diagonal_weight_not_sqrt_two :
    diagFixtureMap.get_available_exits 4 = [(5, 20), (7, 20), (8, 29)] ∧
    ((29 : ℝ) / 20 ≠ Real.sqrt 2) := by
  constructor
  · decide
  · intro h
    have h2 : ((29 : ℝ) / 20) ^ 2 = 2 := by
      rw [h]
      exact Real.sq_sqrt (by norm_num)
    norm_num at h2

/-- C7 amended.  Every entry of Map::get_available_exits is one of the
eight (target, cost) pairs with cardinal cost 1.0 (20 twentieths) and
diagonal cost 1.45 (29 twentieths), and the spec-modelled Dijkstra map
invoked with the call-site cap 200.0 (4000) records only finite
distances between 0 and the cap, unreached tiles carrying the sentinel
(none). -/
theorem C7_exit_weights_and_cap (m : Map) (idx : Int) :
    (∀ p ∈ m.get_available_exits idx,
      (p ∈ [(idx - 1, (20 : Int)), (idx + 1, 20), (idx - m.width, 20), (idx + m.width, 20),
            ((idx - m.width) - 1, 29), ((idx - m.width) + 1, 29),
            ((idx + m.width) - 1, 29), ((idx + m.width) + 1, 29)]) ∧
      (p.2 = 20 ∨ p.2 = 29)) ∧
    (∀ (start i x : Int), dijkstraDist m start 4000 i = some x → 0 ≤ x ∧ x ≤ 4000) :=
  ⟨get_available_exits_shape m idx,
   fun start i x h => dijkstraDist_bounds m start 4000 (by omega) i x h⟩

/-- C7 witness: the amended statement applied on the 3x3 fixture to the
diagonal exit (8, 29) of the center and to the recorded distance 20 of
the east neighbour. -/
theorem C7_exit_weights_and_cap_witness :
    ((((8 : Int), (29 : Int)) ∈
        [((4 : Int) - 1, (20 : Int)), ((4 : Int) + 1, 20),
         ((4 : Int) - diagFixtureMap.width, 20), ((4 : Int) + diagFixtureMap.width, 20),
         (((4 : Int) - diagFixtureMap.width) - 1, 29),
         (((4 : Int) - diagFixtureMap.width) + 1, 29),
         (((4 : Int) + diagFixtureMap.width) - 1, 29),
         (((4 : Int) + diagFixtureMap.width) + 1, 29)]) ∧
      (((8 : Int), (29 : Int)).2 = 20 ∨ ((8 : Int), (29 : Int)).2 = 29)) ∧
    (0 ≤ (20 : Int) ∧ (20 : Int) ≤ 4000) :=
  ⟨(C7_exit_weights_and_cap diagFixtureMap 4).1 (8, 29) (by decide),
   (C7_exit_weights_and_cap diagFixtureMap 4).2 4 5 20 (by decide)⟩

/-- A fold of guarded single-index writes, where the written value
depends only on the index, evaluates to that value on written indices
and to the base elsewhere. -/
theorem foldWrite_apply {α : Type} (g : α → Int) (h : Int → TileType) :
    ∀ (L : List α) (t0 : Int → TileType) (j : Int),
      (L.foldl (fun acc k => fun i => if i = g k then h (g k) else acc i) t0) j =
        if ∃ k ∈ L, g k = j then h j else t0 j := by
  intro L
  induction L with
  | nil => intro t0 j; simp
  | cons k rest ih =>
    intro t0 j
    rw [List.foldl_cons, ih]
    by_cases hex : ∃ k2 ∈ rest, g k2 = j
    · rw [if_pos hex, if_pos (by obtain ⟨k2, h1, h2⟩ := hex; exact ⟨k2, List.mem_cons_of_mem k h1, h2⟩)]
    · rw [if_neg hex]
      by_cases hko : g k = j
      · have : ∃ k2 ∈ k :: rest, g k2 = j := ⟨k, List.mem_cons_self k rest, hko⟩
        rw [if_pos this]
        simp [hko]
      · have : ¬∃ k2 ∈ k :: rest, g k2 = j := by
          rintro ⟨k2, hk2, he⟩
          rcases List.mem_cons.mp hk2 with rfl | hk3
          · exact hko he
          · exact hex ⟨k2, hk3, he⟩
        rw [if_neg this]
        have hko2 : ¬j = g k := fun hh => hko hh.symm
        simp [hko2]

/-- The Int coercion written by elaboration is the Nat cast. -/
theorem ofNat_cast_eq (n : Nat) : Int.ofNat n = (n : Int) := rfl

/-- Membership in the Int interval list. -/
theorem mem_intRange {a b x : Int} : x ∈ intRange a b ↔ a ≤ x ∧ x < b := by
  simp only [intRange, List.mem_map, List.mem_range]
  constructor
  · rintro ⟨k, hk, rfl⟩
    omega
  · intro ⟨h1, h2⟩
    refine ⟨(x - a).toNat, by omega, ?_⟩
    omega

/-- Membership in the interior cell list. -/
theorem mem_caInteriorCells {m : Map} {p : Int × Int} :
    p ∈ caInteriorCells m ↔
      1 ≤ p.1 ∧ p.1 < m.width - 1 ∧ 1 ≤ p.2 ∧ p.2 < m.height - 1 := by
  obtain ⟨x, y⟩ := p
  simp only [caInteriorCells, List.mem_flatMap, List.mem_map]
  constructor
  · rintro ⟨y2, hy2, x2, hx2, heq⟩
    rw [Prod.mk.injEq] at heq
    obtain ⟨rfl, rfl⟩ := heq
    rw [mem_intRange] at hy2 hx2
    exact ⟨hx2.1, hx2.2, hy2.1, hy2.2⟩
  · intro ⟨h1, h2, h3, h4⟩
    exact ⟨y, mem_intRange.mpr ⟨h3, h4⟩, x, mem_intRange.mpr ⟨h1, h2⟩, rfl⟩

/-- Row-major indices determine in-row coordinates. -/
theorem xy_idx_inj (m : Map) (x y x2 y2 : Int) (hw : 0 < m.width)
    (hx1 : 0 ≤ x) (hx2 : x < m.width) (hx3 : 0 ≤ x2) (hx4 : x2 < m.width)
    (heq : m.xy_idx x y = m.xy_idx x2 y2) : x = x2 ∧ y = y2 := by
  unfold Map.xy_idx at heq
  have hm1 : (y * m.width + x) % m.width = x := by
    have harr : y * m.width + x = x + m.width * y := by ring
    rw [harr, Int.add_mul_emod_self_left]
    exact Int.emod_eq_of_lt hx1 hx2
  have hm2 : (y2 * m.width + x2) % m.width = x2 := by
    have harr : y2 * m.width + x2 = x2 + m.width * y2 := by ring
    rw [harr, Int.add_mul_emod_self_left]
    exact Int.emod_eq_of_lt hx3 hx4
  have hxx : x = x2 := by rw [← hm1, ← hm2, heq]
  refine ⟨hxx, ?_⟩
  have : y * m.width = y2 * m.width := by omega
  exact mul_right_cancel₀ (by omega) this

/-- The one-pass tile characterization: interior indices are recomputed
from the previous generation, other indices are untouched. -/
theorem caPass_tiles (m : Map) (j : Int) :
    (caPass m).tiles j =
      if ∃ p ∈ caInteriorCells m, m.xy_idx p.1 p.2 = j then
        (if caWallCount m j > 4 ∨ caWallCount m j = 0 then TileType.Wall else TileType.Floor)
      else m.tiles j :=
  foldWrite_apply (fun p : Int × Int => m.xy_idx p.1 p.2)
    (fun i => if caWallCount m i > 4 ∨ caWallCount m i = 0 then TileType.Wall
      else TileType.Floor) (caInteriorCells m) m.tiles j

/-- The offset arithmetic of the pass equals the coordinate
neighbourhood: the counted cells are exactly the 8 surrounding
coordinates. -/
theorem caWallCount_eq_geom (m : Map) (x y : Int) :
    caWallCount m (m.xy_idx x y) = geomWallCount m x y := by
  simp only [caWallCount, geomWallCount, Map.xy_idx]
  have e1 : y * m.width + x - 1 = y * m.width + (x - 1) := by ring
  have e2 : y * m.width + x + 1 = y * m.width + (x + 1) := by ring
  have e3 : y * m.width + x - m.width = (y - 1) * m.width + x := by ring
  have e4 : y * m.width + x + m.width = (y + 1) * m.width + x := by ring
  have e5 : y * m.width + x - (m.width - 1) = (y - 1) * m.width + (x + 1) := by ring
  have e6 : y * m.width + x - (m.width + 1) = (y - 1) * m.width + (x - 1) := by ring
  have e7 : y * m.width + x + (m.width - 1) = (y + 1) * m.width + (x - 1) := by ring
  have e8 : y * m.width + x + (m.width + 1) = (y + 1) * m.width + (x + 1) := by ring
  simp only [e1, e2, e3, e4, e5, e6, e7, e8]

/-- Constant-function fold over a range is function iteration. -/
theorem foldConst_eq_iterate {α : Type} (f : α → α) :
    ∀ (n : Nat) (x : α), (List.range n).foldl (fun acc _ => f acc) x = f^[n] x := by
  intro n
  induction n with
  | zero => intro x; simp
  | succ k ih =>
    intro x
    rw [List.range_succ, List.foldl_append, ih, List.foldl_cons, List.foldl_nil,
      Function.iterate_succ_apply']

/-- A successful left walk ends on a Floor tile of its row. -/
theorem walkLeft_floor (m : Map) (y : Int) :
    ∀ (fuel : Nat) (x r : Int), walkLeft m y x fuel = some r →
      m.tiles (m.xy_idx r y) = TileType.Floor := by
  intro fuel
  induction fuel with
  | zero => intro x r h; cases h
  | succ k ih =>
    intro x r h
    unfold walkLeft at h
    split at h
    · next hfl =>
      cases h
      exact hfl
    · exact ih (x - 1) r h

/-- C8 counterexample.  Scenario 2 of the spec words the smoothing rule
over 4 cardinal neighbours, but CellularAutomataBuilder::build counts 8
(Moore) neighbours: on a 3x3 map that is all Floor except a Wall in the
north-west corner, the single interior tile has one Wall neighbour under
the coded 8-neighbour count (so the pass writes Floor) but zero Wall
neighbours under the 4-neighbour wording (so the worded rule writes
Wall). -/
theorem C8_four_neighbour_scenario_disagrees :
    (caPass caCexMap).tiles (caCexMap.xy_idx 1 1) = TileType.Floor ∧
    (caPassFourNeighbourSpec caCexMap).tiles (caCexMap.xy_idx 1 1) = TileType.Wall ∧
    TileType.Floor ≠ TileType.Wall := by decide

/-- C8 (amended: the neighbourhood is the 8-neighbour Moore
neighbourhood of section 4.4; Scenario 2's 4-neighbour wording is wrong).
CellularAutomataBuilder::build smooths exactly 15 times (caSmooth is the
15-fold iterate of the single pass); each pass recomputes every interior
tile from the PREVIOUS generation by the majority rule over its 8
surrounding coordinates (Wall when the Wall-neighbour count exceeds 4 or
is 0, Floor otherwise), leaves every non-interior tile unchanged, and
the start tile found by walking left until a Floor is a Floor tile. -/
theorem C8_fifteen_passes_eight_neighbour_majority (m : Map) (hw : 0 < m.width) :
    caSmooth m = caPass^[15] m ∧
    (∀ x y : Int, 1 ≤ x → x < m.width - 1 → 1 ≤ y → y < m.height - 1 →
      (caPass m).tiles (m.xy_idx x y) =
        (if geomWallCount m x y > 4 ∨ geomWallCount m x y = 0
         then TileType.Wall else TileType.Floor)) ∧
    (∀ x y : Int, 0 ≤ x → x < m.width → 0 ≤ y → y < m.height →
      ¬(1 ≤ x ∧ x < m.width - 1 ∧ 1 ≤ y ∧ y < m.height - 1) →
      (caPass m).tiles (m.xy_idx x y) = m.tiles (m.xy_idx x y)) ∧
    (∀ (y : Int) (fuel : Nat) (x0 r : Int), walkLeft m y x0 fuel = some r →
      m.tiles (m.xy_idx r y) = TileType.Floor) := by
  refine ⟨foldConst_eq_iterate caPass 15 m, ?_, ?_, ?_⟩
  · intro x y hx1 hx2 hy1 hy2
    rw [caPass_tiles]
    have hmem : ((x, y) : Int × Int) ∈ caInteriorCells m :=
      mem_caInteriorCells.mpr ⟨hx1, hx2, hy1, hy2⟩
    rw [if_pos ⟨(x, y), hmem, rfl⟩]
    simp only [caWallCount_eq_geom]
  · intro x y hx1 hx2 hy1 hy2 hni
    rw [caPass_tiles]
    have hno : ¬∃ p ∈ caInteriorCells m, m.xy_idx p.1 p.2 = m.xy_idx x y := by
      rintro ⟨p, hp, he⟩
      rw [mem_caInteriorCells] at hp
      obtain ⟨hp1, hp2, hp3, hp4⟩ := hp
      obtain ⟨he1, he2⟩ :=
        xy_idx_inj m p.1 p.2 x y hw (by omega) (by omega) hx1 hx2 he
      exact hni ⟨by omega, by omega, by omega, by omega⟩
    rw [if_neg hno]
  · intro y fuel x0 r h
    exact walkLeft_floor m y fuel x0 r h

/-- C8 witness: the amended theorem instantiated on the 3x3 fixture
map, whose width is positive. -/
theorem C8_fifteen_passes_eight_neighbour_majority_witness :
    (0 : Int) < caCexMap.width ∧
    (caSmooth caCexMap = caPass^[15] caCexMap ∧
     (∀ x y : Int, 1 ≤ x → x < caCexMap.width - 1 → 1 ≤ y → y < caCexMap.height - 1 →
       (caPass caCexMap).tiles (caCexMap.xy_idx x y) =
         (if geomWallCount caCexMap x y > 4 ∨ geomWallCount caCexMap x y = 0
          then TileType.Wall else TileType.Floor)) ∧
     (∀ x y : Int, 0 ≤ x → x < caCexMap.width → 0 ≤ y → y < caCexMap.height →
       ¬(1 ≤ x ∧ x < caCexMap.width - 1 ∧ 1 ≤ y ∧ y < caCexMap.height - 1) →
       (caPass caCexMap).tiles (caCexMap.xy_idx x y) =
         caCexMap.tiles (caCexMap.xy_idx x y)) ∧
     (∀ (y : Int) (fuel : Nat) (x0 r : Int), walkLeft caCexMap y x0 fuel = some r →
       caCexMap.tiles (caCexMap.xy_idx r y) = TileType.Floor)) :=
  ⟨by decide, C8_fifteen_passes_eight_neighbour_majority caCexMap (by decide)⟩

/-- A left fold of guarded single-index writes over a list: a write
happens at g k only when the guard holds at k. -/
theorem foldCondWrite_apply {α : Type} (g : α → Int) (c : α → Prop) [DecidablePred c]
    (v : TileType) :
    ∀ (L : List α) (t0 : Int → TileType) (j : Int),
      (L.foldl (fun acc k =>
        if c k then (fun i => if i = g k then v else acc i) else acc) t0) j =
        if ∃ k ∈ L, c k ∧ g k = j then v else t0 j := by
  intro L
  induction L with
  | nil => intro t0 j; simp
  | cons k rest ih =>
    intro t0 j
    rw [List.foldl_cons]
    by_cases hck : c k
    · rw [if_pos hck, ih]
      by_cases hex : ∃ k2 ∈ rest, c k2 ∧ g k2 = j
      · rw [if_pos hex,
          if_pos (by obtain ⟨k2, h1, h2⟩ := hex; exact ⟨k2, List.mem_cons_of_mem k h1, h2⟩)]
      · rw [if_neg hex]
        by_cases hko : g k = j
        · have hex2 : ∃ k2 ∈ k :: rest, c k2 ∧ g k2 = j :=
            ⟨k, List.mem_cons_self k rest, hck, hko⟩
          rw [if_pos hex2]
          simp [hko]
        · have hno : ¬∃ k2 ∈ k :: rest, c k2 ∧ g k2 = j := by
            rintro ⟨k2, hk2, hc2, he⟩
            rcases List.mem_cons.mp hk2 with rfl | hk3
            · exact hko he
            · exact hex ⟨k2, hk3, hc2, he⟩
          rw [if_neg hno]
          have hko2 : ¬j = g k := fun hh => hko hh.symm
          simp [hko2]
    · rw [if_neg hck, ih]
      by_cases hex : ∃ k2 ∈ rest, c k2 ∧ g k2 = j
      · rw [if_pos hex,
          if_pos (by obtain ⟨k2, h1, h2⟩ := hex; exact ⟨k2, List.mem_cons_of_mem k h1, h2⟩)]
      · rw [if_neg hex]
        have hno : ¬∃ k2 ∈ k :: rest, c k2 ∧ g k2 = j := by
          rintro ⟨k2, hk2, hc2, he⟩
          rcases List.mem_cons.mp hk2 with rfl | hk3
          · exact hck hc2
          · exact hex ⟨k2, hk3, hc2, he⟩
        rw [if_neg hno]

/-- The carve characterization: an index is Floor iff some interior
cell with a low different-membership count writes it, all other indices
are untouched. -/
theorem voronoiCarve_tiles (m : Map) (memb : Int → Int) (j : Int) :
    (voronoiCarve m memb).tiles j =
      if ∃ p ∈ caInteriorCells m,
          voronoiDiffCount m memb p.1 p.2 < 2 ∧ m.xy_idx p.1 p.2 = j
      then TileType.Floor else m.tiles j :=
  foldCondWrite_apply (fun p : Int × Int => m.xy_idx p.1 p.2)
    (fun p : Int × Int => voronoiDiffCount m memb p.1 p.2 < 2) TileType.Floor
    (caInteriorCells m) m.tiles j

/-- The head of a stable insertion sort by a total transitive relation
is a member of the list that the relation bounds below. -/
theorem insertionSort_headD_min {α : Type} (r : α → α → Prop) [DecidableRel r]
    (htot : ∀ a b, r a b ∨ r b a) (htr : ∀ a b c, r a b → r b c → r a c)
    (l : List α) (d : α) (hne : l ≠ []) :
    (l.insertionSort r).headD d ∈ l ∧ ∀ x ∈ l, r ((l.insertionSort r).headD d) x := by
  haveI : IsTotal α r := ⟨htot⟩
  haveI : IsTrans α r := ⟨fun a b c => htr a b c⟩
  have hperm := List.perm_insertionSort r l
  have hsorted := List.sorted_insertionSort r l
  cases hs : l.insertionSort r with
  | nil =>
    rw [hs] at hperm
    exact absurd hperm.symm.eq_nil hne
  | cons a t =>
    rw [hs] at hperm hsorted
    have hmem : a ∈ l := hperm.mem_iff.mp (List.mem_cons_self a t)
    refine ⟨hmem, ?_⟩
    intro x hx
    have hx2 : x ∈ a :: t := hperm.mem_iff.mpr hx
    show r a x
    rcases List.mem_cons.mp hx2 with rfl | hxt
    · rcases htot x x with h | h <;> exact h
    · exact List.rel_of_sorted_cons hsorted x hxt

/-- The seed-scatter loop invariant: a successful run extends a short
duplicate-free well-formed accumulator to exactly n duplicate-free
well-formed seeds. -/
theorem voronoiSeedLoop_spec (m : Map) (n : Nat) (h2 : 2 ≤ m.width) (hh : 1 ≤ m.height) :
    ∀ (fuel : Nat) (acc : List (Int × Int × Int)) (rng : Rng)
      (out : List (Int × Int × Int)) (rng2 : Rng),
      acc.length ≤ n → acc.Nodup → (∀ s ∈ acc, seedOk m s) →
      voronoiSeedLoop m n fuel acc rng = some (out, rng2) →
      out.length = n ∧ out.Nodup ∧ ∀ s ∈ out, seedOk m s := by
  intro fuel
  induction fuel with
  | zero =>
    intro acc rng out rng2 hlen hnd hP h
    unfold voronoiSeedLoop at h
    by_cases hge : n ≤ acc.length
    · rw [if_pos hge] at h
      cases h
      exact ⟨le_antisymm hlen hge, hnd, hP⟩
    · rw [if_neg hge] at h
      cases h
  | succ k ih =>
    intro acc rng out rng2 hlen hnd hP h
    by_cases hge : n ≤ acc.length
    · unfold voronoiSeedLoop at h
      rw [if_pos hge] at h
      cases h
      exact ⟨le_antisymm hlen hge, hnd, hP⟩
    · have h2x : voronoiSeedLoop m n k
          (if acc.contains (m.xy_idx (rollDice rng (m.width - 1)).1
              (rollDice (rollDice rng (m.width - 1)).2 (m.height * 2 - 1)).1,
            (rollDice rng (m.width - 1)).1,
            (rollDice (rollDice rng (m.width - 1)).2 (m.height * 2 - 1)).1)
           then acc
           else acc ++ [(m.xy_idx (rollDice rng (m.width - 1)).1
              (rollDice (rollDice rng (m.width - 1)).2 (m.height * 2 - 1)).1,
            (rollDice rng (m.width - 1)).1,
            (rollDice (rollDice rng (m.width - 1)).2 (m.height * 2 - 1)).1)])
          (rollDice (rollDice rng (m.width - 1)).2 (m.height * 2 - 1)).2 =
          some (out, rng2) := by
        rw [← h]
        conv_rhs => rw [voronoiSeedLoop]
        rw [if_neg hge]
      have hvx := rollDice_bound rng (m.width - 1) (by omega)
      have hvy := rollDice_bound (rollDice rng (m.width - 1)).2 (m.height * 2 - 1) (by omega)
      set cand : Int × Int × Int := (m.xy_idx (rollDice rng (m.width - 1)).1
          (rollDice (rollDice rng (m.width - 1)).2 (m.height * 2 - 1)).1,
        (rollDice rng (m.width - 1)).1,
        (rollDice (rollDice rng (m.width - 1)).2 (m.height * 2 - 1)).1) with hcand
      have hcOk : seedOk m cand := ⟨hvx.1, hvx.2, hvy.1, hvy.2, rfl⟩
      by_cases hc : acc.contains cand
      · rw [if_pos hc] at h2x
        exact ih acc _ out rng2 (by omega) hnd hP h2x
      · rw [if_neg hc] at h2x
        have hnm : cand ∉ acc := by
          intro hmem
          exact hc (List.elem_eq_true_of_mem hmem)
        refine ih (acc ++ [cand]) _ out rng2 ?_ ?_ ?_ h2x
        · rw [List.length_append, List.length_singleton]
          omega
        · rw [List.nodup_append]
          exact ⟨hnd, List.nodup_singleton _, by
            intro a ha hb
            rw [List.mem_singleton] at hb
            subst hb
            exact hnm ha⟩
        · intro s hs
          rcases List.mem_append.mp hs with hs1 | hs2
          · exact hP s hs1
          · rw [List.mem_singleton] at hs2
            subst hs2
            exact hcOk

/-- The coded membership always picks a seed whose distance to the
PROBED point (i % width, i / height) is minimal. -/
theorem voronoiMembership_min (alg : DistanceAlgorithm) (seeds : List (Int × Int × Int))
    (m : Map) (i : Int) (hne : seeds ≠ []) :
    ∃ (j : Nat) (s : Int × Int × Int), seeds[j]? = some s ∧
      voronoiMembership alg seeds m i = (j : Int) ∧
      ∀ (k : Nat) (t : Int × Int × Int), seeds[k]? = some t →
        voronoiDist alg (i % m.width) (i / m.height) s.2.1 s.2.2 ≤
        voronoiDist alg (i % m.width) (i / m.height) t.2.1 t.2.2 := by
  have hne2 : (seeds.enum.map (fun p => ((p.1 : Int),
      voronoiDist alg (i % m.width) (i / m.height) p.2.2.1 p.2.2.2))) ≠ [] := by
    cases seeds with
    | nil => exact absurd rfl hne
    | cons a l => simp
  obtain ⟨hmem, hmin⟩ := insertionSort_headD_min
    (fun a b : Int × Int => a.2 ≤ b.2) (fun a b => le_total a.2 b.2)
    (fun a b c hab hbc => le_trans hab hbc)
    (seeds.enum.map (fun p => ((p.1 : Int),
      voronoiDist alg (i % m.width) (i / m.height) p.2.2.1 p.2.2.2))) (0, 0) hne2
  obtain ⟨p, hp, hfp⟩ := List.mem_map.mp hmem
  obtain ⟨j, s⟩ := p
  have hget : seeds[j]? = some s := List.mk_mem_enum_iff_getElem?.mp hp
  refine ⟨j, s, hget, ?_, ?_⟩
  · show voronoiMembership alg seeds m i = (j : Int)
    simp only [voronoiMembership]
    rw [← hfp]
  · intro k t hkt
    have hkmem : (k, t) ∈ seeds.enum := List.mk_mem_enum_iff_getElem?.mpr hkt
    have hfk := hmin _ (List.mem_map_of_mem (fun p => ((p.1 : Int),
      voronoiDist alg (i % m.width) (i / m.height) p.2.2.1 p.2.2.2)) hkmem)
    rw [← hfp] at hfk
    exact hfk

/-- C6 counterexample.  On the 80x43 Voronoi map with the seed set the
fixture stream actually scatters (seeds 2..63 prove the spec's phrase
"in-grid" wrong too: vy ranges to 2*height-1 = 85), tile 401 -- grid
position (1, 5) -- is assigned seed 1 at (1, 9), because the source
probes (i % width, i / HEIGHT) = (1, 9); seed 0 at (1, 5) is strictly
nearer to the tile, so the assignment is not nearest-seed.  And the
carve loop counts DIFFERENT-region neighbours: interior tile (2, 10),
all 4 of whose cardinal neighbours share its region, is carved Floor by
the code, while the claim's fewer-than-2-SAME-region rule leaves it
Wall. -/
theorem C6_membership_not_nearest_and_carve_rule_inverted :
    (voronoiSeedLoop cexVorMap 64 64 [] cexVorRng).map Prod.fst = some cexVorSeeds ∧
    voronoiMembership DistanceAlgorithm.Pythagoras cexVorSeeds cexVorMap 401 = 1 ∧
    specNearestOk DistanceAlgorithm.Pythagoras cexVorSeeds cexVorMap 401 1 = false ∧
    (voronoiCarve cexVorMap
      (voronoiMembership DistanceAlgorithm.Pythagoras cexVorSeeds cexVorMap)).tiles
      (cexVorMap.xy_idx 2 10) = TileType.Floor ∧
    specCarvedTile cexVorMap
      (voronoiMembership DistanceAlgorithm.Pythagoras cexVorSeeds cexVorMap) 2 10 =
      TileType.Wall := by
  refine ⟨by decide, by decide, by decide, ?_, by decide⟩
  rw [voronoiCarve_tiles]
  have hexq : ∃ p ∈ caInteriorCells cexVorMap,
      voronoiDiffCount cexVorMap
        (voronoiMembership DistanceAlgorithm.Pythagoras cexVorSeeds cexVorMap) p.1 p.2 < 2 ∧
      cexVorMap.xy_idx p.1 p.2 = cexVorMap.xy_idx 2 10 :=
    ⟨(2, 10), mem_caInteriorCells.mpr (by decide), by decide, rfl⟩
  rw [if_pos hexq]

/-- C6 (amended: the probed point of tile i is (i % width, i / HEIGHT)
-- the y division uses the map height, so for the 80x43 map it is NOT
the tile's own position -- seeds are scattered with vx in 1..=width-1
but vy in 1..=2*height-1, i.e. possibly BELOW the grid, and the carve
rule counts DIFFERENT-region cardinal neighbours, carving when fewer
than 2 differ).  The membership always picks a seed of minimal chosen
distance to the probed point; interior tiles are carved to Floor exactly
when fewer than 2 cardinal neighbours lie in another region, other
tiles are untouched; the scatter loop yields exactly 64 distinct
well-formed seeds. -/
theorem C6_membership_carve_and_scatter (alg : DistanceAlgorithm) (m : Map)
    (h2 : 2 ≤ m.width) (hh : 1 ≤ m.height) :
    (∀ (seeds : List (Int × Int × Int)) (i : Int), seeds ≠ [] →
      ∃ (j : Nat) (s : Int × Int × Int), seeds[j]? = some s ∧
        voronoiMembership alg seeds m i = (j : Int) ∧
        ∀ (k : Nat) (t : Int × Int × Int), seeds[k]? = some t →
          voronoiDist alg (i % m.width) (i / m.height) s.2.1 s.2.2 ≤
          voronoiDist alg (i % m.width) (i / m.height) t.2.1 t.2.2) ∧
    (∀ (memb : Int → Int) (x y : Int), 1 ≤ x → x < m.width - 1 → 1 ≤ y → y < m.height - 1 →
      (voronoiCarve m memb).tiles (m.xy_idx x y) =
        (if voronoiDiffCount m memb x y < 2 then TileType.Floor
         else m.tiles (m.xy_idx x y))) ∧
    (∀ (memb : Int → Int) (x y : Int), 0 ≤ x → x < m.width → 0 ≤ y → y < m.height →
      ¬(1 ≤ x ∧ x < m.width - 1 ∧ 1 ≤ y ∧ y < m.height - 1) →
      (voronoiCarve m memb).tiles (m.xy_idx x y) = m.tiles (m.xy_idx x y)) ∧
    (∀ (fuel : Nat) (rng : Rng) (seeds : List (Int × Int × Int)) (rng2 : Rng),
      voronoiSeedLoop m 64 fuel [] rng = some (seeds, rng2) →
      seeds.length = 64 ∧ seeds.Nodup ∧ ∀ s ∈ seeds, seedOk m s) := by
  refine ⟨fun seeds i hne => voronoiMembership_min alg seeds m i hne, ?_, ?_, ?_⟩
  · intro memb x y hx1 hx2 hy1 hy2
    rw [voronoiCarve_tiles]
    by_cases hd : voronoiDiffCount m memb x y < 2
    · have hexq : ∃ p ∈ caInteriorCells m,
          voronoiDiffCount m memb p.1 p.2 < 2 ∧ m.xy_idx p.1 p.2 = m.xy_idx x y :=
        ⟨(x, y), mem_caInteriorCells.mpr ⟨hx1, hx2, hy1, hy2⟩, hd, rfl⟩
      rw [if_pos hexq, if_pos hd]
    · have hno : ¬∃ p ∈ caInteriorCells m,
          voronoiDiffCount m memb p.1 p.2 < 2 ∧ m.xy_idx p.1 p.2 = m.xy_idx x y := by
        rintro ⟨p, hp, hdp, he⟩
        rw [mem_caInteriorCells] at hp
        obtain ⟨hp1, hp2, hp3, hp4⟩ := hp
        obtain ⟨he1, he2⟩ :=
          xy_idx_inj m p.1 p.2 x y (by omega) (by omega) (by omega) (by omega) (by omega) he
        rw [he1, he2] at hdp
        exact hd hdp
      rw [if_neg hno, if_neg hd]
  · intro memb x y hx1 hx2 hy1 hy2 hni
    rw [voronoiCarve_tiles]
    have hno : ¬∃ p ∈ caInteriorCells m,
        voronoiDiffCount m memb p.1 p.2 < 2 ∧ m.xy_idx p.1 p.2 = m.xy_idx x y := by
      rintro ⟨p, hp, hdp, he⟩
      rw [mem_caInteriorCells] at hp
      obtain ⟨hp1, hp2, hp3, hp4⟩ := hp
      obtain ⟨he1, he2⟩ :=
        xy_idx_inj m p.1 p.2 x y (by omega) (by omega) (by omega) hx1 hx2 he
      exact hni ⟨by omega, by omega, by omega, by omega⟩
    rw [if_neg hno]
  · intro fuel rng seeds rng2 h
    exact voronoiSeedLoop_spec m 64 h2 hh fuel [] rng seeds rng2
      (by simp) List.nodup_nil (by simp) h

/-- C6 witness: the amended theorem instantiated on the 80x43 all-Wall
voronoi map with the Pythagoras metric. -/
theorem C6_membership_carve_and_scatter_witness :
    (2 ≤ cexVorMap.width ∧ 1 ≤ cexVorMap.height) ∧
    ((∀ (seeds : List (Int × Int × Int)) (i : Int), seeds ≠ [] →
      ∃ (j : Nat) (s : Int × Int × Int), seeds[j]? = some s ∧
        voronoiMembership DistanceAlgorithm.Pythagoras seeds cexVorMap i = (j : Int) ∧
        ∀ (k : Nat) (t : Int × Int × Int), seeds[k]? = some t →
          voronoiDist DistanceAlgorithm.Pythagoras
            (i % cexVorMap.width) (i / cexVorMap.height) s.2.1 s.2.2 ≤
          voronoiDist DistanceAlgorithm.Pythagoras
            (i % cexVorMap.width) (i / cexVorMap.height) t.2.1 t.2.2) ∧
    (∀ (memb : Int → Int) (x y : Int),
      1 ≤ x → x < cexVorMap.width - 1 → 1 ≤ y → y < cexVorMap.height - 1 →
      (voronoiCarve cexVorMap memb).tiles (cexVorMap.xy_idx x y) =
        (if voronoiDiffCount cexVorMap memb x y < 2 then TileType.Floor
         else cexVorMap.tiles (cexVorMap.xy_idx x y))) ∧
    (∀ (memb : Int → Int) (x y : Int),
      0 ≤ x → x < cexVorMap.width → 0 ≤ y → y < cexVorMap.height →
      ¬(1 ≤ x ∧ x < cexVorMap.width - 1 ∧ 1 ≤ y ∧ y < cexVorMap.height - 1) →
      (voronoiCarve cexVorMap memb).tiles (cexVorMap.xy_idx x y) =
        cexVorMap.tiles (cexVorMap.xy_idx x y)) ∧
    (∀ (fuel : Nat) (rng : Rng) (seeds : List (Int × Int × Int)) (rng2 : Rng),
      voronoiSeedLoop cexVorMap 64 fuel [] rng = some (seeds, rng2) →
      seeds.length = 64 ∧ seeds.Nodup ∧ ∀ s ∈ seeds, seedOk cexVorMap s)) :=
  ⟨⟨by decide, by decide⟩,
    C6_membership_carve_and_scatter DistanceAlgorithm.Pythagoras cexVorMap
      (by decide) (by decide)⟩

/-- C3.  SimpleMapBuilder::rooms_and_corridors stamps DownStairs on the
last room's center and starts the player on the first room's center;
when rejection sampling keeps a single room the two coincide.  With the
all-zero rng stream every attempt proposes Rect::new 0 0 6 6, only the
first is kept, and the finished build returns starting position (3, 3)
whose tile is DownStairs, not Floor -- refuting the claim that
get_starting_position() always returns a Floor tile.  (The run is fully
concrete: no tunnel is drawn and no pruning runs, SimpleMap never
prunes.) -/
theorem C3_single_room_start_tile_is_stairs :
    (simple_map_build (rngOfList [])).2 = ({ x := 3, y := 3 } : Position) ∧
    (simple_map_build (rngOfList [])).1.tiles
      ((simple_map_build (rngOfList [])).1.xy_idx 3 3) = TileType.DownStairs ∧
    TileType.DownStairs ≠ TileType.Floor := by decide

/-- A property preserved by every fold step is preserved by the fold. -/
theorem foldl_preserve {α β : Type} (P : β → Prop) (f : β → α → β)
    (h : ∀ st a, P st → P (f st a)) :
    ∀ (l : List α) (init : β), P init → P (l.foldl f init) := by
  intro l
  induction l with
  | nil => intro init hi; exact hi
  | cons a rest ih =>
    intro init hi
    exact ih (f init a) (h init a hi)

/-- Writing a non-Placeholder tile keeps the map Placeholder-free. -/
theorem noPlaceholder_setTile {m : Map} {i : Int} {t : TileType}
    (hm : noPlaceholder m) (ht : t ≠ TileType.Placeholder) :
    noPlaceholder (m.setTile i t) := by
  intro j
  show (if j = i then t else m.tiles j) ≠ TileType.Placeholder
  by_cases h : j = i
  · rw [if_pos h]; exact ht
  · rw [if_neg h]; exact hm j

/-- A fresh map whose fill is not Placeholder is Placeholder-free. -/
theorem noPlaceholder_new (w h : Int) (f : Option TileType)
    (hf : f.getD TileType.Void ≠ TileType.Placeholder) :
    noPlaceholder (Map.new w h f) :=
  fun _ => hf

/-- getD from a Placeholder-free list with a Placeholder-free default. -/
theorem getD_ne_placeholder {p : List TileType} {d : TileType} :
    ∀ {n : Nat}, (∀ x ∈ p, x ≠ TileType.Placeholder) → d ≠ TileType.Placeholder →
      p.getD n d ≠ TileType.Placeholder := by
  induction p with
  | nil => intro n hp hd; simpa [List.getD]
  | cons a t ih =>
    intro n hp hd
    cases n with
    | zero => simpa using hp a (List.mem_cons_self a t)
    | succ k =>
      simp only [List.getD_cons_succ]
      exact ih (fun x hx => hp x (List.mem_cons_of_mem a hx)) hd

/-- patGet from a Placeholder-free pattern is never Placeholder. -/
theorem patGet_ne_placeholder {p : List TileType} {i : Int}
    (hp : ∀ x ∈ p, x ≠ TileType.Placeholder) :
    patGet p i ≠ TileType.Placeholder :=
  getD_ne_placeholder hp (by intro h; cases h)

/-- Blitting a Placeholder-free pattern keeps the map Placeholder-free. -/
theorem noPlaceholder_blitChunk {m : Map} (p : List TileType) (cs l t : Int)
    (hp : ∀ x ∈ p, x ≠ TileType.Placeholder) (hm : noPlaceholder m) :
    noPlaceholder (blitChunk m p cs l t) := by
  unfold blitChunk
  refine foldl_preserve noPlaceholder _ ?_ _ m hm
  intro st y hst
  refine foldl_preserve noPlaceholder _ ?_ _ st hst
  intro st2 x hst2
  exact noPlaceholder_setTile hst2 (patGet_ne_placeholder hp)

/-- apply_room_to_map writes only Wall and Floor. -/
theorem noPlaceholder_apply_room {m : Map} (room : Rect) (hm : noPlaceholder m) :
    noPlaceholder (apply_room_to_map m room) := by
  unfold apply_room_to_map
  refine foldl_preserve noPlaceholder _ ?_ _ m hm
  intro st y hst
  refine foldl_preserve noPlaceholder _ ?_ _ st hst
  intro st2 x hst2
  refine noPlaceholder_setTile hst2 ?_
  split
  · intro h; cases h
  · intro h; cases h

/-- A branch between two Placeholder-free maps is Placeholder-free. -/
theorem noPlaceholder_ite (A : Prop) [Decidable A] {m1 m2 : Map}
    (h1 : noPlaceholder m1) (h2 : noPlaceholder m2) :
    noPlaceholder (if A then m1 else m2) := by
  split
  · exact h1
  · exact h2

/-- A property holding on both branches holds on the branch taken. -/
theorem prop_ite (A : Prop) [Decidable A] {β : Type} (P : β → Prop) {a b : β}
    (ha : P a) (hb : P b) : P (if A then a else b) := by
  split
  · exact ha
  · exact hb

/-- One corridor step writes only Floor and Wall. -/
theorem noPlaceholder_drawCorridorGo (x2 y2 : Int) :
    ∀ (fuel : Nat) (m : Map) (x y : Int), noPlaceholder m →
      noPlaceholder (drawCorridorGo x2 y2 m x y fuel) := by
  intro fuel
  induction fuel with
  | zero => intro m x y hm; exact hm
  | succ k ih =>
    intro m x y hm
    unfold drawCorridorGo
    split
    · exact hm
    · refine ih _ _ _ ?_
      refine foldl_preserve noPlaceholder _ ?_ _ _
        (noPlaceholder_setTile hm (by intro h; cases h))
      intro st yy hst
      refine foldl_preserve noPlaceholder _ ?_ _ st hst
      intro st2 xx hst2
      exact noPlaceholder_ite _ hst2
        (noPlaceholder_ite _ (noPlaceholder_setTile hst2 (by intro h; cases h)) hst2)

/-- draw_corridor keeps the map Placeholder-free. -/
theorem noPlaceholder_draw_corridor {m : Map} (x1 y1 x2 y2 : Int)
    (hm : noPlaceholder m) : noPlaceholder (draw_corridor m x1 y1 x2 y2) :=
  noPlaceholder_drawCorridorGo x2 y2 _ m x1 y1 hm

/-- The prune sweep writes only Wall over the previous tiles. -/
theorem noPlaceholder_removeUnreachableWith {m : Map} (dist : Int → Option Int)
    (hm : noPlaceholder m) : noPlaceholder (removeUnreachableWith m dist).1 := by
  intro j
  show (pruneSweep m dist (List.range (m.width * m.height).toNat) m.tiles (0, 0)).1 j ≠
    TileType.Placeholder
  rcases pruneSweep_tiles_value m dist (List.range (m.width * m.height).toNat)
    m.tiles (0, 0) j with h | h
  · rw [h]; exact hm j
  · rw [h]; intro hc; cases hc

/-- One smoothing pass writes only Wall and Floor. -/
theorem noPlaceholder_caPass {m : Map} (hm : noPlaceholder m) :
    noPlaceholder (caPass m) := by
  intro j
  rw [caPass_tiles]
  split
  · split
    · intro h; cases h
    · intro h; cases h
  · exact hm j

/-- The 15-pass smoothing keeps the map Placeholder-free. -/
theorem noPlaceholder_caSmooth {m : Map} (hm : noPlaceholder m) :
    noPlaceholder (caSmooth m) := by
  unfold caSmooth
  refine foldl_preserve noPlaceholder _ ?_ _ m hm
  intro st _ hst
  exact noPlaceholder_caPass hst

/-- The random fill writes only Wall and Floor. -/
theorem noPlaceholder_caFill {m : Map} (rng : Rng) (hm : noPlaceholder m) :
    noPlaceholder (caFill m rng).1 := by
  unfold caFill
  refine foldl_preserve (fun st : Map × Rng => noPlaceholder st.1) _ ?_ _ (m, rng) hm
  intro st y hst
  refine foldl_preserve (fun st : Map × Rng => noPlaceholder st.1) _ ?_ _ st hst
  intro st2 x hst2
  refine noPlaceholder_setTile hst2 ?_
  split
  · intro h; cases h
  · intro h; cases h

/-- Prune-and-stamp keeps the map Placeholder-free. -/
theorem noPlaceholder_pruneAndStamp {m : Map} (dist : Int → Option Int)
    (hm : noPlaceholder m) : noPlaceholder (pruneAndStamp m dist) :=
  noPlaceholder_setTile (noPlaceholder_removeUnreachableWith dist hm)
    (by intro h; cases h)

/-- The shared walk-prune-stamp tail keeps the map Placeholder-free. -/
theorem noPlaceholder_caFinish {m2 : Map} (dij : Map → Int → Int → Option Int)
    (walkFuel : Nat) (m : Map) (pos : Position) (hm2 : noPlaceholder m2)
    (h : caFinish m2 dij walkFuel = some (m, pos)) : noPlaceholder m := by
  unfold caFinish at h
  split at h
  · cases h
  · cases h
    exact noPlaceholder_pruneAndStamp _ hm2

/-- The cellular-automata pipeline never emits Placeholder. -/
theorem noPlaceholder_cellular (rng : Rng) (dij : Map → Int → Int → Option Int)
    (walkFuel : Nat) (m : Map) (pos : Position)
    (h : cellular_automata_build rng dij walkFuel = some (m, pos)) :
    noPlaceholder m := by
  unfold cellular_automata_build at h
  exact noPlaceholder_caFinish dij walkFuel m pos
    (noPlaceholder_caSmooth (noPlaceholder_caFill rng
      (noPlaceholder_new _ _ _ (by intro h2; cases h2)))) h

/-- The voronoi carve writes only Floor over the previous tiles. -/
theorem noPlaceholder_voronoiCarve {m : Map} (memb : Int → Int)
    (hm : noPlaceholder m) : noPlaceholder (voronoiCarve m memb) := by
  intro j
  rw [voronoiCarve_tiles]
  split
  · intro h; cases h
  · exact hm j

/-- The voronoi pipeline never emits Placeholder. -/
theorem noPlaceholder_voronoi (alg : DistanceAlgorithm) (rng : Rng)
    (dij : Map → Int → Int → Option Int) (fuel : Nat) (m : Map) (pos : Position)
    (h : voronoi_build alg rng dij fuel = some (m, pos)) : noPlaceholder m := by
  simp only [voronoi_build] at h
  split at h
  · cases h
  · cases h
    exact noPlaceholder_pruneAndStamp _
      (noPlaceholder_voronoiCarve _ (noPlaceholder_new _ _ _ (by intro h2; cases h2)))

/-- The maze copy writes only Wall and Floor. -/
theorem noPlaceholder_maze_copy (m : Map) (cells : List MazeCell) :
    noPlaceholder (maze_copy_to_map m cells) := by
  unfold maze_copy_to_map
  refine foldl_preserve noPlaceholder _ ?_ _ _ (fun _ h => by cases h)
  intro st cell hst
  have hF : (TileType.Floor : TileType) ≠ TileType.Placeholder := fun h => by cases h
  repeat' first
  | exact hst
  | refine noPlaceholder_ite _ ?_ ?_
  | refine noPlaceholder_setTile ?_ hF

/-- The maze pipeline never emits Placeholder. -/
theorem noPlaceholder_maze (cells : List MazeCell) (dij : Map → Int → Int → Option Int) :
    noPlaceholder (maze_build cells dij).1 :=
  noPlaceholder_pruneAndStamp _ (noPlaceholder_maze_copy _ cells)

/-- The room-rejection loop of SimpleMap writes only room tiles. -/
theorem noPlaceholder_smGenRooms :
    ∀ (k : Nat) (st : Map × List Rect × Rng), noPlaceholder st.1 →
      noPlaceholder (smGenRooms k st).1 := by
  intro k
  induction k with
  | zero => intro st h; exact h
  | succ n ih =>
    intro st h
    obtain ⟨m, rooms, rng⟩ := st
    unfold smGenRooms
    refine prop_ite _ (fun st2 : Map × List Rect × Rng => noPlaceholder st2.1) ?_ ?_
    · exact ih _ h
    · exact ih _ (noPlaceholder_apply_room _ h)

/-- The tunnel loop of SimpleMap writes only corridor tiles. -/
theorem noPlaceholder_smTunnels (rooms : List Rect) (st : Map × Rng)
    (h : noPlaceholder st.1) : noPlaceholder (smTunnels rooms st).1 := by
  unfold smTunnels
  refine foldl_preserve (fun st2 : Map × Rng => noPlaceholder st2.1) _ ?_ _ st h
  intro st2 pr hst2
  show noPlaceholder (if _ = 1 then _ else _ : Map × Rng).1
  split
  · exact noPlaceholder_draw_corridor _ _ _ _ (noPlaceholder_draw_corridor _ _ _ _ hst2)
  · exact noPlaceholder_draw_corridor _ _ _ _ (noPlaceholder_draw_corridor _ _ _ _ hst2)

/-- The SimpleMap pipeline never emits Placeholder. -/
theorem noPlaceholder_simple_map (rng : Rng) :
    noPlaceholder (simple_map_build rng).1 := by
  refine noPlaceholder_setTile ?_ (by intro h; cases h)
  exact noPlaceholder_smTunnels _ _
    (noPlaceholder_smGenRooms 30 _ (noPlaceholder_new _ _ _ (by intro h; cases h)))

/-- The shared BSP corridor loop writes only corridor tiles. -/
theorem noPlaceholder_bspCorridors (rooms : List Rect) (st : Map × Rng)
    (h : noPlaceholder st.1) : noPlaceholder (bspCorridors rooms st).1 := by
  unfold bspCorridors
  refine foldl_preserve (fun st2 : Map × Rng => noPlaceholder st2.1) _ ?_ _ st h
  intro st2 pr hst2
  exact noPlaceholder_draw_corridor _ _ _ _ hst2

/-- The BSP interior pipeline never emits Placeholder. -/
theorem noPlaceholder_bsp_interior (rects : List Rect) (rng : Rng) :
    noPlaceholder (bsp_interior_build rects rng).1 := by
  refine noPlaceholder_setTile ?_ (by intro h; cases h)
  refine noPlaceholder_bspCorridors _ _ ?_
  refine foldl_preserve noPlaceholder _ ?_ _ _ (noPlaceholder_new _ _ _ (by intro h; cases h))
  intro st room hst
  refine foldl_preserve noPlaceholder _ ?_ _ st hst
  intro st2 y hst2
  refine foldl_preserve noPlaceholder _ ?_ _ st2 hst2
  intro st3 x hst3
  exact noPlaceholder_ite _ (noPlaceholder_setTile hst3 (by intro h; cases h)) hst3

/-- The 240-attempt BSP dungeon loop digs only rooms. -/
theorem noPlaceholder_bspDungeonLoop :
    ∀ (k : Nat) (st : Map × List Rect × List Rect × Rng), noPlaceholder st.1 →
      noPlaceholder (bspDungeonLoop k st).1 := by
  intro k
  induction k with
  | zero => intro st h; exact h
  | succ n ih =>
    intro st h
    obtain ⟨m, rooms, rects, rng⟩ := st
    unfold bspDungeonLoop
    refine prop_ite _ (fun st2 : Map × List Rect × List Rect × Rng => noPlaceholder st2.1)
      ?_ ?_
    · exact ih _ (noPlaceholder_apply_room _ h)
    · exact ih _ h

/-- The BSP dungeon pipeline never emits Placeholder. -/
theorem noPlaceholder_bsp_dungeon (rng : Rng) :
    noPlaceholder (bsp_dungeon_build rng).1 := by
  refine noPlaceholder_setTile ?_ (by intro h; cases h)
  exact noPlaceholder_bspCorridors _ _
    (noPlaceholder_bspDungeonLoop 240 _ (noPlaceholder_new _ _ _ (by intro h; cases h)))

/-- The drunkard's inner walk carves only Floor. -/
theorem noPlaceholder_drunkWalk :
    ∀ (life : Nat) (m : Map) (x y : Int) (rng : Rng), noPlaceholder m →
      noPlaceholder (drunkWalk m x y rng life).1 := by
  intro life
  induction life with
  | zero => intro m x y rng h; exact h
  | succ n ih =>
    intro m x y rng h
    unfold drunkWalk
    exact ih _ _ _ _ (noPlaceholder_ite _ (noPlaceholder_setTile h (by intro h2; cases h2)) h)

/-- The drunkard's digger loop carves only Floor. -/
theorem noPlaceholder_drunkOuter (st : DrunkardSettings) (sx sy : Int) :
    ∀ (fuel : Nat) (m : Map) (rng : Rng) (dc : Nat) (out : Map × Rng),
      noPlaceholder m → drunkOuter st sx sy m rng dc fuel = some out →
      noPlaceholder out.1 := by
  intro fuel
  induction fuel with
  | zero =>
    intro m rng dc out hm h
    unfold drunkOuter at h
    split at h
    · cases h; exact hm
    · cases h
  | succ n ih =>
    intro m rng dc out hm h
    unfold drunkOuter at h
    split at h
    · cases h; exact hm
    · exact ih _ _ _ _ (noPlaceholder_drunkWalk _ _ _ _ _ hm) h

/-- The drunkard pipeline never emits Placeholder. -/
theorem noPlaceholder_drunkard (st : DrunkardSettings) (rng : Rng)
    (dij : Map → Int → Int → Option Int) (fuel : Nat) (m : Map) (pos : Position)
    (h : drunkard_build st rng dij fuel = some (m, pos)) : noPlaceholder m := by
  simp only [drunkard_build] at h
  split at h
  · cases h
  · cases h
    refine noPlaceholder_pruneAndStamp _ ?_
    refine noPlaceholder_drunkOuter st _ _ fuel _ _ _ _ ?_ (by assumption)
    exact noPlaceholder_setTile (noPlaceholder_new _ _ _ (by intro h2; cases h2))
      (by intro h2; cases h2)

/-- apply_paint writes only Floor. -/
theorem noPlaceholder_apply_paint {m : Map} (brush x y : Int)
    (hm : noPlaceholder m) : noPlaceholder (apply_paint m brush x y) := by
  unfold apply_paint
  refine noPlaceholder_ite _ (noPlaceholder_setTile hm (by intro h; cases h)) ?_
  refine foldl_preserve noPlaceholder _ ?_ _ m hm
  intro st yy hst
  refine foldl_preserve noPlaceholder _ ?_ _ st hst
  intro st2 xx hst2
  exact noPlaceholder_ite _ (noPlaceholder_setTile hst2 (by intro h; cases h)) hst2

/-- paint writes only Floor. -/
theorem noPlaceholder_paint {m : Map} (sym : DLASymmetry) (brush x y : Int)
    (hm : noPlaceholder m) : noPlaceholder (paint m sym brush x y) := by
  cases sym
  · exact noPlaceholder_apply_paint _ _ _ hm
  · exact noPlaceholder_ite _ (noPlaceholder_apply_paint _ _ _ hm)
      (noPlaceholder_apply_paint _ _ _ (noPlaceholder_apply_paint _ _ _ hm))
  · exact noPlaceholder_ite _ (noPlaceholder_apply_paint _ _ _ hm)
      (noPlaceholder_apply_paint _ _ _ (noPlaceholder_apply_paint _ _ _ hm))
  · exact noPlaceholder_ite _ (noPlaceholder_apply_paint _ _ _ hm)
      (noPlaceholder_apply_paint _ _ _ (noPlaceholder_apply_paint _ _ _
        (noPlaceholder_apply_paint _ _ _ (noPlaceholder_apply_paint _ _ _ hm))))

/-- paintPoint writes only Floor. -/
theorem noPlaceholder_paintPoint {m : Map} (sym : DLASymmetry) (brush : Int)
    (p : Int × Int) (hm : noPlaceholder m) : noPlaceholder (paintPoint m sym brush p) :=
  noPlaceholder_paint sym brush p.1 p.2 hm

/-- The DLA particle loop paints only Floor. -/
theorem noPlaceholder_dlaOuter (alg : DLAAlgorithm) (sym : DLASymmetry) (brush : Int)
    (desired : Nat) (sx sy : Int) (line : Int → Int → Int → Int → List (Int × Int))
    (walkFuel : Nat) :
    ∀ (fuel : Nat) (m : Map) (rng : Rng) (out : Map × Rng), noPlaceholder m →
      dlaOuter alg sym brush desired sx sy line walkFuel m rng fuel = some out →
      noPlaceholder out.1 := by
  intro fuel
  induction fuel with
  | zero =>
    intro m rng out hm h
    unfold dlaOuter at h
    split at h
    · cases h; exact hm
    · cases h
  | succ n ih =>
    intro m rng out hm h
    unfold dlaOuter at h
    split at h
    · cases h; exact hm
    · split at h
      · split at h
        · cases h
        · exact ih _ _ _ (noPlaceholder_paint _ _ _ _ hm) h
      · split at h
        · cases h
        · exact ih _ _ _ (noPlaceholder_paint _ _ _ _ hm) h
      · exact ih _ _ _ (noPlaceholder_paintPoint _ _ _ hm) h

/-- The DLA pipeline never emits Placeholder. -/
theorem noPlaceholder_dla (alg : DLAAlgorithm) (sym : DLASymmetry) (brush : Int)
    (rng : Rng) (dij : Map → Int → Int → Option Int)
    (line : Int → Int → Int → Int → List (Int × Int)) (fuel walkFuel : Nat)
    (m : Map) (pos : Position)
    (h : dla_build alg sym brush rng dij line fuel walkFuel = some (m, pos)) :
    noPlaceholder m := by
  simp only [dla_build] at h
  split at h
  · cases h
  · cases h
    refine noPlaceholder_pruneAndStamp _ ?_
    refine noPlaceholder_dlaOuter alg sym brush 860 _ _ line walkFuel fuel _ _ _ ?_
      (by assumption)
    have hF : (TileType.Floor : TileType) ≠ TileType.Placeholder := fun h2 => by cases h2
    exact noPlaceholder_setTile (noPlaceholder_setTile (noPlaceholder_setTile
      (noPlaceholder_setTile (noPlaceholder_setTile
        (noPlaceholder_new _ _ _ (by intro h2; cases h2)) hF) hF) hF) hF) hF

/-- eraseDups.loop only reorders elements of its two arguments. -/
theorem mem_eraseDupsLoop {α : Type} [BEq α] :
    ∀ (as bs : List α) (x : α), x ∈ List.eraseDups.loop as bs → x ∈ as ∨ x ∈ bs := by
  intro as
  induction as with
  | nil =>
    intro bs x h
    right
    simpa [List.eraseDups.loop, List.mem_reverse] using h
  | cons a rest ih =>
    intro bs x h
    unfold List.eraseDups.loop at h
    split at h
    · rcases ih bs x h with h1 | h2
      · exact Or.inl (List.mem_cons_of_mem a h1)
      · exact Or.inr h2
    · rcases ih (a :: bs) x h with h1 | h2
      · exact Or.inl (List.mem_cons_of_mem a h1)
      · rcases List.mem_cons.mp h2 with rfl | h3
        · exact Or.inl (List.mem_cons_self x rest)
        · exact Or.inr h3

/-- Membership survives eraseDups. -/
theorem mem_of_mem_eraseDups {α : Type} [BEq α] {l : List α} {x : α}
    (h : x ∈ l.eraseDups) : x ∈ l := by
  rcases mem_eraseDupsLoop l [] x h with h1 | h2
  · exact h1
  · cases h2

/-- Every tile of a row-column grid read comes from the map. -/
theorem mem_gridRead {m : Map} {a b c d : Int} {g : Int → Int → Int} {x : TileType}
    (hx : x ∈ (intRange a b).flatMap (fun y => (intRange c d).map (fun x2 => m.tiles (g x2 y)))) :
    ∃ i, x = m.tiles i := by
  rw [List.mem_flatMap] at hx
  obtain ⟨y, hy, hx2⟩ := hx
  rw [List.mem_map] at hx2
  obtain ⟨x2, hx2m, he⟩ := hx2
  exact ⟨g x2 y, he.symm⟩

/-- Every tile of every extracted pattern is a tile of the source map. -/
theorem build_patterns_mem_tiles {m : Map} {cs : Int} {fl dd : Bool} {p : List TileType}
    (hp : p ∈ build_patterns m cs fl dd) : ∀ x ∈ p, ∃ i, x = m.tiles i := by
  simp only [build_patterns] at hp
  have hp2 : p ∈ (intRange 0 (m.height / cs)).flatMap (fun cy =>
      (intRange 0 (m.width / cs)).flatMap (fun cx =>
        if !fl then
          [(intRange (cy * cs) ((cy + 1) * cs)).flatMap (fun y =>
            (intRange (cx * cs) ((cx + 1) * cs)).map (fun x => m.tiles (m.xy_idx x y)))]
        else
          [(intRange (cy * cs) ((cy + 1) * cs)).flatMap (fun y =>
            (intRange (cx * cs) ((cx + 1) * cs)).map (fun x => m.tiles (m.xy_idx x y))),
           (intRange (cy * cs) ((cy + 1) * cs)).flatMap (fun y =>
            (intRange (cx * cs) ((cx + 1) * cs)).map (fun x =>
              m.tiles (m.xy_idx ((cx + 1) * cs - (x + 1)) y))),
           (intRange (cy * cs) ((cy + 1) * cs)).flatMap (fun y =>
            (intRange (cx * cs) ((cx + 1) * cs)).map (fun x =>
              m.tiles (m.xy_idx x ((cy + 1) * cs - (y + 1))))),
           (intRange (cy * cs) ((cy + 1) * cs)).flatMap (fun y =>
            (intRange (cx * cs) ((cx + 1) * cs)).map (fun x =>
              m.tiles (m.xy_idx ((cx + 1) * cs - (x + 1)) ((cy + 1) * cs - (y + 1)))))])) := by
    split at hp
    · exact mem_of_mem_eraseDups hp
    · exact hp
  rw [List.mem_flatMap] at hp2
  obtain ⟨cy, hcy, hp3⟩ := hp2
  rw [List.mem_flatMap] at hp3
  obtain ⟨cx, hcx, hp4⟩ := hp3
  intro x hx
  split at hp4
  · rcases List.mem_singleton.mp hp4 with rfl
    exact mem_gridRead hx
  · simp only [List.mem_cons, List.mem_singleton, List.not_mem_nil, or_false] at hp4
    rcases hp4 with rfl | rfl | rfl | rfl
    · exact mem_gridRead hx
    · exact mem_gridRead hx
    · exact mem_gridRead hx
    · exact mem_gridRead hx

/-- The pattern of every constraint chunk is one of the input
patterns. -/
theorem patterns_to_constraints_pattern_mem {ps : List (List TileType)} {cs : Int}
    {c : MapChunk} (hc : c ∈ patterns_to_constraints ps cs) : c.pattern ∈ ps := by
  simp only [patterns_to_constraints] at hc
  rw [List.mem_map] at hc
  obtain ⟨c0, hc0, rfl⟩ := hc
  rw [List.mem_map] at hc0
  obtain ⟨p, hpm, rfl⟩ := hc0
  exact hpm

/-- getD from a clean chunk list yields a clean pattern (the default
chunk's pattern is empty). -/
theorem chunk_getD_pattern_clean {cs : List MapChunk}
    (hc : ∀ c ∈ cs, ∀ x ∈ c.pattern, x ≠ TileType.Placeholder) :
    ∀ (k : Nat), ∀ x ∈ (cs.getD k default).pattern, x ≠ TileType.Placeholder := by
  induction cs with
  | nil =>
    intro k x hx
    cases hx
  | cons a t ih =>
    intro k x hx
    cases k with
    | zero => exact hc a (List.mem_cons_self a t) x (by simpa using hx)
    | succ n =>
      exact ih (fun c hcc => hc c (List.mem_cons_of_mem a hcc)) n x (by simpa using hx)

/-- One solver iteration keeps the constraint table and never writes
Placeholder (it blits only constraint patterns). -/
theorem iteration_preserve (s : Solver) (m : Map) (rng : Rng)
    (hc : ∀ c ∈ s.constraints, ∀ x ∈ c.pattern, x ≠ TileType.Placeholder)
    (hm : noPlaceholder m) :
    ((Solver.iteration s m rng).1).constraints = s.constraints ∧
    noPlaceholder ((Solver.iteration s m rng).2.1) := by
  rcases iteration_cases s m rng with ⟨h1, heq⟩ | ⟨r2, rng1, hlen, heq⟩ |
    ⟨r2, ci, k, rng2, hlen, hmem, heq⟩
  · rw [heq]; exact ⟨rfl, hm⟩
  · rw [heq]; exact ⟨rfl, hm⟩
  · rw [heq]
    exact ⟨rfl, noPlaceholder_blitChunk _ _ _ _ (chunk_getD_pattern_clean hc k) hm⟩

/-- A completed solver run keeps the map Placeholder-free. -/
theorem solveFuel_preserve :
    ∀ (fuel : Nat) (s : Solver) (m : Map) (rng : Rng) (out : Solver × Map × Rng),
      (∀ c ∈ s.constraints, ∀ x ∈ c.pattern, x ≠ TileType.Placeholder) →
      noPlaceholder m → solveFuel fuel s m rng = some out →
      noPlaceholder out.2.1 := by
  intro fuel
  induction fuel with
  | zero => intro s m rng out hc hm h; cases h
  | succ n ih =>
    intro s m rng out hc hm h
    unfold solveFuel at h
    obtain ⟨hceq, hmp⟩ := iteration_preserve s m rng hc hm
    split at h
    · next s2 m2 rng2 heq =>
      cases h
      rw [heq] at hmp
      exact hmp
    · next s2 m2 rng2 heq =>
      refine ih s2 m2 rng2 out ?_ ?_ h
      · rw [heq] at hceq
        exact hceq ▸ hc
      · rw [heq] at hmp
        exact hmp

/-- The waveform-collapse retry loop keeps the map Placeholder-free. -/
theorem wfcRetry_preserve (constraints : List MapChunk)
    (hc : ∀ c ∈ constraints, ∀ x ∈ c.pattern, x ≠ TileType.Placeholder) :
    ∀ (fuel : Nat) (m : Map) (rng : Rng) (out : Map × Rng), noPlaceholder m →
      wfcRetry constraints m rng fuel = some out → noPlaceholder out.1 := by
  intro fuel
  induction fuel with
  | zero => intro m rng out hm h; cases h
  | succ n ih =>
    intro m rng out hm h
    unfold wfcRetry at h
    split at h
    · cases h
    · next s2 m2 rng2 heq =>
      have hm2 : noPlaceholder m2 :=
        solveFuel_preserve _ (Solver.new constraints 8 m) m rng (s2, m2, rng2) hc hm heq
      split at h
      · cases h
        exact hm2
      · exact ih m2 rng2 out hm2 h

/-- Rewriting DownStairs to Floor keeps the map Placeholder-free. -/
theorem noPlaceholder_stairsToFloor {src : Map} (hs : noPlaceholder src) :
    noPlaceholder { src with tiles := fun i =>
      (if src.tiles i = TileType.DownStairs then TileType.Floor else src.tiles i) } := by
  intro i
  show (if src.tiles i = TileType.DownStairs then TileType.Floor else src.tiles i) ≠ _
  split
  · intro h; cases h
  · exact hs i

/-- The waveform-collapse pipeline never emits Placeholder when derived
from a Placeholder-free source map. -/
theorem noPlaceholder_wfc (src : Map) (rng : Rng) (dij : Map → Int → Int → Option Int)
    (retryFuel walkFuel : Nat) (m : Map) (pos : Position) (hs : noPlaceholder src)
    (h : waveform_collapse_build src rng dij retryFuel walkFuel = some (m, pos)) :
    noPlaceholder m := by
  simp only [waveform_collapse_build] at h
  split at h
  · cases h
  · next m2 rng2 heq =>
    refine noPlaceholder_caFinish dij walkFuel m pos ?_ h
    refine (wfcRetry_preserve _ ?_ retryFuel _ _ (m2, rng2)
      (noPlaceholder_new _ _ _ (by intro h2; cases h2)) heq : _)
    intro c hcmem x hx
    obtain ⟨i, hxi⟩ := build_patterns_mem_tiles (patterns_to_constraints_pattern_mem hcmem) x hx
    rw [hxi]
    exact noPlaceholder_stairsToFloor hs i

/-- Every strategy arm of the dispatch yields a Placeholder-free map. -/
theorem noPlaceholder_strategy (idx : Nat) (buildRng : Rng)
    (dij : Map → Int → Int → Option Int)
    (line : Int → Int → Int → Int → List (Int × Int))
    (cells : List MazeCell) (rects : List Rect)
    (fatSettings fearfulSettings : DrunkardSettings)
    (fuel walkFuel : Nat) (mp : Map × Position)
    (h : strategy_build idx buildRng dij line cells rects fatSettings fearfulSettings
      fuel walkFuel = some mp) : noPlaceholder mp.1 := by
  obtain ⟨mm, pp⟩ := mp
  unfold strategy_build at h
  rcases idx with _|_|_|_|_|_|_|_|_|_|_|_|_|_|_|_|_|idx
  · injection h with h2
    rw [← congrArg Prod.fst h2]
    exact noPlaceholder_simple_map buildRng
  · injection h with h2
    rw [← congrArg Prod.fst h2]
    exact noPlaceholder_bsp_interior rects buildRng
  · exact noPlaceholder_cellular _ _ _ _ _ h
  · injection h with h2
    rw [← congrArg Prod.fst h2]
    exact noPlaceholder_bsp_dungeon buildRng
  · exact noPlaceholder_drunkard _ _ _ _ _ _ h
  · exact noPlaceholder_drunkard _ _ _ _ _ _ h
  · exact noPlaceholder_drunkard _ _ _ _ _ _ h
  · exact noPlaceholder_drunkard _ _ _ _ _ _ h
  · exact noPlaceholder_drunkard _ _ _ _ _ _ h
  · injection h with h2
    rw [← congrArg Prod.fst h2]
    exact noPlaceholder_maze cells dij
  · exact noPlaceholder_dla _ _ _ _ _ _ _ _ _ _ h
  · exact noPlaceholder_dla _ _ _ _ _ _ _ _ _ _ h
  · exact noPlaceholder_dla _ _ _ _ _ _ _ _ _ _ h
  · exact noPlaceholder_dla _ _ _ _ _ _ _ _ _ _ h
  · exact noPlaceholder_voronoi _ _ _ _ _ _ h
  · exact noPlaceholder_voronoi _ _ _ _ _ _ h
  · exact noPlaceholder_voronoi _ _ _ _ _ _ h
  · exact noPlaceholder_voronoi _ _ _ _ _ _ h

/-- C9.  For every strategy reachable from random_builder -- any
dispatch roll, any build randomness, any Dijkstra or line oracle, any
maze cell graph or BSP rect list, any drunkard settings (covering the
two constructors absent from this snapshot), any fuel, and with or
without the 1-in-3 waveform-collapse wrap -- a finished build contains
no Placeholder tile at any index: the only Placeholder writers in the
repository are the visualiser-only carve of drunkard.rs (compiled out
of the game build, and swept back to Floor even with the feature on)
and render_pattern_to_map, which the build path never calls. -/
theorem C9_no_placeholder_in_finished_maps
    (dispatchRng buildRng wfcRng : Rng) (dij : Map → Int → Int → Option Int)
    (line : Int → Int → Int → Int → List (Int × Int))
    (cells : List MazeCell) (rects : List Rect)
    (fatSettings fearfulSettings : DrunkardSettings)
    (fuel walkFuel retryFuel : Nat) (m : Map) (pos : Position)
    (h : random_builder dispatchRng buildRng wfcRng dij line cells rects
      fatSettings fearfulSettings fuel walkFuel retryFuel = some (m, pos)) :
    ∀ i : Int, m.tiles i ≠ TileType.Placeholder := by
  unfold random_builder at h
  split at h
  · cases h
  · next m0 p0 heq =>
    have hb : noPlaceholder m0 :=
      noPlaceholder_strategy _ buildRng dij line cells rects fatSettings fearfulSettings
        fuel walkFuel (m0, p0) heq
    split at h
    · exact noPlaceholder_wfc m0 wfcRng dij retryFuel walkFuel m pos hb h
    · cases h
      exact hb

/-- C9 witness: the dispatch run on the fixture streams (SimpleMap,
wrap declined) succeeds, and its finished map has no Placeholder
anywhere. -/
theorem C9_no_placeholder_witness :
    c9Run = some ((c9Run.getD (Map.new 1 1 none, { x := 0, y := 0 })).1,
      (c9Run.getD (Map.new 1 1 none, { x := 0, y := 0 })).2) ∧
    ∀ i : Int,
      (c9Run.getD (Map.new 1 1 none, { x := 0, y := 0 })).1.tiles i ≠
        TileType.Placeholder :=
  ⟨rfl,
    C9_no_placeholder_in_finished_maps (rngOfList [0, 1]) (rngOfList []) (rngOfList [])
      (fun _ _ _ => none) (fun _ _ _ _ => []) [] []
      openAreaSettings openAreaSettings 1 1 1
      (c9Run.getD (Map.new 1 1 none, { x := 0, y := 0 })).1
      (c9Run.getD (Map.new 1 1 none, { x := 0, y := 0 })).2 rfl⟩

end Rogue
